import Mathlib

/-!
# Shoddy Battle: turn controller and creature health

A shallow embedding of the turn-synchronisation layer of
`src/network/NetworkBattle.cpp` and of the health bookkeeping of
`src/shoddybattle/Pokemon.cpp`, followed by theorems about them.

Conventions of the embedding.

* `std::vector` is `List`; `v[i]` on an index that is out of range and
  `pop_back` on an empty vector are undefined in C++, so every operation that
  can reach one of them returns `Option`, with `none` standing for "undefined".
* C++ `int` is `Int`. Signed overflow is undefined in C++ and is not modelled:
  the theorems speak of executions in which no `int` operation overflows. The
  casts to `unsigned char` and `int16_t` are modelled, with their wrap-around.
* `double` arithmetic in `informHealthChange` is carried out exactly, in `ℚ`; the
  conversion `double → int` discards the fraction, as in C++.
* Messages are not serialised: an outgoing message is a record of its fields,
  and sending or broadcasting appends to a log kept in the state.
* The battle field (`BattleField.cpp` is not part of the sources at hand) is an
  oracle record; every transition may see a different oracle.
-/

namespace shoddybattle

/-! ## Orders -/

/-- Kind tag of an order (`TURN_TYPE`). -/
inductive TurnType where
  | TT_MOVE
  | TT_SWITCH
deriving DecidableEq, Repr

/-- An order: `PokemonTurn(type, id, target)`. -/
structure PokemonTurn where
  type : TurnType
  id : Int
  target : Int
deriving DecidableEq, Repr

/-- Orders received from one party: `typedef vector<PokemonTurn> PARTY_TURN`,
in submission order (`push_back`). -/
abbrev PARTY_TURN := List PokemonTurn

/-- Slots that still owe an order: `typedef vector<int> PARTY_REQUEST`. -/
abbrev PARTY_REQUEST := List Int

/-- Number of parties in a battle (`TEAM_COUNT`). -/
def TEAM_COUNT : Nat := 2

/-! ## What the controller reads from the field -/

/-- The getters of an active `Pokemon` that `requestAction` reads. -/
structure ActivePokemon where
  slot : Int
  position : Int
  switchLegal : Bool
  forced : Bool
  moveLegal : List Bool
deriving DecidableEq, Repr

/-- Oracle for the `BattleField` calls made by the controller.
`getActivePokemon party slot` may be a null pointer (`none`). -/
structure BattleField where
  getId : Int
  getActivePokemon : Nat → Int → Option ActivePokemon
  getLegalSwitches : ActivePokemon → List Bool
  isTurnLegal : Option ActivePokemon → PokemonTurn → Bool → Bool
  activePokemon : List (Nat × Int)
  faintedPokemon : List (Nat × Int)
  getAliveCount : Nat → Int

/-! ## Messages -/

/-- Body of a `REQUEST_ACTION`. `detail` is present when the request is not a
replacement: `(switchLegal, forced, moves)`, where `moves` holds the per-move
legality bytes and is present when no move is forced. -/
structure RequestAction where
  fieldId : Int
  slot : Int
  position : Int
  replacement : Bool
  switches : List Bool
  detail : Option (Bool × Bool × Option (List Bool))
deriving DecidableEq, Repr

/-- Body of a `BATTLE_HEALTH_CHANGE`. -/
structure HealthChange where
  fieldId : Int
  party : Int
  slot : Int
  name : String
  delta : Int
  total : Int
deriving DecidableEq, Repr

/-- The outgoing messages that occur in this development. -/
inductive OutMessage where
  | REQUEST_ACTION (m : RequestAction)
  | BATTLE_HEALTH_CHANGE (m : HealthChange)
  | BATTLE_VICTORY (fieldId party : Int)
  | BATTLE_BEGIN_TURN (fieldId turnCount : Int)
  | BATTLE_SET_PP (fieldId index move pp : Int)
deriving DecidableEq, Repr

/-- The cast `(unsigned char)x`. -/
def toUChar (x : Int) : Int := x % 256

/-- The cast `(int16_t)x`. -/
def toInt16 (x : Int) : Int := (x + 32768) % 65536 - 32768

/-! ## Controller state -/

/-- The fields of `struct NetworkBattleImpl` used by the turn controller.
`clients` holds client identifiers; `posted` is the sequence of rounds handed
to `queue.post`, `sent` the messages delivered to single clients, `broadcasts`
the messages handed to `channel->broadcast`. -/
structure NetworkBattleImpl where
  clients : List Nat
  turns : List PARTY_TURN
  requests : List PARTY_REQUEST
  replacement : Bool
  victory : Bool
  turnCount : Int
  posted : List PARTY_TURN
  sent : List (Nat × OutMessage)
  broadcasts : List OutMessage := []
deriving DecidableEq, Repr

/-- The method `getClient(idx)`: the null pointer when `idx` is not a client index. -/
def getClient (s : NetworkBattleImpl) (idx : Nat) : Option Nat :=
  if s.clients.length ≤ idx then none else s.clients[idx]?

/-- The loop of `requestAction` that clears the mask entry of every switch
order already in `turn`: `switches[t.id] = false`. -/
def maskSwitches : List Bool → PARTY_TURN → Option (List Bool)
  | switches, [] => some switches
  | switches, t :: rest =>
    if t.type = TurnType.TT_SWITCH then
      if 0 ≤ t.id ∧ t.id.toNat < switches.length then
        maskSwitches (switches.set t.id.toNat false) rest
      else none
    else maskSwitches switches rest

/-- The message assembled by `requestAction` for the creature `p`. -/
def requestActionMessage (f : BattleField) (replacement : Bool) (p : ActivePokemon)
    (switches : List Bool) : RequestAction :=
  { fieldId := f.getId
    slot := toUChar p.slot
    position := toUChar p.position
    replacement := replacement
    switches := switches
    detail :=
      if !replacement then
        some (p.switchLegal, p.forced, if !p.forced then some p.moveLegal else none)
      else none }

/-- The method `NetworkBattleImpl::requestAction(party)`. The message goes to the
client of `party` when there is one. -/
def requestAction (f : BattleField) (s : NetworkBattleImpl) (party : Nat) :
    Option NetworkBattleImpl := do
  let turn ← s.turns[party]?
  let size := turn.length
  let req ← s.requests[party]?
  let slot ← req[size]?
  let p ← f.getActivePokemon party slot
  let switches ← maskSwitches (f.getLegalSwitches p) turn
  let msg := requestActionMessage f s.replacement p switches
  match getClient s party with
  | some client => pure { s with sent := s.sent ++ [(client, OutMessage.REQUEST_ACTION msg)] }
  | none => pure s

/-- The loop `for (i < TEAM_COUNT) requestAction(i)` over a list of parties. -/
def requestActions (f : BattleField) : NetworkBattleImpl → List Nat → Option NetworkBattleImpl
  | s, [] => some s
  | s, i :: rest => do
    let s1 ← requestAction f s i
    requestActions f s1 rest

/-- The loop of `requestMoves` over the active creatures:
`requests[party].push_back(slot)`. -/
def pushRequests : List PARTY_REQUEST → List (Nat × Int) → Option (List PARTY_REQUEST)
  | requests, [] => some requests
  | requests, (party, slot) :: rest => do
    let r ← requests[party]?
    pushRequests (requests.set party (r ++ [slot])) rest

/-- The method `NetworkBattleImpl::requestMoves()`. -/
def requestMoves (f : BattleField) (s : NetworkBattleImpl) : Option NetworkBattleImpl := do
  let requests ← pushRequests s.requests f.activePokemon
  requestActions f { s with replacement := false, requests := requests } (List.range TEAM_COUNT)

/-- The loop of `requestReplacements` over the fainted creatures; the state of
the loop is `(alive, requests, replacement)`. -/
def replacementLoop : List Int → List PARTY_REQUEST → Bool → List (Nat × Int) →
    Option (List Int × List PARTY_REQUEST × Bool)
  | alive, requests, replacement, [] => some (alive, requests, replacement)
  | alive, requests, replacement, (party, slot) :: rest => do
    let a ← alive[party]?
    if a > 1 then
      let r ← requests[party]?
      replacementLoop (alive.set party (a - 1)) (requests.set party (r ++ [slot])) true rest
    else
      replacementLoop alive requests replacement rest

/-- The final loop of `requestReplacements`: `requestAction(i)` for every party
whose request list is not empty. -/
def requestNonEmpty (f : BattleField) : NetworkBattleImpl → List Nat → Option NetworkBattleImpl
  | s, [] => some s
  | s, i :: rest => do
    let r ← s.requests[i]?
    if r.isEmpty then requestNonEmpty f s rest
    else
      let s1 ← requestAction f s i
      requestNonEmpty f s1 rest

/-- The method `NetworkBattleImpl::requestReplacements()`, with its return value. -/
def requestReplacements (f : BattleField) (s : NetworkBattleImpl) :
    Option (Bool × NetworkBattleImpl) :=
  if f.faintedPokemon.isEmpty then some (false, s)
  else do
    let alive := (List.range TEAM_COUNT).map f.getAliveCount
    let (_, requests, replacement) ← replacementLoop alive s.requests false f.faintedPokemon
    let s1 := { s with replacement := replacement, requests := requests }
    if !replacement then pure (false, s1)
    else
      let s2 ← requestNonEmpty f s1 (List.range TEAM_COUNT)
      pure (true, s2)

/-- First loop of `maybeExecuteTurn`: `false` as soon as the request list and
the turn list of some party differ in length. -/
def allSubmitted (requests : List PARTY_REQUEST) (turns : List PARTY_TURN) :
    List Nat → Option Bool
  | [] => some true
  | i :: rest => do
    let r ← requests[i]?
    let t ← turns[i]?
    if r.length ≠ t.length then pure false else allSubmitted requests turns rest

/-- Second loop of `maybeExecuteTurn`: append the orders of each party to the
round and clear its two lists. The state of the loop is `(turn, turns, requests)`. -/
def collectTurn : PARTY_TURN → List PARTY_TURN → List PARTY_REQUEST → List Nat →
    Option (PARTY_TURN × List PARTY_TURN × List PARTY_REQUEST)
  | turn, turns, requests, [] => some (turn, turns, requests)
  | turn, turns, requests, i :: rest => do
    let v ← turns[i]?
    let _ ← requests[i]?
    collectTurn (turn ++ v) (turns.set i []) (requests.set i []) rest

/-- The method `NetworkBattleImpl::maybeExecuteTurn()`; `queue.post(turn)` appends
the round to `posted`. -/
def maybeExecuteTurn (s : NetworkBattleImpl) : Option NetworkBattleImpl := do
  let count := s.requests.length
  let ready ← allSubmitted s.requests s.turns (List.range count)
  if !ready then pure s
  else
    let (turn, turns, requests) ← collectTurn [] s.turns s.requests (List.range count)
    pure { s with turns := turns, requests := requests, posted := s.posted ++ [turn] }

/-- The method `NetworkBattleImpl::cancelAction(party)`. The call `turn.pop_back()`
on an empty vector is undefined. -/
def cancelAction (f : BattleField) (s : NetworkBattleImpl) (party : Nat) :
    Option NetworkBattleImpl := do
  let turn ← s.turns[party]?
  let req ← s.requests[party]?
  if req.length = turn.length then pure s
  else if turn.isEmpty then none
  else requestAction f { s with turns := s.turns.set party turn.dropLast } party

/-- The loop of `handleTurn` that looks for an earlier switch order with the
same target among `pturn[0 .. present)`. -/
def hasSwitchTo (id : Int) : PARTY_TURN → Bool
  | [] => false
  | t :: rest => if t.type = TurnType.TT_SWITCH ∧ t.id = id then true else hasSwitchTo id rest

/-- The method `NetworkBattle::handleTurn(party, turn)`. -/
def handleTurn (f : BattleField) (s : NetworkBattleImpl) (party : Nat) (turn : PokemonTurn) :
    Option NetworkBattleImpl := do
  let req ← s.requests[party]?
  let pturn ← s.turns[party]?
  let max := req.length
  let present := pturn.length
  if present = max then pure s
  else
    let slot ← req[present]?
    let pokemon := f.getActivePokemon party slot
    if !f.isTurnLegal pokemon turn s.replacement then requestAction f s party
    else if turn.type = TurnType.TT_SWITCH ∧ hasSwitchTo turn.id pturn then
      requestAction f s party
    else
      let s1 := { s with turns := s.turns.set party (pturn ++ [turn]) }
      if pturn.length + 1 < max then requestAction f s1 party
      else maybeExecuteTurn s1

/-- The method `NetworkBattleImpl::broadcast(msg)`. -/
def broadcast (s : NetworkBattleImpl) (msg : OutMessage) : NetworkBattleImpl :=
  { s with broadcasts := s.broadcasts ++ [msg] }

/-- The method `NetworkBattleImpl::informBeginTurn()`. -/
def informBeginTurn (f : BattleField) (s : NetworkBattleImpl) : NetworkBattleImpl :=
  broadcast s (OutMessage.BATTLE_BEGIN_TURN f.getId (toInt16 s.turnCount))

/-- The method `NetworkBattleImpl::beginTurn()`. -/
def beginTurn (f : BattleField) (s : NetworkBattleImpl) : Option NetworkBattleImpl :=
  requestMoves f (informBeginTurn f { s with turnCount := s.turnCount + 1 })

/-- The method `NetworkBattleImpl::executeTurn(ptr)`. The calls
`field->processTurn(*ptr)` and `field->processReplacements(*ptr)` resolve the
round in `BattleField.cpp`, which is not part of the sources at hand; they are
parameters acting on the controller state (a resolution may call
`informVictory`), and `f` is the field as it is after the resolution. -/
def executeTurn (f : BattleField)
    (processTurn processReplacements : PARTY_TURN → NetworkBattleImpl → NetworkBattleImpl)
    (s : NetworkBattleImpl) (ptr : PARTY_TURN) : Option NetworkBattleImpl :=
  let s1 := if s.replacement then processReplacements ptr s else processTurn ptr s
  if s1.victory then some s1
  else do
    let (replacements, s2) ← requestReplacements f s1
    if replacements then pure s2 else beginTurn f s2

/-- The loop of `NetworkBattle::getParty(client)` over `clients[i]`, `i < count`,
started at index `i`. -/
def getPartyLoop (client : Nat) : List Nat → Int → Int
  | [], _ => -1
  | c :: rest, i => if c = client then i else getPartyLoop client rest (i + 1)

/-- The method `NetworkBattle::getParty(client)`: the index of the client among
the first two clients, or -1. -/
def getParty (s : NetworkBattleImpl) (client : Nat) : Int :=
  let count := if s.clients.length > 2 then 2 else s.clients.length
  getPartyLoop client (s.clients.take count) 0

/-- A battle together with its channel: `channelField` says whether the back
pointer `BattleChannel::m_field` is set. -/
structure NetworkBattle where
  impl : NetworkBattleImpl
  channelField : Bool
deriving DecidableEq, Repr

/-- The method `NetworkBattle::terminate()`. It calls
`clients[0]->terminateBattle(p, clients[1])`, undefined without two clients, and
ends with `channel->informBattleTerminated()`, which clears the back pointer of
the channel. -/
def NetworkBattle.terminate (b : NetworkBattle) : Option NetworkBattle := do
  let _ ← b.impl.clients[0]?
  let _ ← b.impl.clients[1]?
  pure { b with channelField := false }

/-- The method `NetworkBattle::informVictory(party)`; `fieldId` is `getId()`. -/
def NetworkBattle.informVictory (fieldId : Int) (b : NetworkBattle) (party : Int) :
    Option NetworkBattle :=
  let impl := broadcast { b.impl with victory := true }
    (OutMessage.BATTLE_VICTORY fieldId (toInt16 party))
  NetworkBattle.terminate { b with impl := impl }

/-- The method `BattleChannel::handlePart(client)`. -/
def handlePart (fieldId : Int) (b : NetworkBattle) (client : Nat) : Option NetworkBattle :=
  if b.channelField ∧ getParty b.impl client ≠ -1 then
    NetworkBattle.informVictory fieldId b (1 - getParty b.impl client)
  else some b

/-- The slots of the creatures of `party` in a list of `(party, slot)` pairs,
in order. -/
def slotsOf (party : Nat) (l : List (Nat × Int)) : List Int :=
  (l.filter (fun x => x.1 = party)).map (fun x => x.2)

/-- A field whose lists of active and of fainted creatures name parties of the
battle and slots that hold a creature, and in which each party has an active
creature. -/
def FieldReady (f : BattleField) : Prop :=
  (∀ x ∈ f.activePokemon, x.1 < TEAM_COUNT ∧ ∃ p, f.getActivePokemon x.1 x.2 = some p) ∧
  (∀ x ∈ f.faintedPokemon, x.1 < TEAM_COUNT ∧ ∃ p, f.getActivePokemon x.1 x.2 = some p) ∧
  (∀ party, party < TEAM_COUNT → ∃ slot, (party, slot) ∈ f.activePokemon)

/-- One call of a controller operation that returns normally. -/
inductive Step : NetworkBattleImpl → NetworkBattleImpl → Prop where
  | requestMoves (f : BattleField) {s s1 : NetworkBattleImpl} :
      requestMoves f s = some s1 → Step s s1
  | requestReplacements (f : BattleField) {s s1 : NetworkBattleImpl} (b : Bool) :
      requestReplacements f s = some (b, s1) → Step s s1
  | handleTurn (f : BattleField) (party : Nat) (turn : PokemonTurn) {s s1 : NetworkBattleImpl} :
      handleTurn f s party turn = some s1 → Step s s1
  | cancelAction (f : BattleField) (party : Nat) {s s1 : NetworkBattleImpl} :
      cancelAction f s party = some s1 → Step s s1
  | maybeExecuteTurn {s s1 : NetworkBattleImpl} :
      maybeExecuteTurn s = some s1 → Step s s1

/-- States reached from `s0` by any finite sequence of controller operations. -/
inductive Reachable (s0 : NetworkBattleImpl) : NetworkBattleImpl → Prop where
  | init : Reachable s0 s0
  | step {s s1 : NetworkBattleImpl} : Reachable s0 s → Step s s1 → Reachable s0 s1

/-- The controller state right after the `NetworkBattle` constructor: both
vectors resized to `TEAM_COUNT` empty lists. -/
def initialBattle (clients : List Nat) : NetworkBattleImpl :=
  { clients := clients
    turns := List.replicate TEAM_COUNT []
    requests := List.replicate TEAM_COUNT []
    replacement := false
    victory := false
    turnCount := 0
    posted := []
    sent := [] }

/-- A field with one active creature per party, used in the examples. -/
def exampleField : BattleField :=
  { getId := 7
    getActivePokemon := fun party slot =>
      if party < 2 ∧ slot = 0 then
        some { slot := 0, position := 0, switchLegal := true, forced := false,
               moveLegal := [true, true] }
      else none
    getLegalSwitches := fun _ => [false, true, true]
    isTurnLegal := fun _ t _ => decide (0 ≤ t.id ∧ t.id < 3)
    activePokemon := [(0, 0), (1, 0)]
    faintedPokemon := []
    getAliveCount := fun _ => 3 }

/-- How one operation may change the turn list `t` of a party (request list `r`):
not at all, by appending an accepted order, or by dropping the last order. -/
def OrderUpdate (t : PARTY_TURN) (r : PARTY_REQUEST) (u : PARTY_TURN) : Prop :=
  u = t ∨
  (∃ turn, u = t ++ [turn] ∧ t.length ≠ r.length ∧
    (turn.type = TurnType.TT_SWITCH → hasSwitchTo turn.id t = false)) ∨
  u = t.dropLast

/-- The switch orders of one turn list have pairwise distinct target ids. -/
def DistinctSwitchTargets (ts : PARTY_TURN) : Prop :=
  ts.Pairwise (fun a b => a.type = TurnType.TT_SWITCH → b.type = TurnType.TT_SWITCH → a.id ≠ b.id)

instance (ts : PARTY_TURN) : Decidable (DistinctSwitchTargets ts) := by
  unfold DistinctSwitchTargets; infer_instance

/-- The example battle after `requestMoves`: one order is owed by each party. -/
def exampleRequested : NetworkBattleImpl :=
  { initialBattle [10, 11] with
    requests := [[0], [0]]
    sent :=
      [(10, OutMessage.REQUEST_ACTION
          { fieldId := 7, slot := 0, position := 0, replacement := false,
            switches := [false, true, true], detail := some (true, false, some [true, true]) }),
       (11, OutMessage.REQUEST_ACTION
          { fieldId := 7, slot := 0, position := 0, replacement := false,
            switches := [false, true, true], detail := some (true, false, some [true, true]) })] }

/-- The example battle after party 0 has submitted a switch to team position 1. -/
def exampleOneOrder : NetworkBattleImpl :=
  { exampleRequested with turns := [[{ type := TurnType.TT_SWITCH, id := 1, target := 0 }], []] }

/-- A state in which both parties of the example battle have submitted. -/
def exampleComplete : NetworkBattleImpl :=
  { exampleRequested with
    turns := [[{ type := TurnType.TT_SWITCH, id := 1, target := 0 }],
              [{ type := TurnType.TT_MOVE, id := 0, target := 0 }]] }

/-- The example battle after the round of `exampleComplete` has been posted. -/
def examplePosted : NetworkBattleImpl :=
  { exampleComplete with
    turns := [[], []]
    requests := [[], []]
    posted := [[{ type := TurnType.TT_SWITCH, id := 1, target := 0 },
                { type := TurnType.TT_MOVE, id := 0, target := 0 }]] }

/-- A resolution of a round that leaves the controller state as it is. -/
def resolveNothing : PARTY_TURN → NetworkBattleImpl → NetworkBattleImpl :=
  fun _ st => st

/-- The example battle with its channel, while the battle is live. -/
def exampleBattle : NetworkBattle :=
  { impl := exampleRequested, channelField := true }

/-- An order is a switch to the mask position `j`. -/
def SwitchesTo (t : PokemonTurn) (j : Nat) : Prop :=
  t.type = TurnType.TT_SWITCH ∧ t.id = (j : Int)

/-! ## Creatures -/

/-- Modelled from the spec: the kind tag of an effect (ability, item, condition,
field, move-lock). The class `StatusObject` is not part of the sources at
hand. -/
inductive EffectKind where
  | ability
  | item
  | condition
  | field
  | moveLock
deriving DecidableEq, Repr

/-- The attributes and hooks of a `StatusObject` that the creature reads.
`StatusObject` itself is not part of the sources at hand, so every hook is a
parameter: the scripted hook `transformHealthChange(cx, hp, indirect, &out)` is
the function from the change it receives to the change it leaves in `out`;
`applyEffect` and `switchOut` are the answers of the hooks of those names;
`removable` is the answer of `isRemovable`. `handle` stands for the identity of
the object, `kind` for its kind tag. `inherentPriority`, `immunity`,
`vulnerability` and `statModifier` are the answers of `getInherentPriority`,
`getImmunity`, `getVulnerability` (the null type is `none`) and of
`getStatModifier` for a stat (`none` when it answers false, else the priority
and the value it leaves in `mod`). -/
structure StatusObject where
  isActive : Bool
  transformHealthChange : Int → Bool → Int
  handle : Nat := 0
  id : String := ""
  kind : EffectKind := EffectKind.condition
  lock : Int := 0
  singleton : Bool := false
  removable : Bool := false
  applyEffect : Bool := true
  switchOut : Bool := false
  inducer : Option Nat := none
  subject : Option Nat := none
  inherentPriority : Int := 0
  immunity : Option Nat := none
  vulnerability : Option Nat := none
  statModifier : Nat → Option (Int × ℚ) := fun _ => none

/-- A move in the move database: `MoveTemplate`, with its name and base PP. -/
structure MoveTemplate where
  name : String
  pp : Int
deriving DecidableEq, Repr

/-- A move object of a creature: `MoveObject`, with what `getName` and `getPp`
answer. -/
structure MoveObject where
  name : String
  pp : Int
deriving DecidableEq, Repr

/-- The call `m_cx->newMoveObject(template)`. -/
def newMoveObject (t : MoveTemplate) : MoveObject :=
  { name := t.name, pp := t.pp }

/-- An entry of the targeting memory, `MEMORY`: who used which move. -/
structure MEMORY where
  user : Nat
  move : Nat
deriving DecidableEq, Repr

/-- An entry of the execution stack, `BattleField::EXECUTION`: the user and the
move being resolved, each named by an identifier. -/
structure EXECUTION where
  user : Nat
  move : Nat
deriving DecidableEq, Repr

/-- An entry of the recent-damage queue, `RECENT_DAMAGE`. -/
structure RECENT_DAMAGE where
  user : Nat
  move : Nat
  damage : Int
deriving DecidableEq, Repr

/-- Calls that `setHp` makes on the field and on scripts, in order. -/
inductive FieldCall where
  | informHealthChange (delta : Int)
  | informDamaging (user : Nat)
  | informDamaged (user move : Nat) (damage : Int)
  | informFainted
deriving DecidableEq, Repr

/-- The members of `class Pokemon` used here: `statHp` is `m_stat[S_HP]` (also
what `getRawStat(S_HP)` returns) and `stats` holds `m_stat[1 .. STAT_COUNT)`;
`hp` is `m_hp`. The pointers `m_ability` and `m_item` are the handles of the
objects they point to; `nextHandle` is the identity that the next object made by
`cloneAndRoot` gets; `types` is `m_types`, each type named by a number. -/
structure Pokemon where
  ident : Nat
  party : Int
  slot : Int
  name : String
  statHp : Int
  hp : Int
  fainted : Bool
  effects : List StatusObject
  recent : List RECENT_DAMAGE
  position : Int := 0
  stats : List Int := []
  statLevel : List Int := []
  moveProto : List MoveTemplate := []
  ppUps : List Int := []
  moves : List (Option MoveObject) := []
  pp : List Int := []
  moveUsed : List Bool := []
  legalMove : List Bool := []
  legalSwitch : Bool := true
  forcedTurn : Option PokemonTurn := none
  forcedMove : Option MoveObject := none
  abilityName : String := ""
  itemName : String := ""
  ability : Option Nat := none
  item : Option Nat := none
  nextHandle : Nat := 0
  memory : List MEMORY := []
  lastMove : Option MoveObject := none
  acted : Bool := false
  types : List Nat := []

/-- The loop of `Pokemon::transformHealthChange` over the effect list: every
active effect rewrites the running value `hp`. -/
def transformHealthChangeLoop : List StatusObject → Int → Bool → Int
  | [], hp, _ => hp
  | e :: rest, hp, indirect =>
    if !e.isActive then transformHealthChangeLoop rest hp indirect
    else transformHealthChangeLoop rest (e.transformHealthChange hp indirect) indirect

/-- The method `Pokemon::transformHealthChange(hp, indirect)`. -/
def Pokemon.transformHealthChange (p : Pokemon) (hp : Int) (indirect : Bool) : Int :=
  transformHealthChangeLoop p.effects hp indirect

/-- The method `Pokemon::faint()`. Clearing the memories that other creatures
keep of this one does not touch the members modelled here. -/
def Pokemon.faint (p : Pokemon) : Pokemon × List FieldCall :=
  ({ p with fainted := true }, [FieldCall.informFainted])

/-- The method `Pokemon::informDamaged(user, move, damage)`. -/
def Pokemon.informDamaged (p : Pokemon) (user move : Nat) (damage : Int) :
    Pokemon × List FieldCall :=
  ({ p with recent := p.recent ++ [{ user := user, move := move, damage := damage }] },
    [FieldCall.informDamaged user move damage])

/-- The method `Pokemon::setHp(hp)`; `top` is `m_field->topExecution()`. Returns
the creature afterwards and the calls made. Script notifications are recorded,
not run. -/
def Pokemon.setHp (p : Pokemon) (top : Option EXECUTION) (hp : Int) : Pokemon × List FieldCall :=
  if p.fainted then (p, [])
  else
    let max := p.statHp
    let hp := if hp > max then max else hp
    let indirect := match top with
      | none => true
      | some move => decide (move.user = p.ident)
    let delta := p.transformHealthChange (p.hp - hp) indirect
    if delta = 0 then (p, [])
    else
      let p1 := { p with hp := p.hp - delta }
      let c1 := [FieldCall.informHealthChange delta]
      let (p2, c2) := match top with
        | some move =>
          if delta > 0 then
            let (q, c) := p1.informDamaged move.user move.move delta
            (q, FieldCall.informDamaging move.user :: c)
          else (p1, [])
        | none => (p1, [])
      if p2.hp ≤ 0 then
        let (p3, c3) := p2.faint
        (p3, c1 ++ c2 ++ c3)
      else (p2, c1 ++ c2)

/-- Creatures reached from `p0` by `setHp` calls; between two calls the effect
list may be replaced by any other. -/
inductive HpReachable (p0 : Pokemon) : Pokemon → Prop where
  | init : HpReachable p0 p0
  | setHp {p : Pokemon} (effects : List StatusObject) (top : Option EXECUTION) (hp : Int) :
      HpReachable p0 p → HpReachable p0 (Pokemon.setHp { p with effects := effects } top hp).1

/-- An effect that returns a health change between 0 and the change it
receives: it may reduce a change, not enlarge or reverse it. -/
def Damping (e : StatusObject) : Prop :=
  ∀ x b, (0 ≤ e.transformHealthChange x b ∧ e.transformHealthChange x b ≤ x) ∨
    (x ≤ e.transformHealthChange x b ∧ e.transformHealthChange x b ≤ 0)

/-- The argument of `setHp` after the clamp `if (hp > max) hp = max`. -/
def clampedHp (p : Pokemon) (hp : Int) : Int := if hp > p.statHp then p.statHp else hp

/-- The flag `indirect` computed by `setHp`. -/
def isIndirect (p : Pokemon) (top : Option EXECUTION) : Bool :=
  match top with
  | none => true
  | some move => decide (move.user = p.ident)

/-! ## Effects, moves and legal actions -/

/-- Modelled from the spec: number of base stats, `STAT_COUNT` (HP, ATK, DEF,
SPD, SPA, SPD); the constant is declared outside the sources at hand. -/
def STAT_COUNT : Nat := 6

/-- Modelled from the spec: number of slots of `m_statLevel`,
`TOTAL_STAT_COUNT`: the six base stats, accuracy and evasion (the slot of HP is
never used, which leaves the seven stat stages of the spec). -/
def TOTAL_STAT_COUNT : Nat := 8

/-- Modelled from the spec: index `S_ACCURACY` of the accuracy stage. -/
def S_ACCURACY : Nat := 6

/-- Modelled from the spec: index `S_EVASION` of the evasion stage. -/
def S_EVASION : Nat := 7

/-- What a creature asks of the field, the mechanics and the script context:
`calculateStat i` is `mech->calculateStat(*this, i)`, `getAbility` and `getItem`
are the lookups of `ScriptContext` (the null object is `none`),
`transformStatus` is `m_field->transformStatus(this, &applied)` (it may replace
the status or cancel it), `vetoSwitch` and `vetoSelection` are the vetoes of the
field, and `struggle` is the move `getMove("Struggle")`. -/
structure BattleContext where
  calculateStat : Nat → Int
  getAbility : String → Option StatusObject
  getItem : String → Option StatusObject
  transformStatus : StatusObject → Option StatusObject
  vetoSwitch : Bool
  vetoSelection : MoveObject → Bool
  struggle : MoveTemplate

/-- The loop of `Pokemon::getStatus(const int lock)`: the first effect that is
not removable and has the lock. -/
def getStatusByLock (lock : Int) : List StatusObject → Option StatusObject
  | [] => none
  | e :: rest =>
    if e.removable then getStatusByLock lock rest
    else if e.lock = lock then some e
    else getStatusByLock lock rest

/-- The loop of `Pokemon::getStatus(const string &id)`: the first effect that is
not removable and has the id. -/
def getStatusById (id : String) : List StatusObject → Option StatusObject
  | [] => none
  | e :: rest =>
    if e.removable then getStatusById id rest
    else if e.id = id then some e
    else getStatusById id rest

/-- The method `Pokemon::applyStatus(inducer, effect)`: the creature afterwards
and the pointer returned (`none` is the null pointer). `cloneAndRoot` makes a
new object, so the copy gets a new identity. -/
def Pokemon.applyStatus (cx : BattleContext) (p : Pokemon) (inducer : Option Nat)
    (effect : Option StatusObject) : Pokemon × Option StatusObject :=
  match effect with
  | none => (p, none)
  | some effect =>
    let lock := effect.lock
    if lock ≠ 0 ∧ (getStatusByLock lock p.effects).isSome then (p, none)
    else if effect.singleton ∧ (getStatusById effect.id p.effects).isSome then (p, none)
    else
      let cloned := { effect with handle := p.nextHandle }
      let induced := match inducer with
        | some i => { cloned with inducer := some i }
        | none => cloned
      let rooted := { induced with subject := some p.ident }
      let p1 := { p with nextHandle := p.nextHandle + 1 }
      match cx.transformStatus rooted with
      | none => (p1, none)
      | some applied =>
        if !applied.applyEffect then (p1, none)
        else ({ p1 with effects := p1.effects ++ [applied] }, some applied)

/-- Modelled from the spec: `StatusObject::dispose` marks the effect for the
sweep, after which `isRemovable` answers true. -/
def StatusObject.dispose (e : StatusObject) : StatusObject :=
  { e with removable := true }

/-- The method `Pokemon::removeStatus(status)`: `unapplyEffect` and `dispose` on
the object pointed to. The object is found by its identity; an object that is
not in the effect list leaves the list as it is. -/
def Pokemon.removeStatus (p : Pokemon) (status : Nat) : Pokemon :=
  { p with effects := p.effects.map (fun e => if e.handle = status then e.dispose else e) }

/-- The inner loop of `removeStatuses`: erase the first effect that satisfies
the predicate; `none` when no effect does. -/
def eraseFirst (predicate : StatusObject → Bool) : List StatusObject → Option (List StatusObject)
  | [] => none
  | e :: rest =>
    if predicate e then some rest
    else (eraseFirst predicate rest).map (fun l => e :: l)

/-- The outer `do ... while` loop of `removeStatuses`, run for at most `fuel`
passes; `none` when the passes run out. -/
def removeStatusesLoop (predicate : StatusObject → Bool) :
    Nat → List StatusObject → Option (List StatusObject)
  | 0, _ => none
  | fuel + 1, effects =>
    match eraseFirst predicate effects with
    | none => some effects
    | some rest => removeStatusesLoop predicate fuel rest

/-- The template `Pokemon::removeStatuses(effects, predicate)`, given one pass
more than there are effects. -/
def removeStatusesIf (predicate : StatusObject → Bool) (effects : List StatusObject) :
    Option (List StatusObject) :=
  removeStatusesLoop predicate (effects.length + 1) effects

/-- The method `Pokemon::removeStatuses()`: sweep the removable effects. -/
def Pokemon.removeStatuses (p : Pokemon) : Option Pokemon :=
  (removeStatusesIf (fun e => e.removable) p.effects).map (fun l => { p with effects := l })

/-- The method `Pokemon::setAbility(StatusObject *obj)`. -/
def Pokemon.setAbility (cx : BattleContext) (p : Pokemon) (obj : StatusObject) : Pokemon :=
  let p1 := match p.ability with
    | some h => p.removeStatus h
    | none => p
  let (p2, applied) := p1.applyStatus cx none (some obj)
  { p2 with ability := applied.map (fun e => e.handle) }

/-- The method `Pokemon::setAbility(const string &name)`; an unknown name only
prints a message. -/
def Pokemon.setAbilityByName (cx : BattleContext) (p : Pokemon) (name : String) : Pokemon :=
  match cx.getAbility name with
  | some ability => p.setAbility cx ability
  | none => p

/-- The method `Pokemon::setItem(StatusObject *obj)`. -/
def Pokemon.setItem (cx : BattleContext) (p : Pokemon) (obj : StatusObject) : Pokemon :=
  let p1 := match p.item with
    | some h => p.removeStatus h
    | none => p
  let (p2, applied) := p1.applyStatus cx none (some obj)
  { p2 with item := applied.map (fun e => e.handle) }

/-- The method `Pokemon::setItem(const string &name)`; an unknown name only
prints a message. -/
def Pokemon.setItemByName (cx : BattleContext) (p : Pokemon) (name : String) : Pokemon :=
  match cx.getItem name with
  | some item => p.setItem cx item
  | none => p

/-- The predicate `switchOutPredicate(effect, cx)`. -/
def switchOutPredicate (e : StatusObject) : Bool :=
  if !e.isActive then false
  else if !e.switchOut then false
  else true

/-- The method `Pokemon::switchOut()`. Adjusting the memories of the other
active creatures does not touch the members modelled here. -/
def Pokemon.switchOut (cx : BattleContext) (p : Pokemon) : Option Pokemon := do
  let effects ← removeStatusesIf switchOutPredicate p.effects
  let p1 := { p with effects := effects }
  let p2 := p1.setAbilityByName cx p1.abilityName
  pure { p2 with
    slot := -1
    memory := []
    moveUsed := List.replicate p2.moves.length false
    lastMove := none
    acted := false }

/-- The stat-stage writes of `initialise`: `m_statLevel[i] = 0` for
`i < STAT_COUNT`, then for accuracy and evasion. -/
def zeroStatLevels (levels : List Int) : List Int :=
  ((List.range STAT_COUNT) ++ [S_ACCURACY, S_EVASION]).foldl (fun l i => l.set i 0) levels

/-- The loop of `initialise` over `m_moveProto`, at index `j`: make the move
object, append it to `m_moves`, and write
`m_pp[j] = obj->getPp(m_cx) * (5 + m_ppUps[j]) / 5`, the division being that of
C++ on `int`. The state of the loop is `(moves, pp)`. -/
def materialiseMoves (ppUps : List Int) :
    List MoveTemplate → Nat → List (Option MoveObject) → List Int →
      Option (List (Option MoveObject) × List Int)
  | [], _, moves, pp => some (moves, pp)
  | t :: rest, j, moves, pp => do
    let obj := newMoveObject t
    let up ← ppUps[j]?
    if j < pp.length then
      materialiseMoves ppUps rest (j + 1) (moves ++ [some obj])
        (pp.set j (Int.tdiv (obj.pp * (5 + up)) 5))
    else none

/-- The method `Pokemon::initialise(field, cx, party, idx)`. -/
def Pokemon.initialise (cx : BattleContext) (p : Pokemon) (party idx : Int) : Option Pokemon := do
  let p1 := { p with
    party := party
    position := idx
    statHp := cx.calculateStat 0
    stats := (List.range' 1 (STAT_COUNT - 1)).map cx.calculateStat
    statLevel := zeroStatLevels p.statLevel }
  let p2 := { p1 with hp := p1.statHp }
  let (moves, pp) ← materialiseMoves p2.ppUps p2.moveProto 0 p2.moves p2.pp
  let p3 := { p2 with moves := moves, pp := pp }
  let p4 := p3.setAbilityByName cx p3.abilityName
  if p4.itemName ≠ "" then pure (p4.setItemByName cx p4.itemName) else pure p4

/-- The loop of `determineLegalActions` over the moves, with the PP of the
same index alongside: a move that exists and has PP left is legal when its
selection is not vetoed; `m_pp[i]` is read only for a move that exists. Returns
the legality bits and whether the creature must struggle. -/
def legalMoves (cx : BattleContext) :
    List (Option MoveObject) → List Int → Option (List Bool × Bool)
  | [], _ => some ([], true)
  | none :: rest, pp => do
    let (bits, struggle) ← legalMoves cx rest pp.tail
    pure (false :: bits, struggle)
  | some _ :: _, [] => none
  | some move :: rest, q :: pp => do
    let (bits, struggle) ← legalMoves cx rest pp
    if q > 0 then
      let legal := !cx.vetoSelection move
      pure (legal :: bits, if legal then false else struggle)
    else pure (false :: bits, struggle)

/-- The method `Pokemon::setForcedTurn(const MoveTemplate *move, Pokemon *p)`
with `p = NULL`: the target is -1. -/
def Pokemon.setForcedTurn (p : Pokemon) (move : MoveTemplate) : Pokemon :=
  { p with
    forcedMove := some (newMoveObject move)
    forcedTurn := some { type := TurnType.TT_MOVE, id := -1, target := -1 } }

/-- The method `Pokemon::determineLegalActions()`. -/
def Pokemon.determineLegalActions (cx : BattleContext) (p : Pokemon) : Option Pokemon := do
  let (bits, struggle) ← legalMoves cx p.moves p.pp
  let p1 := { p with legalSwitch := !cx.vetoSwitch, legalMove := bits }
  if struggle then pure (p1.setForcedTurn cx.struggle) else pure p1

/-- A context in which the abilities Static and Intimidate and the item
Leftovers exist, no status is transformed, switching is not vetoed and the
selection of Surf is vetoed. -/
def exampleContext : BattleContext :=
  { calculateStat := fun i => 100 + 10 * (i : Int)
    getAbility := fun n =>
      if n = "Static" ∨ n = "Intimidate" then
        some { isActive := true, transformHealthChange := fun x _ => x, id := n,
               kind := EffectKind.ability }
      else none
    getItem := fun n =>
      if n = "Leftovers" then
        some { isActive := true, transformHealthChange := fun x _ => x, id := n,
               kind := EffectKind.item }
      else none
    transformStatus := fun e => some e
    vetoSwitch := false
    vetoSelection := fun m => decide (m.name = "Surf")
    struggle := { name := "Struggle", pp := 1 } }

/-- A condition with lock 1. -/
def exampleLocked : StatusObject :=
  { isActive := true, transformHealthChange := fun x _ => x, id := "Sleep", lock := 1 }

/-! ## The health message -/

/-- The conversion `double → int` of C++: the fractional part is discarded. -/
def truncToInt (q : ℚ) : Int := Int.tdiv q.num q.den

/-- The method `NetworkBattle::informHealthChange(pokemon, raw)`: the message it
broadcasts. With `hp = 0` the quotients are not finite and their conversion to
`int` is undefined. -/
def informHealthChange (fieldId : Int) (pokemon : Pokemon) (raw : Int) : Option HealthChange :=
  let hp := pokemon.statHp
  if hp = 0 then none
  else
    let delta := truncToInt (48 * (raw : ℚ) / (hp : ℚ) + 1 / 2)
    let total := truncToInt (48 * (pokemon.hp : ℚ) / (hp : ℚ) + 1 / 2)
    some { fieldId := fieldId, party := toUChar pokemon.party, slot := toUChar pokemon.slot,
           name := pokemon.name, delta := toInt16 delta, total := toInt16 total }

/-- A creature at full health, 10 of 10, without effects. -/
def examplePokemon : Pokemon :=
  { ident := 1, party := 0, slot := 0, name := "Pikachu", statHp := 10, hp := 10,
    fainted := false, effects := [], recent := [] }

/-- A creature that holds the condition with lock 1. -/
def exampleHolder : Pokemon :=
  { examplePokemon with effects := [{ exampleLocked with handle := 0 }], nextHandle := 1 }

/-- A creature whose condition with lock 1 has been removed and not yet swept. -/
def exampleDisposed : Pokemon :=
  exampleHolder.removeStatus 0

/-- A creature as its constructor leaves it, with two moves of which the first
has three PP-ups. -/
def exampleFresh : Pokemon :=
  { examplePokemon with
    statLevel := List.replicate TOTAL_STAT_COUNT 3
    moveProto := [{ name := "Thunderbolt", pp := 15 }, { name := "Surf", pp := 15 }]
    ppUps := [3, 0]
    pp := [0, 0]
    moveUsed := [false, false]
    abilityName := "Static"
    itemName := "Leftovers" }

/-- A creature at 5 of 10 with one active effect that doubles every change. -/
def exampleAmplified : Pokemon :=
  { examplePokemon with
    hp := 5
    effects := [{ isActive := true, transformHealthChange := fun x _ => 2 * x }] }

/-- A creature at 95 of 96. -/
def exampleHurt : Pokemon :=
  { examplePokemon with statHp := 96, hp := 95 }

/-- A creature at 1 of 1. -/
def exampleTiny : Pokemon :=
  { examplePokemon with statHp := 1, hp := 1 }

/-- A creature at full health with one active effect that halves every change. -/
def exampleDamped : Pokemon :=
  { examplePokemon with
    effects := [{ isActive := true, transformHealthChange := fun x _ => x / 2 }] }

/-! ## Further examples -/

/-- A field with two active creatures per party and teams of four. -/
def doublesField : BattleField :=
  { getId := 7
    getActivePokemon := fun party slot =>
      if party < 2 ∧ (slot = 0 ∨ slot = 1) then
        some { slot := slot, position := slot, switchLegal := true, forced := false,
               moveLegal := [true, true] }
      else none
    getLegalSwitches := fun _ => [false, false, true, true]
    isTurnLegal := fun _ t _ => decide (0 ≤ t.id ∧ t.id < 4)
    activePokemon := [(0, 0), (0, 1), (1, 0), (1, 1)]
    faintedPokemon := []
    getAliveCount := fun _ => 4 }

/-- A doubles battle in which each party owes two orders and party 0 has
submitted a switch to team position 2 for its first creature. -/
def doublesOneSwitch : NetworkBattleImpl :=
  { initialBattle [10, 11] with
    requests := [[0, 1], [0, 1]]
    turns := [[{ type := TurnType.TT_SWITCH, id := 2, target := 0 }], []] }

/-! ## Effect bookkeeping -/

/-- The members that installing and removing effects leave alone. -/
def SameBody (p p1 : Pokemon) : Prop :=
  p1.hp = p.hp ∧ p1.statHp = p.statHp ∧ p1.statLevel = p.statLevel ∧ p1.moves = p.moves ∧
    p1.pp = p.pp

/-- The number of effects of a kind in an effect list, marked removable or
not. -/
def countKind (k : EffectKind) (effects : List StatusObject) : Nat :=
  effects.countP (fun e => decide (e.kind = k))

/-- The number of effects of a kind that are not marked removable: the ones
`getStatus` and the hooks still see. -/
def liveCount (k : EffectKind) (effects : List StatusObject) : Nat :=
  effects.countP (fun e => !e.removable && decide (e.kind = k))

/-- A script context that keeps kinds: `getAbility` returns abilities, `getItem`
returns items, and the `transformStatus` of the field, when it does not cancel
an effect, leaves the same object with the same kind. -/
def KeepsKinds (cx : BattleContext) : Prop :=
  (∀ n e, cx.getAbility n = some e → e.kind = EffectKind.ability) ∧
  (∀ n e, cx.getItem n = some e → e.kind = EffectKind.item) ∧
  (∀ e e1, cx.transformStatus e = some e1 → e1.handle = e.handle ∧ e1.kind = e.kind)

/-- A creature as its constructor leaves it, as far as effects go: no effects,
null `m_ability` and `m_item`. -/
def Constructed (p : Pokemon) : Prop :=
  p.effects = [] ∧ p.ability = none ∧ p.item = none

/-- One call of an operation that changes the effect list: `setAbility` with an
ability, `setItem` with an item, `applyStatus` with an effect that is neither,
`removeStatus` of any object, the sweep `removeStatuses`, and `switchOut`. -/
inductive EffectStep (cx : BattleContext) : Pokemon → Pokemon → Prop where
  | setAbility (p : Pokemon) (obj : StatusObject) :
      obj.kind = EffectKind.ability → EffectStep cx p (p.setAbility cx obj)
  | setAbilityByName (p : Pokemon) (name : String) :
      EffectStep cx p (p.setAbilityByName cx name)
  | setItem (p : Pokemon) (obj : StatusObject) :
      obj.kind = EffectKind.item → EffectStep cx p (p.setItem cx obj)
  | setItemByName (p : Pokemon) (name : String) :
      EffectStep cx p (p.setItemByName cx name)
  | applyStatus (p : Pokemon) (inducer : Option Nat) (effect : StatusObject) :
      effect.kind ≠ EffectKind.ability → effect.kind ≠ EffectKind.item →
      EffectStep cx p (p.applyStatus cx inducer (some effect)).1
  | removeStatus (p : Pokemon) (status : Nat) : EffectStep cx p (p.removeStatus status)
  | removeStatuses (p p1 : Pokemon) : p.removeStatuses = some p1 → EffectStep cx p p1
  | switchOut (p p1 : Pokemon) : p.switchOut cx = some p1 → EffectStep cx p p1

/-- The creatures reachable from `initialise` by the operations of
`EffectStep`. -/
inductive EffectReachable (cx : BattleContext) : Pokemon → Prop where
  | initialise (p0 p : Pokemon) (party idx : Int) :
      Constructed p0 → p0.initialise cx party idx = some p → EffectReachable cx p
  | step (p p1 : Pokemon) : EffectReachable cx p → EffectStep cx p p1 → EffectReachable cx p1

/-- What the effect operations keep true, on the members it speaks of: the
identities of the effects are distinct and older than the next one, and an
ability (item) that is not marked removable is the one `m_ability` (`m_item`)
points to. -/
def EffectInvOf (effects : List StatusObject) (next : Nat) (ability item : Option Nat) : Prop :=
  (∀ e ∈ effects, e.handle < next) ∧
  (effects.map (fun e => e.handle)).Nodup ∧
  (∀ e ∈ effects, e.removable = false → e.kind = EffectKind.ability →
    ability = some e.handle) ∧
  (∀ e ∈ effects, e.removable = false → e.kind = EffectKind.item →
    item = some e.handle)

/-- The invariant `EffectInvOf` of a creature. -/
def EffectInv (p : Pokemon) : Prop :=
  EffectInvOf p.effects p.nextHandle p.ability p.item

/-- No effect of the kind is left that is not marked removable. -/
def NoLive (k : EffectKind) (effects : List StatusObject) : Prop :=
  ∀ e ∈ effects, e.removable = false → e.kind ≠ k

/-- The fresh example creature after `initialise`. -/
def exampleInitialised : Pokemon :=
  (exampleFresh.initialise exampleContext 0 0).getD exampleFresh

/-- The initialised example creature after its ability is set to Intimidate. -/
def exampleSwapped : Pokemon :=
  exampleInitialised.setAbilityByName exampleContext "Intimidate"

/-- An ability handed to `applyStatus` directly. -/
def exampleIntimidate : StatusObject :=
  { isActive := true, transformHealthChange := fun x _ => x, id := "Intimidate",
    kind := EffectKind.ability }

/-- The initialised example creature with no PP left for its first move. -/
def exampleSpent : Pokemon :=
  { exampleInitialised with pp := [0, 15] }

/-! ## The dispatch queue

`ThreadedQueue<T>` of `ThreadedQueue.h`, as a transition system over the
interleavings of its threads: the dispatch thread `m_thread`, which runs
`process`, and the client threads, which call `post`. One transition is one
statement of the source executed by one thread. `m_condition.wait(lock)`
releases the mutex and takes it again before it returns; a waiting thread may
wake at any time (the condition variable allows spurious wake-ups), so
`notify_one` adds no behaviour and is a step without effect. `terminate` is
left out. -/

/-- The threads that use one queue. -/
inductive Thread where
  | worker
  | client (i : Nat)
deriving DecidableEq, Repr

/-- Where the dispatch thread is in `process`: about to construct the lock; at
the test of `while (m_empty)` with the mutex held; inside `wait` with the mutex
released; inside `m_delegate(m_item)` with the mutex held; and after the
delegate has returned, before `m_empty = true`. -/
inductive ProcessPc where
  | lock
  | test
  | wait
  | delegate
  | finish
deriving DecidableEq, Repr

/-- Where a client thread is in `post`: not in a call; about to construct the
lock; at the test of `while (!m_empty)` with the mutex held; inside `wait` with
the mutex released; before `m_item = elem`; before `m_empty = false`; before
`lock.unlock()`; before `m_condition.notify_one()`. -/
inductive PostPc where
  | idle
  | lock
  | test
  | wait
  | store
  | flag
  | unlock
  | notify
deriving DecidableEq, Repr

/-- A client thread: its place in `post`, the argument `elem` of the call, and
two records taken when the call was issued: whether an item was pending or
being processed then, and how many delegate calls had completed by then. -/
structure Client where
  pc : PostPc := PostPc.idle
  elem : Nat := 0
  busyAtIssue : Bool := false
  mark : Nat := 0
deriving DecidableEq, Repr

/-- The members of a `ThreadedQueue` (`m_mutex` is its owner, if any), the
place of the dispatch thread, the client threads, and two counters of the calls
of `m_delegate`: those started and those that have returned. -/
structure ThreadedQueue where
  m_empty : Bool := true
  m_item : Nat := 0
  m_mutex : Option Thread := none
  process : ProcessPc := ProcessPc.lock
  clients : List Client := []
  started : Nat := 0
  completed : Nat := 0
deriving DecidableEq, Repr

/-- What a thread does next: the dispatch thread takes a step of `process`,
client `i` takes a step of its call of `post`, or client `i` calls
`post(elem)`. -/
inductive Action where
  | process
  | post (i : Nat)
  | call (i elem : Nat)
deriving DecidableEq, Repr

/-- One step of `ThreadedQueue::process` by the dispatch thread; `none` when the
thread is blocked. -/
def processStep (s : ThreadedQueue) : Option ThreadedQueue :=
  match s.process with
  | ProcessPc.lock | ProcessPc.wait =>
    if s.m_mutex = none then
      some { s with m_mutex := some Thread.worker, process := ProcessPc.test }
    else none
  | ProcessPc.test =>
    if s.m_empty then some { s with m_mutex := none, process := ProcessPc.wait }
    else some { s with process := ProcessPc.delegate, started := s.started + 1 }
  | ProcessPc.delegate =>
    some { s with process := ProcessPc.finish, completed := s.completed + 1 }
  | ProcessPc.finish => some { s with m_empty := true, process := ProcessPc.test }

/-- One step of `ThreadedQueue::post` by client `i`; `none` when the thread is
blocked, is not in a call, or does not exist. -/
def postStep (i : Nat) (s : ThreadedQueue) : Option ThreadedQueue := do
  let c ← s.clients[i]?
  match c.pc with
  | PostPc.idle => none
  | PostPc.lock | PostPc.wait =>
    if s.m_mutex = none then
      some { s with
        m_mutex := some (Thread.client i)
        clients := s.clients.set i { c with pc := PostPc.test } }
    else none
  | PostPc.test =>
    if !s.m_empty then
      some { s with m_mutex := none, clients := s.clients.set i { c with pc := PostPc.wait } }
    else some { s with clients := s.clients.set i { c with pc := PostPc.store } }
  | PostPc.store =>
    some { s with m_item := c.elem, clients := s.clients.set i { c with pc := PostPc.flag } }
  | PostPc.flag =>
    some { s with m_empty := false, clients := s.clients.set i { c with pc := PostPc.unlock } }
  | PostPc.unlock =>
    some { s with m_mutex := none, clients := s.clients.set i { c with pc := PostPc.notify } }
  | PostPc.notify => some { s with clients := s.clients.set i { c with pc := PostPc.idle } }

/-- An item is pending or being processed: the slot is full and the delegate
has not returned for it. -/
def busy (s : ThreadedQueue) : Bool :=
  !s.m_empty && decide (s.process ≠ ProcessPc.finish)

/-- Client `i`, not in a call, calls `post(elem)`. -/
def callPost (i elem : Nat) (s : ThreadedQueue) : Option ThreadedQueue := do
  let c ← s.clients[i]?
  if c.pc = PostPc.idle then
    some { s with
      clients := s.clients.set i
        { pc := PostPc.lock, elem := elem, busyAtIssue := busy s, mark := s.completed } }
  else none

/-- One transition of the queue. -/
def queueStep : Action → ThreadedQueue → Option ThreadedQueue
  | Action.process, s => processStep s
  | Action.post i, s => postStep i s
  | Action.call i elem, s => callPost i elem s

/-- The queue as its constructor leaves it, with `n` client threads. -/
def newQueue (n : Nat) : ThreadedQueue :=
  { clients := List.replicate n {} }

/-- The states of the queue that some interleaving reaches. -/
inductive QueueReachable : ThreadedQueue → Prop where
  | init (n : Nat) : QueueReachable (newQueue n)
  | step (a : Action) (s s1 : ThreadedQueue) :
      QueueReachable s → queueStep a s = some s1 → QueueReachable s1

/-- A run of transitions from a state. -/
def runQueue : List Action → ThreadedQueue → Option ThreadedQueue
  | [], s => some s
  | a :: rest, s => (queueStep a s).bind (runQueue rest)

/-- The client has passed the loop `while (!m_empty)` of its call. -/
def PostPc.pastLoop : PostPc → Bool
  | PostPc.store | PostPc.flag | PostPc.unlock | PostPc.notify => true
  | _ => false

/-- The client holds the mutex. -/
def PostPc.holds : PostPc → Bool
  | PostPc.test | PostPc.store | PostPc.flag | PostPc.unlock => true
  | _ => false

/-- The dispatch thread holds the mutex. -/
def ProcessPc.holds : ProcessPc → Bool
  | ProcessPc.test | ProcessPc.delegate | ProcessPc.finish => true
  | _ => false

/-- What every reachable state satisfies as far as the dispatch thread goes. -/
def WorkerInv (s : ThreadedQueue) : Prop :=
  (s.process.holds = true → s.m_mutex = some Thread.worker) ∧
  (s.process = ProcessPc.delegate ∨ s.process = ProcessPc.finish → s.m_empty = false) ∧
  s.started = s.completed + (if s.process = ProcessPc.delegate then 1 else 0)

/-- What every reachable state satisfies as far as client `i` goes. -/
def ClientInv (s : ThreadedQueue) (i : Nat) (c : Client) : Prop :=
  (c.pc.holds = true → s.m_mutex = some (Thread.client i)) ∧
  (c.pc = PostPc.store → s.m_empty = true) ∧
  c.mark ≤ s.completed ∧
  (c.busyAtIssue = true → c.pc ≠ PostPc.idle →
    c.mark < s.completed ∨ (c.pc.pastLoop = false ∧ busy s = true))

/-- The invariant of the queue. -/
def QueueInv (s : ThreadedQueue) : Prop :=
  WorkerInv s ∧ ∀ i c, s.clients[i]? = some c → ClientInv s i c

/-- An interleaving of two clients: client 0 posts 7 on the new queue and
returns; client 1 calls `post(9)` while that item is pending; the dispatch thread
takes the mutex, runs the delegate on the item, empties the slot and waits;
client 1 takes the mutex and passes the loop. -/
def exampleInterleaving : List Action :=
  [Action.call 0 7, Action.post 0, Action.post 0, Action.post 0, Action.post 0, Action.post 0,
    Action.post 0, Action.call 1 9, Action.process, Action.process, Action.process,
    Action.process, Action.process, Action.post 1, Action.post 1]

/-- The state the example interleaving ends in: client 1 is about to store its
item, one delegate call has started and returned. -/
def exampleStoring : ThreadedQueue :=
  { m_empty := true
    m_item := 7
    m_mutex := some (Thread.client 1)
    process := ProcessPc.wait
    clients := [{ pc := PostPc.idle, elem := 7 },
      { pc := PostPc.store, elem := 9, busyAtIssue := true, mark := 0 }]
    started := 1
    completed := 1 }

/-! ## Stats, priorities and immunities -/

/-- The loop of `Pokemon::getInherentPriority` with the running value `ret`. -/
def getInherentPriorityLoop : List StatusObject → Int → Int
  | [], ret => ret
  | e :: rest, ret =>
    if !e.isActive then getInherentPriorityLoop rest ret
    else
      let v := e.inherentPriority
      if |v| > |ret| then getInherentPriorityLoop rest v
      else getInherentPriorityLoop rest ret

/-- The method `Pokemon::getInherentPriority()`. -/
def Pokemon.getInherentPriority (p : Pokemon) : Int :=
  getInherentPriorityLoop p.effects 0

/-- The loop of `Pokemon::getImmunities`; the state is the pair of the two sets
`(immunities, vulnerabilities)`, and a type is named by a number. -/
def getImmunitiesLoop : List StatusObject → Finset Nat × Finset Nat → Finset Nat × Finset Nat
  | [], sets => sets
  | e :: rest, (immunities, vulnerabilities) =>
    if !e.isActive then getImmunitiesLoop rest (immunities, vulnerabilities)
    else
      let immunities := match e.immunity with
        | some type => insert type immunities
        | none => immunities
      match e.vulnerability with
      | some type =>
        if type ∈ immunities then
          getImmunitiesLoop rest (immunities.erase type, vulnerabilities)
        else getImmunitiesLoop rest (immunities, insert type vulnerabilities)
      | none => getImmunitiesLoop rest (immunities, vulnerabilities)

/-- The method `Pokemon::getImmunities(user, target, immunities, vulnerabilities)`:
the two sets afterwards. -/
def Pokemon.getImmunities (p : Pokemon) (immunities vulnerabilities : Finset Nat) :
    Finset Nat × Finset Nat :=
  getImmunitiesLoop p.effects (immunities, vulnerabilities)

/-- The loop of the script function `isImmune` over the types of the creature,
with the value of `*ret`; `getMultiplier t` is `moveType->getMultiplier(t)`. -/
def isImmuneLoop (getMultiplier : Nat → ℚ) : List Nat → Bool → Bool
  | [], ret => ret
  | t :: rest, ret => if getMultiplier t = 0 then true else isImmuneLoop getMultiplier rest ret

/-- The script function `pokemon.isImmune(move)` of `PokemonObject.cpp`. The
argument is the type of the move when it is an object and `none` when it is not;
`ret` is the value of `*ret` on entry. The result is `none` when the function
returns `JS_FALSE`, and the value left in `*ret` otherwise. -/
def isImmune (getMultiplier : Nat → Nat → ℚ) (p : Pokemon) (ret : Bool) (v : Option Nat) :
    Option Bool :=
  match v with
  | none => none
  | some moveType =>
    let _ := isImmuneLoop (getMultiplier moveType) p.types ret
    some false

/-- The constructor `Pokemon::Pokemon(species, nickname, ..., moves, ppUps)`, as
far as the members modelled here go; `getMove` is `species->getMove` (the null
pointer is `none`) and `speciesName` is `species->getSpeciesName()`. Members
that the constructor leaves without a value are given as 0. -/
def newPokemon (getMove : String → Option MoveTemplate) (speciesName nickname : String)
    (ability item : String) (moves : List String) (ppUps : List Int) : Pokemon :=
  let moveProto := moves.filterMap getMove
  { ident := 0
    party := 0
    slot := -1
    name := if nickname.isEmpty then speciesName
      else if nickname.length > 19 then (nickname.take 19) else nickname
    statHp := 0
    hp := 0
    fainted := false
    effects := []
    recent := []
    statLevel := List.replicate TOTAL_STAT_COUNT 0
    moveProto := moveProto
    ppUps := ppUps
    pp := List.replicate moveProto.length 0
    moveUsed := List.replicate moveProto.length false
    abilityName := ability
    itemName := item
    legalSwitch := true
    acted := false }

/-- A move database that knows Thunderbolt and Surf, each with 15 PP. -/
def exampleMoves (name : String) : Option MoveTemplate :=
  if name = "Thunderbolt" ∨ name = "Surf" then some { name := name, pp := 15 } else none

/-- A creature constructed with the moves Fly, which its species does not have,
and Surf, and with three PP-ups for Fly and none for Surf. -/
def exampleDropped : Pokemon :=
  newPokemon exampleMoves "Pikachu" "" "Static" "" ["Fly", "Surf"] [3, 0]

/-- A type chart in which a move of type 0 (Normal) has no effect on a creature
of type 7 (Ghost) and every other multiplier is 1. -/
def exampleChart (moveType type : Nat) : ℚ :=
  if moveType = 0 ∧ type = 7 then 0 else 1

/-- A creature of the one type 7 (Ghost). -/
def exampleGhost : Pokemon :=
  { examplePokemon with types := [7] }

/-- A creature at 1 of 200. -/
def exampleScratched : Pokemon :=
  { examplePokemon with statHp := 200, hp := 1 }

/-- A predicate on effects: the effect is marked removable. -/
def isRemovable (e : StatusObject) : Bool := e.removable

/-- A creature with four effects whose inherent priorities are 1, 5 (on an
effect that is not active), -3 and 3. -/
def examplePriorities : Pokemon :=
  { examplePokemon with
    effects :=
      [{ isActive := true, transformHealthChange := fun x _ => x, inherentPriority := 1 },
       { isActive := false, transformHealthChange := fun x _ => x, inherentPriority := 5 },
       { isActive := true, transformHealthChange := fun x _ => x, inherentPriority := -3 },
       { isActive := true, transformHealthChange := fun x _ => x, inherentPriority := 3 }] }

/-- No active effect reports as its immunity a type that an active effect
earlier in the list reports as its vulnerability. -/
def ImmunityNotAfterVulnerability (effects : List StatusObject) : Prop :=
  effects.Pairwise (fun e0 e => e0.isActive = true → e.isActive = true →
    ∀ t, e0.vulnerability = some t → e.immunity ≠ some t)

/-- A creature with an effect that makes it vulnerable to type 3, followed by an
effect that makes it immune to type 3. -/
def exampleVulnerableThenImmune : Pokemon :=
  { examplePokemon with
    effects :=
      [{ isActive := true, transformHealthChange := fun x _ => x, vulnerability := some 3 },
       { isActive := true, transformHealthChange := fun x _ => x, immunity := some 3 }] }

/-- A creature with an effect that makes it immune to type 3, followed by an
effect that makes it vulnerable to types 3 and, by a further effect, 4. -/
def exampleImmuneThenVulnerable : Pokemon :=
  { examplePokemon with
    effects :=
      [{ isActive := true, transformHealthChange := fun x _ => x, immunity := some 3 },
       { isActive := true, transformHealthChange := fun x _ => x, vulnerability := some 3 },
       { isActive := true, transformHealthChange := fun x _ => x, immunity := some 5,
         vulnerability := some 4 }] }

/-- A sequence of departures: `handlePart` for each client in turn. -/
def handleParts (fieldId : Int) : NetworkBattle → List Nat → Option NetworkBattle
  | b, [] => some b
  | b, client :: rest => (handlePart fieldId b client).bind (fun b1 => handleParts fieldId b1 rest)

/-- The example battle after `terminate`. -/
def exampleTerminated : NetworkBattle :=
  { impl := exampleRequested, channelField := false }

/-- A battle in which party 0 owes one order and party 1 owes none. -/
def exampleOneSided : NetworkBattleImpl :=
  { initialBattle [10, 11] with requests := [[0], []] }

/-- The initialised example creature in slot 0 after a turn: it has acted, used
its first move, remembers a target, and carries a condition that is dropped on
switching out. -/
def exampleActive : Pokemon :=
  { exampleInitialised with
    slot := 0
    acted := true
    moveUsed := [true, false]
    memory := [{ user := 2, move := 0 }]
    hp := 60
    pp := [23, 15]
    effects := exampleInitialised.effects ++
      [{ isActive := true, transformHealthChange := fun x _ => x, id := "Confusion",
         handle := 2, switchOut := true }]
    nextHandle := 3 }

/-- The doubles battle after `requestMoves`: each party owes two orders. -/
def doublesRequested : NetworkBattleImpl :=
  (requestMoves doublesField (initialBattle [10, 11])).getD (initialBattle [10, 11])

/-- The doubles battle after party 0 has then ordered a switch to team position
2 for its first creature. -/
def doublesSwitched : NetworkBattleImpl :=
  (handleTurn doublesField doublesRequested 0
    { type := TurnType.TT_SWITCH, id := 2, target := 0 }).getD doublesRequested

/-- The doubles battle after party 0 has then ordered a switch to team position
3 for its second creature; party 1 has submitted nothing. -/
def doublesTwoSwitches : NetworkBattleImpl :=
  (handleTurn doublesField doublesSwitched 0
    { type := TurnType.TT_SWITCH, id := 3, target := 0 }).getD doublesSwitched

/-! ## Lemmas on the controller operations -/

/-- A call of `requestAction` that returns changes only the messages sent. -/
theorem requestAction_frame {f : BattleField} {s s1 : NetworkBattleImpl} {party : Nat}
    (h : requestAction f s party = some s1) :
    s1.turns = s.turns ∧ s1.requests = s.requests ∧ s1.posted = s.posted := by
  unfold requestAction at h
  simp only [Option.bind_eq_bind, Option.bind_eq_some, Option.pure_def] at h
  obtain ⟨turn, _, req, _, slot, _, p, _, sw, _, h⟩ := h
  split at h <;> (cases h; simp)

/-- The same for `requestAction` over a list of parties. -/
theorem requestActions_frame {f : BattleField} {l : List Nat} {s s1 : NetworkBattleImpl}
    (h : requestActions f s l = some s1) :
    s1.turns = s.turns ∧ s1.requests = s.requests ∧ s1.posted = s.posted := by
  induction l generalizing s with
  | nil => simp [requestActions] at h; subst h; simp
  | cons i rest ih =>
    simp only [requestActions, Option.bind_eq_bind, Option.bind_eq_some] at h
    obtain ⟨s2, h2, h3⟩ := h
    have a := requestAction_frame h2
    have b := ih h3
    simp [a, b]

/-- The same for the final loop of `requestReplacements`. -/
theorem requestNonEmpty_frame {f : BattleField} {l : List Nat} {s s1 : NetworkBattleImpl}
    (h : requestNonEmpty f s l = some s1) :
    s1.turns = s.turns ∧ s1.requests = s.requests ∧ s1.posted = s.posted := by
  induction l generalizing s with
  | nil => simp [requestNonEmpty] at h; subst h; simp
  | cons i rest ih =>
    simp only [requestNonEmpty, Option.bind_eq_bind, Option.bind_eq_some] at h
    obtain ⟨r, _, h⟩ := h
    split at h
    · exact ih h
    · simp only [Option.bind_eq_some] at h
      obtain ⟨s2, h2, h3⟩ := h
      have a := requestAction_frame h2
      have b := ih h3
      simp [a, b]

/-- A vector of `TEAM_COUNT` entries has exactly two. -/
theorem two_of_length {α : Type} {l : List α} (h : l.length = TEAM_COUNT) :
    ∃ a b, l = [a, b] := by
  match l, h with
  | [a, b], _ => exact ⟨a, b, rfl⟩

/-- The loop of `requestMoves` keeps two request lists and shortens neither. -/
theorem pushRequests_two {l : List (Nat × Int)} {r0 r1 : PARTY_REQUEST}
    {rs : List PARTY_REQUEST} (h : pushRequests [r0, r1] l = some rs) :
    ∃ q0 q1, rs = [q0, q1] ∧ r0.length ≤ q0.length ∧ r1.length ≤ q1.length := by
  induction l generalizing r0 r1 with
  | nil => simp [pushRequests] at h; subst h; exact ⟨r0, r1, rfl, le_refl _, le_refl _⟩
  | cons x rest ih =>
    obtain ⟨party, slot⟩ := x
    simp only [pushRequests, Option.bind_eq_bind, Option.bind_eq_some] at h
    obtain ⟨r, hr, h⟩ := h
    rcases party with _ | _ | n
    · simp at hr; subst hr
      obtain ⟨q0, q1, e, a, b⟩ := ih h
      refine ⟨q0, q1, e, ?_, b⟩
      simp at a; omega
    · simp at hr; subst hr
      obtain ⟨q0, q1, e, a, b⟩ := ih h
      refine ⟨q0, q1, e, a, ?_⟩
      simp at b; omega
    · simp at hr

/-- The loop of `requestReplacements` keeps two request lists and shortens
neither. -/
theorem replacementLoop_two {l : List (Nat × Int)} {alive : List Int} {r0 r1 : PARTY_REQUEST}
    {b : Bool} {out : List Int × List PARTY_REQUEST × Bool}
    (h : replacementLoop alive [r0, r1] b l = some out) :
    ∃ q0 q1, out.2.1 = [q0, q1] ∧ r0.length ≤ q0.length ∧ r1.length ≤ q1.length := by
  induction l generalizing alive r0 r1 b with
  | nil => simp [replacementLoop] at h; subst h; exact ⟨r0, r1, rfl, le_refl _, le_refl _⟩
  | cons x rest ih =>
    obtain ⟨party, slot⟩ := x
    simp only [replacementLoop, Option.bind_eq_bind, Option.bind_eq_some] at h
    obtain ⟨a, _, h⟩ := h
    split at h
    · simp only [Option.bind_eq_some] at h
      obtain ⟨r, hr, h⟩ := h
      rcases party with _ | _ | n
      · simp at hr; subst hr
        obtain ⟨q0, q1, e, a, b⟩ := ih h
        refine ⟨q0, q1, e, ?_, b⟩
        simp at a; omega
      · simp at hr; subst hr
        obtain ⟨q0, q1, e, a, b⟩ := ih h
        refine ⟨q0, q1, e, a, ?_⟩
        simp at b; omega
      · simp at hr
    · exact ih h

/-- The result of `maybeExecuteTurn` on a two-party state, in closed form. -/
theorem maybeExecuteTurn_two {s : NetworkBattleImpl} {t0 t1 : PARTY_TURN}
    {r0 r1 : PARTY_REQUEST} (ht : s.turns = [t0, t1]) (hr : s.requests = [r0, r1]) :
    maybeExecuteTurn s =
      some (if r0.length = t0.length ∧ r1.length = t1.length then
        { s with turns := [[], []], requests := [[], []], posted := s.posted ++ [t0 ++ t1] }
      else s) := by
  unfold maybeExecuteTurn
  simp only [ht, hr, List.length_cons, List.length_nil]
  have e : List.range (0 + 1 + 1) = [0, 1] := rfl
  rw [e]
  by_cases h0 : r0.length = t0.length <;> by_cases h1 : r1.length = t1.length <;>
    simp [allSubmitted, collectTurn, h0, h1]

/-- What an accepting or rejecting `handleTurn` does to the lists. -/
theorem handleTurn_cases {f : BattleField} {s s1 : NetworkBattleImpl} {party : Nat}
    {turn : PokemonTurn} (h : handleTurn f s party turn = some s1) :
    (s1.turns = s.turns ∧ s1.requests = s.requests ∧ s1.posted = s.posted) ∨
    ∃ pturn req, s.turns[party]? = some pturn ∧ s.requests[party]? = some req ∧
      pturn.length ≠ req.length ∧
      (turn.type = TurnType.TT_SWITCH → hasSwitchTo turn.id pturn = false) ∧
      ((pturn.length + 1 < req.length ∧ s1.turns = s.turns.set party (pturn ++ [turn]) ∧
          s1.requests = s.requests ∧ s1.posted = s.posted) ∨
       (¬ pturn.length + 1 < req.length ∧
          maybeExecuteTurn { s with turns := s.turns.set party (pturn ++ [turn]) } = some s1)) := by
  unfold handleTurn at h
  simp only [Option.bind_eq_bind, Option.bind_eq_some, Option.pure_def] at h
  obtain ⟨req, hreq, pturn, hpturn, h⟩ := h
  split at h
  · cases h; exact Or.inl ⟨rfl, rfl, rfl⟩
  · rename_i hne
    simp only [Option.bind_eq_some] at h
    obtain ⟨slot, _, h⟩ := h
    split at h
    · exact Or.inl (requestAction_frame h)
    · split at h
      · exact Or.inl (requestAction_frame h)
      · rename_i hdup
        refine Or.inr ⟨pturn, req, hpturn, hreq, hne, ?_, ?_⟩
        · intro hsw
          by_contra hc
          exact hdup ⟨hsw, by simpa using hc⟩
        · split at h
          · rename_i hlt
            have a := requestAction_frame h
            exact Or.inl ⟨hlt, a.1, a.2.1, a.2.2⟩
          · rename_i hlt
            exact Or.inr ⟨hlt, h⟩

/-- What a `cancelAction` that returns does to the lists. -/
theorem cancelAction_cases {f : BattleField} {s s1 : NetworkBattleImpl} {party : Nat}
    (h : cancelAction f s party = some s1) :
    (s1.turns = s.turns ∧ s1.requests = s.requests ∧ s1.posted = s.posted) ∨
    ∃ pturn, s.turns[party]? = some pturn ∧ s1.turns = s.turns.set party pturn.dropLast ∧
      s1.requests = s.requests ∧ s1.posted = s.posted := by
  unfold cancelAction at h
  simp only [Option.bind_eq_bind, Option.bind_eq_some, Option.pure_def] at h
  obtain ⟨pturn, hpturn, req, hreq, h⟩ := h
  split at h
  · cases h; exact Or.inl ⟨rfl, rfl, rfl⟩
  · split at h
    · cases h
    · have a := requestAction_frame h
      exact Or.inr ⟨pturn, hpturn, a.1, a.2.1, a.2.2⟩

/-- What a `requestMoves` that returns does to the lists. -/
theorem requestMoves_cases {f : BattleField} {s s1 : NetworkBattleImpl}
    (h : requestMoves f s = some s1) :
    ∃ requests, pushRequests s.requests f.activePokemon = some requests ∧
      s1.turns = s.turns ∧ s1.requests = requests ∧ s1.posted = s.posted := by
  unfold requestMoves at h
  simp only [Option.bind_eq_bind, Option.bind_eq_some] at h
  obtain ⟨requests, hp, h⟩ := h
  have a := requestActions_frame h
  exact ⟨requests, hp, a.1, a.2.1, a.2.2⟩

/-- What a `requestReplacements` that returns does to the lists. -/
theorem requestReplacements_cases {f : BattleField} {s s1 : NetworkBattleImpl} {b : Bool}
    (h : requestReplacements f s = some (b, s1)) :
    (s1.turns = s.turns ∧ s1.requests = s.requests ∧ s1.posted = s.posted) ∨
    ∃ alive out, replacementLoop alive s.requests false f.faintedPokemon = some out ∧
      s1.turns = s.turns ∧ s1.requests = out.2.1 ∧ s1.posted = s.posted := by
  unfold requestReplacements at h
  split at h
  · cases h; exact Or.inl ⟨rfl, rfl, rfl⟩
  · simp only [Option.bind_eq_bind, Option.bind_eq_some, Option.pure_def] at h
    obtain ⟨out, hout, h⟩ := h
    obtain ⟨alive, requests, replacement⟩ := out
    simp only at h
    split at h
    · cases h; exact Or.inr ⟨_, _, hout, rfl, rfl, rfl⟩
    · simp only [Option.bind_eq_some] at h
      obtain ⟨s2, h2, h3⟩ := h
      cases h3
      have a := requestNonEmpty_frame h2
      exact Or.inr ⟨_, _, hout, a.1, a.2.1, a.2.2⟩


/-- Every operation, seen on a two-party state: the turn lists are updated to
`u0`, `u1`; then either the request lists grow and nothing is posted, or the
round `u0 ++ u1` is posted and all four lists are cleared. -/
theorem step_two {s s1 : NetworkBattleImpl} {t0 t1 : PARTY_TURN} {r0 r1 : PARTY_REQUEST}
    (h : Step s s1) (ht : s.turns = [t0, t1]) (hr : s.requests = [r0, r1]) :
    ∃ u0 u1, OrderUpdate t0 r0 u0 ∧ OrderUpdate t1 r1 u1 ∧
      ((∃ q0 q1, s1.turns = [u0, u1] ∧ s1.requests = [q0, q1] ∧
          r0.length ≤ q0.length ∧ r1.length ≤ q1.length ∧ s1.posted = s.posted) ∨
       (r0.length = u0.length ∧ r1.length = u1.length ∧ s1.turns = [[], []] ∧
          s1.requests = [[], []] ∧ s1.posted = s.posted ++ [u0 ++ u1])) := by
  have same : ∀ {t : PARTY_TURN} {r : PARTY_REQUEST}, OrderUpdate t r t := Or.inl rfl
  have post : ∀ {s2 : NetworkBattleImpl} {u0 u1 : PARTY_TURN}, maybeExecuteTurn s2 = some s1 →
      s2.turns = [u0, u1] → s2.requests = [r0, r1] → s2.posted = s.posted →
      (∃ q0 q1, s1.turns = [u0, u1] ∧ s1.requests = [q0, q1] ∧
          r0.length ≤ q0.length ∧ r1.length ≤ q1.length ∧ s1.posted = s.posted) ∨
       (r0.length = u0.length ∧ r1.length = u1.length ∧ s1.turns = [[], []] ∧
          s1.requests = [[], []] ∧ s1.posted = s.posted ++ [u0 ++ u1]) := by
    intro s2 u0 u1 hm h2t h2r h2p
    rw [maybeExecuteTurn_two h2t h2r] at hm
    split at hm
    · rename_i hc
      cases hm
      exact Or.inr ⟨hc.1, hc.2, rfl, rfl, by simp [h2p]⟩
    · cases hm
      exact Or.inl ⟨r0, r1, h2t, h2r, le_refl _, le_refl _, h2p⟩
  cases h with
  | requestMoves f h =>
    obtain ⟨requests, hp, a, b, c⟩ := requestMoves_cases h
    rw [hr] at hp
    obtain ⟨q0, q1, e, l0, l1⟩ := pushRequests_two hp
    exact ⟨t0, t1, same, same, Or.inl ⟨q0, q1, by rw [a, ht], by rw [b, e], l0, l1, c⟩⟩
  | requestReplacements f b h =>
    rcases requestReplacements_cases h with ⟨a, b, c⟩ | ⟨alive, out, hp, a, b, c⟩
    · exact ⟨t0, t1, same, same,
        Or.inl ⟨r0, r1, by rw [a, ht], by rw [b, hr], le_refl _, le_refl _, c⟩⟩
    · rw [hr] at hp
      obtain ⟨q0, q1, e, l0, l1⟩ := replacementLoop_two hp
      exact ⟨t0, t1, same, same, Or.inl ⟨q0, q1, by rw [a, ht], by rw [b, e], l0, l1, c⟩⟩
  | handleTurn f party turn h =>
    rcases handleTurn_cases h with ⟨a, b, c⟩ | ⟨pturn, req, hpt, hrq, hne, hdup, hrest⟩
    · exact ⟨t0, t1, same, same,
        Or.inl ⟨r0, r1, by rw [a, ht], by rw [b, hr], le_refl _, le_refl _, c⟩⟩
    · rw [ht] at hpt
      rw [hr] at hrq
      rcases party with _ | _ | n
      · simp at hpt hrq; subst hpt; subst hrq
        refine ⟨t0 ++ [turn], t1, Or.inr (Or.inl ⟨turn, rfl, hne, hdup⟩), same, ?_⟩
        rcases hrest with ⟨_, a, b, c⟩ | ⟨_, hm⟩
        · exact Or.inl ⟨r0, r1, by rw [a, ht]; rfl, by rw [b, hr], le_refl _, le_refl _, c⟩
        · exact post hm (by simp [ht]) hr rfl
      · simp at hpt hrq; subst hpt; subst hrq
        refine ⟨t0, t1 ++ [turn], same, Or.inr (Or.inl ⟨turn, rfl, hne, hdup⟩), ?_⟩
        rcases hrest with ⟨_, a, b, c⟩ | ⟨_, hm⟩
        · exact Or.inl ⟨r0, r1, by rw [a, ht]; rfl, by rw [b, hr], le_refl _, le_refl _, c⟩
        · exact post hm (by simp [ht]) hr rfl
      · simp at hpt
  | cancelAction f party h =>
    rcases cancelAction_cases h with ⟨a, b, c⟩ | ⟨pturn, hpt, a, b, c⟩
    · exact ⟨t0, t1, same, same,
        Or.inl ⟨r0, r1, by rw [a, ht], by rw [b, hr], le_refl _, le_refl _, c⟩⟩
    · rw [ht] at hpt
      rcases party with _ | _ | n
      · simp at hpt; subst hpt
        exact ⟨t0.dropLast, t1, Or.inr (Or.inr rfl), same,
          Or.inl ⟨r0, r1, by rw [a, ht]; rfl, by rw [b, hr], le_refl _, le_refl _, c⟩⟩
      · simp at hpt; subst hpt
        exact ⟨t0, t1.dropLast, same, Or.inr (Or.inr rfl),
          Or.inl ⟨r0, r1, by rw [a, ht]; rfl, by rw [b, hr], le_refl _, le_refl _, c⟩⟩
      · simp at hpt
  | maybeExecuteTurn h =>
    exact ⟨t0, t1, same, same, post h ht hr rfl⟩


/-- When the duplicate-switch loop finds nothing, no earlier switch order has the
target `id`. -/
theorem hasSwitchTo_eq_false {id : Int} {ts : PARTY_TURN} (h : hasSwitchTo id ts = false) :
    ∀ t ∈ ts, t.type = TurnType.TT_SWITCH → t.id ≠ id := by
  induction ts with
  | nil => simp
  | cons a rest ih =>
    unfold hasSwitchTo at h
    split at h
    · cases h
    · rename_i hn
      intro t ht hsw
      rcases List.mem_cons.1 ht with e | e
      · subst e; exact fun hid => hn ⟨hsw, hid⟩
      · exact ih h t e hsw

/-- When an earlier switch order has the target `id`, the loop finds it. -/
theorem hasSwitchTo_eq_true {id : Int} {ts : PARTY_TURN}
    (h : ∃ t ∈ ts, t.type = TurnType.TT_SWITCH ∧ t.id = id) : hasSwitchTo id ts = true := by
  by_contra hc
  obtain ⟨t, ht, hsw, hid⟩ := h
  exact hasSwitchTo_eq_false (by simpa using hc) t ht hsw hid

theorem OrderUpdate.length_le {t u : PARTY_TURN} {r : PARTY_REQUEST} (h : OrderUpdate t r u)
    (hle : t.length ≤ r.length) : u.length ≤ r.length := by
  rcases h with e | ⟨turn, e, hne, _⟩ | e
  · rw [e]; exact hle
  · rw [e]; simp; omega
  · rw [e]; simp; omega

theorem OrderUpdate.distinct {t u : PARTY_TURN} {r : PARTY_REQUEST} (h : OrderUpdate t r u)
    (hd : DistinctSwitchTargets t) : DistinctSwitchTargets u := by
  rcases h with e | ⟨turn, e, _, hdup⟩ | e
  · rw [e]; exact hd
  · rw [e]
    unfold DistinctSwitchTargets at hd ⊢
    rw [List.pairwise_append]
    refine ⟨hd, List.pairwise_singleton _ _, ?_⟩
    intro a ha b hb hsa hsb
    rw [List.mem_singleton] at hb
    subst hb
    exact hasSwitchTo_eq_false (hdup hsb) a ha hsa
  · rw [e]
    exact List.Pairwise.sublist (List.dropLast_sublist t) hd

/-- Along every run from a fresh battle the state keeps two turn lists and two
request lists, and no party has more orders than requests. -/
theorem reachable_le {s0 s : NetworkBattleImpl} (h0t : s0.turns = [[], []])
    (h0r : s0.requests = [[], []]) (h : Reachable s0 s) :
    ∃ t0 t1 r0 r1, s.turns = [t0, t1] ∧ s.requests = [r0, r1] ∧
      t0.length ≤ r0.length ∧ t1.length ≤ r1.length := by
  induction h with
  | init => exact ⟨[], [], [], [], h0t, h0r, le_refl _, le_refl _⟩
  | step _ hs ih =>
    obtain ⟨t0, t1, r0, r1, ht, hr, l0, l1⟩ := ih
    obtain ⟨u0, u1, a0, a1, hcase⟩ := step_two hs ht hr
    rcases hcase with ⟨q0, q1, e1, e2, g0, g1, _⟩ | ⟨_, _, e1, e2, _⟩
    · exact ⟨u0, u1, q0, q1, e1, e2, le_trans (a0.length_le l0) g0, le_trans (a1.length_le l1) g1⟩
    · exact ⟨[], [], [], [], e1, e2, le_refl _, le_refl _⟩

/-- Along every run from empty turn lists both turn lists keep pairwise distinct
switch targets. -/
theorem reachable_distinct {s0 s : NetworkBattleImpl} (h0t : s0.turns = [[], []])
    (h0r : s0.requests.length = TEAM_COUNT) (h : Reachable s0 s) :
    ∃ t0 t1 r0 r1, s.turns = [t0, t1] ∧ s.requests = [r0, r1] ∧
      DistinctSwitchTargets t0 ∧ DistinctSwitchTargets t1 := by
  induction h with
  | init =>
    obtain ⟨r0, r1, e⟩ := two_of_length h0r
    exact ⟨[], [], r0, r1, h0t, e, List.Pairwise.nil, List.Pairwise.nil⟩
  | step _ hs ih =>
    obtain ⟨t0, t1, r0, r1, ht, hr, l0, l1⟩ := ih
    obtain ⟨u0, u1, a0, a1, hcase⟩ := step_two hs ht hr
    rcases hcase with ⟨q0, q1, e1, e2, _⟩ | ⟨_, _, e1, e2, _⟩
    · exact ⟨u0, u1, q0, q1, e1, e2, a0.distinct l0, a1.distinct l1⟩
    · exact ⟨[], [], [], [], e1, e2, List.Pairwise.nil, List.Pairwise.nil⟩

/-- What `requestAction` returns when none of its reads is undefined: the state
with one `REQUEST_ACTION` appended to the messages of the client of `party`. -/
theorem requestAction_eq {f : BattleField} {s : NetworkBattleImpl} {party : Nat}
    {turn : PARTY_TURN} {req : PARTY_REQUEST} {slot : Int} {p : ActivePokemon}
    {switches : List Bool} {client : Nat}
    (ht : s.turns[party]? = some turn) (hr : s.requests[party]? = some req)
    (hs : req[turn.length]? = some slot) (hp : f.getActivePokemon party slot = some p)
    (hm : maskSwitches (f.getLegalSwitches p) turn = some switches)
    (hc : getClient s party = some client) :
    requestAction f s party =
      some { s with sent := s.sent ++
        [(client, OutMessage.REQUEST_ACTION (requestActionMessage f s.replacement p switches))] } := by
  unfold requestAction
  simp [ht, hr, hs, hp, hm, hc]

/-! ## The example battle -/

theorem exampleRequested_eq :
    requestMoves exampleField (initialBattle [10, 11]) = some exampleRequested := by decide

theorem exampleOneOrder_eq :
    handleTurn exampleField exampleRequested 0
      { type := TurnType.TT_SWITCH, id := 1, target := 0 } = some exampleOneOrder := by decide

theorem exampleOneOrder_reachable : Reachable (initialBattle [10, 11]) exampleOneOrder :=
  Reachable.step (Reachable.step Reachable.init (Step.requestMoves exampleField exampleRequested_eq))
    (Step.handleTurn exampleField 0 _ exampleOneOrder_eq)

/-! ## Submitted orders never exceed requested slots -/

/-- Along runs of calls that return: in every state reached from a fresh battle
(both turn lists and both request lists empty) by any sequence of
`requestMoves`, `requestReplacements`, `handleTurn`, `cancelAction` and
`maybeExecuteTurn` calls that return, the turn list of each party is at most as
long as its request list. -/
theorem submitted_le_requested (s0 s : NetworkBattleImpl) (h0t : s0.turns = [[], []])
    (h0r : s0.requests = [[], []]) (h : Reachable s0 s) (party : Nat) (ts : PARTY_TURN)
    (rs : PARTY_REQUEST) (ht : s.turns[party]? = some ts) (hr : s.requests[party]? = some rs) :
    ts.length ≤ rs.length := by
  obtain ⟨t0, t1, r0, r1, et, er, l0, l1⟩ := reachable_le h0t h0r h
  rw [et] at ht
  rw [er] at hr
  rcases party with _ | _ | n
  · simp at ht hr; subst ht; subst hr; exact l0
  · simp at ht hr; subst ht; subst hr; exact l1
  · simp at ht

/-- The bound on submitted orders in the example battle, for party 0 after it has
submitted its one order. -/
theorem submitted_le_requested_witness :
    (initialBattle [10, 11]).turns = [[], []] ∧ (initialBattle [10, 11]).requests = [[], []] ∧
      Reachable (initialBattle [10, 11]) exampleOneOrder ∧
      exampleOneOrder.turns[0]? = some [{ type := TurnType.TT_SWITCH, id := 1, target := 0 }] ∧
      exampleOneOrder.requests[0]? = some [0] ∧
      ([{ type := TurnType.TT_SWITCH, id := 1, target := 0 }] : PARTY_TURN).length ≤
        ([0] : PARTY_REQUEST).length :=
  ⟨rfl, rfl, exampleOneOrder_reachable, by decide, by decide,
    submitted_le_requested (initialBattle [10, 11]) exampleOneOrder rfl rfl
      exampleOneOrder_reachable 0 _ _ (by decide) (by decide)⟩

/-- Claim C1 fails on the code. The example battle after `requestMoves` and the
switch order of party 0 is reached by calls that return, and in it no party has
submitted more orders than were requested. Party 1 owes one order and has
submitted none; `cancelAction(1)` passes the one guard of the method and calls
`pop_back` on the empty turn list, which is undefined: the call has no result,
and the run does not end in a state in which the turn list of party 1 is at most
as long as its request list. -/
theorem cancelAction_breaks_bound :
    Reachable (initialBattle [10, 11]) exampleOneOrder ∧
    (∀ (party : Nat) (ts : PARTY_TURN) (rs : PARTY_REQUEST),
      exampleOneOrder.turns[party]? = some ts →
      exampleOneOrder.requests[party]? = some rs → ts.length ≤ rs.length) ∧
    exampleOneOrder.turns[1]? = some [] ∧ exampleOneOrder.requests[1]? = some [0] ∧
    cancelAction exampleField exampleOneOrder 1 = none := by
  refine ⟨exampleOneOrder_reachable, ?_, by decide, by decide, by decide⟩
  intro party ts rs ht hr
  exact submitted_le_requested (initialBattle [10, 11]) exampleOneOrder rfl rfl
    exampleOneOrder_reachable party ts rs ht hr

/-! ## When a round is posted -/

/-- Claim C2. On a two-party state `maybeExecuteTurn` returns, and it posts a
round exactly when, for both parties, the turn list is as long as the request
list; when the lengths of either party differ, nothing is posted and the turn
lists and request lists are unchanged. -/
theorem maybeExecuteTurn_posts_iff (s : NetworkBattleImpl) (t0 t1 : PARTY_TURN)
    (r0 r1 : PARTY_REQUEST) (ht : s.turns = [t0, t1]) (hr : s.requests = [r0, r1]) :
    ∃ s1, maybeExecuteTurn s = some s1 ∧
      ((∃ round, s1.posted = s.posted ++ [round]) ↔
        (t0.length = r0.length ∧ t1.length = r1.length)) ∧
      (¬ (t0.length = r0.length ∧ t1.length = r1.length) →
        s1.posted = s.posted ∧ s1.turns = s.turns ∧ s1.requests = s.requests) := by
  refine ⟨_, maybeExecuteTurn_two ht hr, ?_, ?_⟩
  · by_cases hc : r0.length = t0.length ∧ r1.length = t1.length
    · rw [if_pos hc]
      exact ⟨fun _ => ⟨hc.1.symm, hc.2.symm⟩, fun _ => ⟨t0 ++ t1, rfl⟩⟩
    · rw [if_neg hc]
      constructor
      · rintro ⟨round, e⟩
        have := congrArg List.length e
        simp at this
      · intro h
        exact absurd ⟨h.1.symm, h.2.symm⟩ hc
  · intro hc
    rw [if_neg (fun h => hc ⟨h.1.symm, h.2.symm⟩)]
    exact ⟨rfl, rfl, rfl⟩

/-- Claim C2 in the example battle while party 1 still owes its order. -/
theorem maybeExecuteTurn_posts_iff_witness :
    exampleOneOrder.turns = [[{ type := TurnType.TT_SWITCH, id := 1, target := 0 }], []] ∧
    exampleOneOrder.requests = [[0], [0]] ∧
    ∃ s1, maybeExecuteTurn exampleOneOrder = some s1 ∧
      ((∃ round, s1.posted = exampleOneOrder.posted ++ [round]) ↔
        (([{ type := TurnType.TT_SWITCH, id := 1, target := 0 }] : PARTY_TURN).length =
            ([0] : PARTY_REQUEST).length ∧
          ([] : PARTY_TURN).length = ([0] : PARTY_REQUEST).length)) ∧
      (¬ (([{ type := TurnType.TT_SWITCH, id := 1, target := 0 }] : PARTY_TURN).length =
            ([0] : PARTY_REQUEST).length ∧
          ([] : PARTY_TURN).length = ([0] : PARTY_REQUEST).length) →
        s1.posted = exampleOneOrder.posted ∧ s1.turns = exampleOneOrder.turns ∧
          s1.requests = exampleOneOrder.requests) :=
  ⟨rfl, rfl, maybeExecuteTurn_posts_iff exampleOneOrder _ _ _ _ rfl rfl⟩

/-- Claim C3. On a two-party state `maybeExecuteTurn` returns, and whenever it
posts a round, that round is the turn list of party 0 followed by the turn list
of party 1, and afterwards both turn lists and both request lists are empty. -/
theorem maybeExecuteTurn_round (s : NetworkBattleImpl) (t0 t1 : PARTY_TURN)
    (r0 r1 : PARTY_REQUEST) (ht : s.turns = [t0, t1]) (hr : s.requests = [r0, r1]) :
    (∃ s1, maybeExecuteTurn s = some s1) ∧
    ∀ s1 round, maybeExecuteTurn s = some s1 → s1.posted = s.posted ++ [round] →
      round = t0 ++ t1 ∧ s1.turns = [[], []] ∧ s1.requests = [[], []] := by
  refine ⟨⟨_, maybeExecuteTurn_two ht hr⟩, ?_⟩
  intro s1 round h hp
  rw [maybeExecuteTurn_two ht hr] at h
  split at h
  · cases h
    have e := List.append_cancel_left hp
    simp at e
    exact ⟨e.symm, rfl, rfl⟩
  · cases h
    have := congrArg List.length hp
    simp at this

/-- Claim C3 in the example battle once both parties have submitted: the round
posted is the switch of party 0 followed by the move of party 1. -/
theorem maybeExecuteTurn_round_witness :
    exampleComplete.turns = [[{ type := TurnType.TT_SWITCH, id := 1, target := 0 }],
              [{ type := TurnType.TT_MOVE, id := 0, target := 0 }]] ∧
    exampleComplete.requests = [[0], [0]] ∧
    maybeExecuteTurn exampleComplete =
      some { exampleComplete with
        turns := [[], []], requests := [[], []],
        posted := [[{ type := TurnType.TT_SWITCH, id := 1, target := 0 },
                    { type := TurnType.TT_MOVE, id := 0, target := 0 }]] } ∧
    ((∃ s1, maybeExecuteTurn exampleComplete = some s1) ∧
      ∀ s1 round, maybeExecuteTurn exampleComplete = some s1 →
        s1.posted = exampleComplete.posted ++ [round] →
        round = [{ type := TurnType.TT_SWITCH, id := 1, target := 0 }] ++
            [{ type := TurnType.TT_MOVE, id := 0, target := 0 }] ∧
          s1.turns = [[], []] ∧ s1.requests = [[], []]) :=
  ⟨rfl, rfl, by decide, maybeExecuteTurn_round exampleComplete _ _ _ _ rfl rfl⟩

/-! ## Switch targets -/

/-- Along runs of calls that return: in every state reached from empty turn
lists by controller operations that return (`handleTurn` and `cancelAction`
among them), the switch orders in the turn list of one party have pairwise
distinct target ids; and every round that a further operation posts splits into
the part of party 0 and the part of party 1, as long as their request lists,
each with pairwise distinct switch targets. -/
theorem switch_targets_distinct (s0 s : NetworkBattleImpl) (h0t : s0.turns = [[], []])
    (h0r : s0.requests.length = TEAM_COUNT) (h : Reachable s0 s) :
    (∀ ts ∈ s.turns, DistinctSwitchTargets ts) ∧
    (∀ s1 round, Step s s1 → s1.posted = s.posted ++ [round] →
      ∃ a b ra rb, s.requests = [ra, rb] ∧ round = a ++ b ∧ a.length = ra.length ∧
        b.length = rb.length ∧ DistinctSwitchTargets a ∧ DistinctSwitchTargets b) := by
  obtain ⟨t0, t1, r0, r1, et, er, d0, d1⟩ := reachable_distinct h0t h0r h
  constructor
  · intro ts hts
    rw [et] at hts
    simp at hts
    rcases hts with e | e <;> (subst e; assumption)
  · intro s1 round hs hp
    obtain ⟨u0, u1, a0, a1, hcase⟩ := step_two hs et er
    rcases hcase with ⟨_, _, _, _, _, _, e⟩ | ⟨g0, g1, _, _, e⟩
    · rw [e] at hp
      have := congrArg List.length hp
      simp at this
    · rw [e] at hp
      have e2 := List.append_cancel_left hp
      simp at e2
      exact ⟨u0, u1, r0, r1, er, e2.symm, g0.symm, g1.symm, a0.distinct d0, a1.distinct d1⟩

/-- Distinct switch targets in the example battle after party 0 has submitted a
switch. -/
theorem switch_targets_distinct_witness :
    (initialBattle [10, 11]).turns = [[], []] ∧
      (initialBattle [10, 11]).requests.length = TEAM_COUNT ∧
      Reachable (initialBattle [10, 11]) exampleOneOrder ∧
      ((∀ ts ∈ exampleOneOrder.turns, DistinctSwitchTargets ts) ∧
        (∀ s1 round, Step exampleOneOrder s1 → s1.posted = exampleOneOrder.posted ++ [round] →
          ∃ a b ra rb, exampleOneOrder.requests = [ra, rb] ∧ round = a ++ b ∧
            a.length = ra.length ∧ b.length = rb.length ∧
            DistinctSwitchTargets a ∧ DistinctSwitchTargets b)) :=
  ⟨rfl, rfl, exampleOneOrder_reachable,
    switch_targets_distinct (initialBattle [10, 11]) exampleOneOrder rfl rfl
      exampleOneOrder_reachable⟩

theorem doublesTwoSwitches_reachable :
    Reachable (initialBattle [10, 11]) doublesTwoSwitches :=
  Reachable.step
    (Reachable.step
      (Reachable.step Reachable.init
        (Step.requestMoves doublesField
          (show requestMoves doublesField (initialBattle [10, 11]) = some doublesRequested by
            decide)))
      (Step.handleTurn doublesField 0 { type := TurnType.TT_SWITCH, id := 2, target := 0 }
        (show handleTurn doublesField doublesRequested 0
            { type := TurnType.TT_SWITCH, id := 2, target := 0 } = some doublesSwitched by
          decide)))
    (Step.handleTurn doublesField 0 { type := TurnType.TT_SWITCH, id := 3, target := 0 }
      (show handleTurn doublesField doublesSwitched 0
          { type := TurnType.TT_SWITCH, id := 3, target := 0 } = some doublesTwoSwitches by
        decide))

/-- Claim C4 fails on the code. In the doubles battle party 0 has ordered
switches to the team positions 2 and 3, a state reached by calls that return in
which the switch targets of each turn list are pairwise distinct. Party 1 owes
two orders and has submitted none; `cancelAction(1)` calls `pop_back` on the
empty turn list, which is undefined: the call has no result, and the run does
not end in a state whose turn lists are lists of orders with distinct switch
targets. -/
theorem cancelAction_breaks_distinct :
    Reachable (initialBattle [10, 11]) doublesTwoSwitches ∧
    doublesTwoSwitches.turns =
      [[{ type := TurnType.TT_SWITCH, id := 2, target := 0 },
        { type := TurnType.TT_SWITCH, id := 3, target := 0 }], []] ∧
    doublesTwoSwitches.requests = [[0, 1], [0, 1]] ∧
    (∀ ts ∈ doublesTwoSwitches.turns, DistinctSwitchTargets ts) ∧
    cancelAction doublesField doublesTwoSwitches 1 = none :=
  ⟨doublesTwoSwitches_reachable, by decide, by decide, by decide, by decide⟩

/-! ## Cancelling an order -/

/-- When every requested order of the party is in, `cancelAction` changes
nothing and sends nothing. -/
theorem cancelAction_too_late (f : BattleField) (s : NetworkBattleImpl) (party : Nat)
    (turn : PARTY_TURN) (req : PARTY_REQUEST) (ht : s.turns[party]? = some turn)
    (hr : s.requests[party]? = some req) (he : turn.length = req.length) :
    cancelAction f s party = some s := by
  unfold cancelAction
  simp [ht, hr, he]

/-- When the party has submitted at least one order and still owes one,
`cancelAction` removes the last submitted order, leaves everything else as it
was, and sends one `REQUEST_ACTION` for the slot of the removed order. -/
theorem cancelAction_removes_last (f : BattleField) (s : NetworkBattleImpl) (party : Nat)
    (earlier : PARTY_TURN) (last : PokemonTurn) (req : PARTY_REQUEST) (slot : Int)
    (p : ActivePokemon) (switches : List Bool) (client : Nat)
    (ht : s.turns[party]? = some (earlier ++ [last])) (hr : s.requests[party]? = some req)
    (hlt : earlier.length + 1 < req.length) (hs : req[earlier.length]? = some slot)
    (hp : f.getActivePokemon party slot = some p)
    (hm : maskSwitches (f.getLegalSwitches p) earlier = some switches)
    (hc : getClient s party = some client) :
    cancelAction f s party =
      some { s with
        turns := s.turns.set party earlier
        sent := s.sent ++
          [(client, OutMessage.REQUEST_ACTION
            (requestActionMessage f s.replacement p switches))] } := by
  have hlen : party < s.turns.length := by
    by_contra hc2
    rw [List.getElem?_eq_none (not_lt.1 hc2)] at ht
    cases ht
  unfold cancelAction
  simp only [ht, hr, Option.bind_eq_bind, Option.some_bind, List.length_append,
    List.length_singleton, if_neg (Nat.ne_of_gt hlt), List.dropLast_concat]
  have hne : (earlier ++ [last]).isEmpty = false := by simp
  simp only [hne, Bool.false_eq_true, if_false]
  exact requestAction_eq (s := { s with turns := s.turns.set party earlier })
    (by simp [hlen]) hr hs hp hm hc

/-- Claim C7, at the state right after `requestMoves`: party 0 owes one order
and has submitted none, and `cancelAction(0)` reaches `pop_back` on an empty
vector, which is undefined. -/
theorem cancelAction_nothing_submitted :
    requestMoves exampleField (initialBattle [10, 11]) = some exampleRequested ∧
      exampleRequested.turns[0]? = some [] ∧ exampleRequested.requests[0]? = some [0] ∧
      cancelAction exampleField exampleRequested 0 = none := by decide

/-! ## Rejected orders -/

/-- Claim C8. `handleTurn` leaves the state as it is when no order is expected
from the party, and nothing is sent. When an order is expected and either
`isTurnLegal` answers false or the order is a switch to the target of an earlier
switch order of the same party, the turn lists, the request lists and the posted
rounds are unchanged and exactly one `REQUEST_ACTION` is sent to the client of
that party; this holds whenever `requestAction` has its inputs: the creature in
the requested slot exists, the party has a client, and the earlier switch
targets are positions of the legal-switch mask. -/
theorem handleTurn_rejection (f : BattleField) (s : NetworkBattleImpl) (party : Nat)
    (turn : PokemonTurn) (pturn : PARTY_TURN) (req : PARTY_REQUEST)
    (ht : s.turns[party]? = some pturn) (hr : s.requests[party]? = some req) :
    (pturn.length = req.length → handleTurn f s party turn = some s) ∧
    (∀ slot p switches client, pturn.length < req.length →
      req[pturn.length]? = some slot → f.getActivePokemon party slot = some p →
      maskSwitches (f.getLegalSwitches p) pturn = some switches →
      getClient s party = some client →
      (f.isTurnLegal (some p) turn s.replacement = false ∨
        (turn.type = TurnType.TT_SWITCH ∧
          ∃ t ∈ pturn, t.type = TurnType.TT_SWITCH ∧ t.id = turn.id)) →
      handleTurn f s party turn =
        some { s with sent := s.sent ++
          [(client, OutMessage.REQUEST_ACTION
            (requestActionMessage f s.replacement p switches))] }) := by
  constructor
  · intro he
    unfold handleTurn
    simp [ht, hr, he]
  · intro slot p switches client hlt hs hp hm hc hrej
    have hra := requestAction_eq ht hr hs hp hm hc
    unfold handleTurn
    simp only [ht, hr, hs, hp, Option.bind_eq_bind, Option.some_bind, Option.pure_def,
      if_neg (Nat.ne_of_lt hlt)]
    rcases hrej with hl | ⟨hsw, hdup⟩
    · simp [hl, hra]
    · by_cases hl : f.isTurnLegal (some p) turn s.replacement = false
      · simp [hl, hra]
      · simp [hl, hsw, hasSwitchTo_eq_true hdup, hra]

/-- Claim C8 in the example battle: party 0 owes one order and submits a move
that `isTurnLegal` rejects; one `REQUEST_ACTION` goes to client 10 and nothing
else changes. -/
theorem handleTurn_rejection_witness :
    exampleRequested.turns[0]? = some [] ∧ exampleRequested.requests[0]? = some [0] ∧
      handleTurn exampleField exampleRequested 0 { type := TurnType.TT_MOVE, id := 5, target := 0 } =
        some { exampleRequested with
          sent := exampleRequested.sent ++
            [(10, OutMessage.REQUEST_ACTION
              (requestActionMessage exampleField exampleRequested.replacement
                { slot := 0, position := 0, switchLegal := true, forced := false,
                  moveLegal := [true, true] }
                [false, true, true]))] } :=
  ⟨by decide, by decide,
    (handleTurn_rejection exampleField exampleRequested 0
      { type := TurnType.TT_MOVE, id := 5, target := 0 } [] [0] (by decide) (by decide)).2
      0 _ _ 10 (by decide) (by decide) (by decide) (by decide) (by decide)
      (Or.inl (by decide))⟩

/-! ## Health bookkeeping -/

/-- Damping effects leave the change between 0 and what it was. -/
theorem transformHealthChangeLoop_between {es : List StatusObject} {b : Bool}
    (hd : ∀ e ∈ es, e.isActive = true → Damping e) (x : Int) :
    (0 ≤ transformHealthChangeLoop es x b ∧ transformHealthChangeLoop es x b ≤ x) ∨
      (x ≤ transformHealthChangeLoop es x b ∧ transformHealthChangeLoop es x b ≤ 0) := by
  induction es generalizing x with
  | nil =>
    simp only [transformHealthChangeLoop]
    rcases le_total 0 x with h | h
    · exact Or.inl ⟨h, le_refl _⟩
    · exact Or.inr ⟨le_refl _, h⟩
  | cons e rest ih =>
    have ih1 := ih (fun e1 h1 => hd e1 (List.mem_cons_of_mem _ h1))
    simp only [transformHealthChangeLoop]
    by_cases ha : e.isActive = true
    · simp only [ha, Bool.not_true, Bool.false_eq_true, if_false]
      have h1 := hd e (List.mem_cons_self _ _) ha x b
      have h2 := ih1 (e.transformHealthChange x b)
      omega
    · simp only [Bool.not_eq_true] at ha
      simp only [ha, Bool.not_false, if_true]
      exact ih1 x

/-- What `setHp` does to the health, the maximum and the fainted flag of a
creature that has not fainted, in terms of the transformed change. -/
theorem setHp_spec (p : Pokemon) (top : Option EXECUTION) (hp : Int)
    (hf : p.fainted = false) :
    (p.setHp top hp).1.hp =
        p.hp - p.transformHealthChange (p.hp - clampedHp p hp) (isIndirect p top) ∧
      (p.setHp top hp).1.statHp = p.statHp ∧
      ((p.setHp top hp).1.fainted = true ↔
        (p.transformHealthChange (p.hp - clampedHp p hp) (isIndirect p top) ≠ 0 ∧
          p.hp - p.transformHealthChange (p.hp - clampedHp p hp) (isIndirect p top) ≤ 0)) := by
  unfold Pokemon.setHp
  simp only [hf, Bool.false_eq_true, if_false]
  have e1 : (if hp > p.statHp then p.statHp else hp) = clampedHp p hp := rfl
  have e2 : (match top with
      | none => true
      | some move => decide (move.user = p.ident)) = isIndirect p top := rfl
  rw [e1, e2]
  generalize p.transformHealthChange (p.hp - clampedHp p hp) (isIndirect p top) = d
  by_cases h0 : d = 0
  · simp [h0, hf]
  · simp only [h0, if_false]
    cases top with
    | none =>
      by_cases h1 : p.hp - d ≤ 0 <;> simp [h1, h0, Pokemon.faint, hf]
    | some move =>
      by_cases h2 : d > 0 <;> by_cases h1 : p.hp - d ≤ 0 <;>
        simp [h2, h1, h0, Pokemon.faint, Pokemon.informDamaged, hf]

/-- On a fainted creature `setHp` returns at once. -/
theorem setHp_of_fainted (p : Pokemon) (top : Option EXECUTION) (hp : Int)
    (hf : p.fainted = true) : p.setHp top hp = (p, []) := by
  unfold Pokemon.setHp
  simp [hf]

theorem exampleDamped_damping :
    ∀ e ∈ exampleDamped.effects, e.isActive = true → Damping e := by
  intro e he _ x b
  have : e = { isActive := true, transformHealthChange := fun x _ => x / 2 } := by
    simpa [exampleDamped, examplePokemon] using he
  subst this
  simp only
  omega

/-- Claim C5, the two ways in which it fails. A creature at 10 of 10 without
effects is left at -5 by `setHp(-5)`: the argument is clamped from above only.
A creature at 5 of 10 whose one effect doubles every change is left at 15 by
`setHp(10)`. -/
theorem setHp_bounds_counterexample :
    (examplePokemon.fainted = false ∧ examplePokemon.statHp = 10 ∧ examplePokemon.hp = 10 ∧
      (examplePokemon.setHp none (-5)).1.hp = -5) ∧
    (exampleAmplified.fainted = false ∧ exampleAmplified.statHp = 10 ∧ exampleAmplified.hp = 5 ∧
      (exampleAmplified.setHp none 10).1.hp = 15 ∧
      (exampleAmplified.setHp none 10).1.statHp = 10) := by decide

/-- Claim C5, amended. For a creature that has not fainted, with health between
0 and its maximum, whose active effects each return a change between 0 and the
change they receive: after `setHp(hp)` the health is at most the maximum for
every integer `hp`, and it is at least 0 whenever `hp` is at least 0. -/
theorem setHp_bounds (p : Pokemon) (top : Option EXECUTION) (hp : Int)
    (hf : p.fainted = false) (h0 : 0 ≤ p.hp) (h1 : p.hp ≤ p.statHp)
    (hd : ∀ e ∈ p.effects, e.isActive = true → Damping e) :
    (p.setHp top hp).1.hp ≤ p.statHp ∧ (0 ≤ hp → 0 ≤ (p.setHp top hp).1.hp) := by
  obtain ⟨e1, _, _⟩ := setHp_spec p top hp hf
  rw [e1]
  have hb := transformHealthChangeLoop_between (b := isIndirect p top) hd (p.hp - clampedHp p hp)
  unfold Pokemon.transformHealthChange
  have hc : clampedHp p hp ≤ p.statHp ∧ (0 ≤ hp → 0 ≤ clampedHp p hp) := by
    unfold clampedHp
    split <;> omega
  constructor
  · omega
  · intro hh
    have := hc.2 hh
    omega

/-- Claim C5, amended, on a creature at 10 of 10 whose one effect halves every
change: `setHp(3)` asks for a change of 7, the effect makes it 3, and the health
is 7. -/
theorem setHp_bounds_witness :
    (exampleDamped.fainted = false ∧ 0 ≤ exampleDamped.hp ∧
      exampleDamped.hp ≤ exampleDamped.statHp ∧
      ∀ e ∈ exampleDamped.effects, e.isActive = true → Damping e) ∧
    ((exampleDamped.setHp none 3).1.hp ≤ exampleDamped.statHp ∧
      ((0 : Int) ≤ 3 → 0 ≤ (exampleDamped.setHp none 3).1.hp)) ∧
    (exampleDamped.setHp none 3).1.hp = 7 :=
  ⟨⟨by decide, by decide, by decide, exampleDamped_damping⟩,
    setHp_bounds exampleDamped none 3 (by decide) (by decide) (by decide) exampleDamped_damping,
    by decide⟩

/-- Claim C6 fails. A creature at 5 of 10 whose one effect doubles every change
is, after `setHp(0)`, fainted with health -5; a creature at 10 of 10 without
effects is, after `setHp(-5)`, fainted with health -5. In both cases the health
of the fainted creature is not 0. -/
theorem fainted_iff_hp_zero_counterexample :
    (exampleAmplified.fainted = false ∧ 0 < exampleAmplified.hp ∧
      HpReachable exampleAmplified
        (Pokemon.setHp { exampleAmplified with effects := exampleAmplified.effects } none 0).1 ∧
      (Pokemon.setHp { exampleAmplified with effects := exampleAmplified.effects }
        none 0).1.fainted = true ∧
      (Pokemon.setHp { exampleAmplified with effects := exampleAmplified.effects }
        none 0).1.hp = -5) ∧
    (examplePokemon.fainted = false ∧ 0 < examplePokemon.hp ∧
      HpReachable examplePokemon (Pokemon.setHp { examplePokemon with effects := [] } none (-5)).1 ∧
      (Pokemon.setHp { examplePokemon with effects := [] } none (-5)).1.fainted = true ∧
      (Pokemon.setHp { examplePokemon with effects := [] } none (-5)).1.hp = -5) :=
  ⟨⟨by decide, by decide, HpReachable.setHp exampleAmplified.effects none 0 HpReachable.init,
      by decide, by decide⟩,
    ⟨by decide, by decide, HpReachable.setHp [] none (-5) HpReachable.init, by decide,
      by decide⟩⟩

/-- Claim C6, amended. For every creature that starts not fainted with health
above 0, after any sequence of `setHp` calls, under any effects, the creature is
fainted if and only if its health is at most 0. -/
theorem fainted_iff_hp_le_zero (p0 p : Pokemon) (hf : p0.fainted = false) (h0 : 0 < p0.hp)
    (h : HpReachable p0 p) : p.fainted = true ↔ p.hp ≤ 0 := by
  induction h with
  | init => simp [hf]; exact h0
  | @setHp q effects top hp _ ih =>
    by_cases hq : q.fainted = true
    · rw [setHp_of_fainted _ top hp (by simpa using hq)]
      simpa using ih
    · have hq1 : q.fainted = false := by simpa using hq
      have hpos : 0 < q.hp := by
        by_contra hc
        exact hq (ih.2 (not_lt.1 hc))
      obtain ⟨e1, _, e3⟩ := setHp_spec { q with effects := effects } top hp hq1
      rw [e3, e1]
      simp only
      constructor
      · exact fun h => h.2
      · intro hle
        refine ⟨?_, hle⟩
        intro hz
        rw [hz] at hle
        omega

/-- Claim C6, amended, after `setHp(-5)` and then `setHp(4)` on a creature at
10 of 10: it stays fainted at -5. -/
theorem fainted_iff_hp_le_zero_witness :
    examplePokemon.fainted = false ∧ 0 < examplePokemon.hp ∧
      ((Pokemon.setHp
          { (Pokemon.setHp { examplePokemon with effects := [] } none (-5)).1 with effects := [] }
          none 4).1.fainted = true ↔
        (Pokemon.setHp
          { (Pokemon.setHp { examplePokemon with effects := [] } none (-5)).1 with effects := [] }
          none 4).1.hp ≤ 0) ∧
      (Pokemon.setHp
          { (Pokemon.setHp { examplePokemon with effects := [] } none (-5)).1 with effects := [] }
          none 4).1.hp = -5 :=
  ⟨by decide, by decide,
    fainted_iff_hp_le_zero examplePokemon _ (by decide) (by decide)
      (HpReachable.setHp [] none 4 (HpReachable.setHp [] none (-5) HpReachable.init)),
    by decide⟩

/-! ## The health message: scaling to 48ths -/

/-- On a value that is at least 0 the conversion to `int` is the floor. -/
theorem truncToInt_of_nonneg {q : ℚ} (h : 0 ≤ q) : truncToInt q = ⌊q⌋ := by
  unfold truncToInt
  rw [Rat.floor_def, Int.tdiv_eq_ediv (Rat.num_nonneg.2 h) (Int.ofNat_nonneg _)]

theorem truncToInt_neg (q : ℚ) : truncToInt (-q) = -truncToInt q := by
  unfold truncToInt
  simp

/-- On a value that is at most 0 the conversion to `int` is the ceiling. -/
theorem truncToInt_of_nonpos {q : ℚ} (h : q ≤ 0) : truncToInt q = ⌈q⌉ := by
  have e := truncToInt_of_nonneg (neg_nonneg.2 h)
  rw [truncToInt_neg, Int.floor_neg] at e
  exact neg_injective e

/-- The scaled value `48·x/m + 0.5` as one fraction. -/
theorem scaled_eq (x m : Int) (hm : 0 < m) :
    (48 * (x : ℚ) / (m : ℚ) + 1 / 2) = ((96 * x + m : Int) : ℚ) / ((2 * m).toNat : ℚ) := by
  have h2 : ((2 * m).toNat : ℚ) = 2 * (m : ℚ) := by
    have : ((2 * m).toNat : Int) = 2 * m := Int.toNat_of_nonneg (by omega)
    exact_mod_cast this
  have hm0 : (m : ℚ) ≠ 0 := by exact_mod_cast hm.ne'
  rw [h2]
  push_cast
  field_simp
  ring

theorem scaled_floor (x m : Int) (hm : 0 < m) :
    ⌊(48 * (x : ℚ) / (m : ℚ) + 1 / 2)⌋ = (96 * x + m) / (2 * m) := by
  rw [scaled_eq x m hm, Rat.floor_intCast_div_natCast, Int.toNat_of_nonneg (by omega)]

theorem scaled_nonneg_iff (x m : Int) (hm : 0 < m) :
    0 ≤ (48 * (x : ℚ) / (m : ℚ) + 1 / 2) ↔ 0 ≤ 96 * x + m := by
  rw [scaled_eq x m hm]
  have hpos : (0 : ℚ) < ((2 * m).toNat : ℚ) := by
    have : (0 : Int) < ((2 * m).toNat : Int) := by rw [Int.toNat_of_nonneg (by omega)]; omega
    exact_mod_cast this
  rw [div_nonneg_iff]
  constructor
  · rintro (⟨h, _⟩ | ⟨_, h⟩)
    · exact_mod_cast h
    · exact absurd hpos (not_lt.2 h)
  · intro h
    exact Or.inl ⟨by exact_mod_cast h, hpos.le⟩

/-- The cast to `int16_t` keeps a value that fits 16 bits. -/
theorem toInt16_of_range {x : Int} (h1 : -32768 ≤ x) (h2 : x < 32768) : toInt16 x = x := by
  unfold toInt16
  omega

/-- The conversion of a scaled value that is at least 0, in integer arithmetic. -/
theorem scaled_trunc_of_nonneg (x m : Int) (hm : 0 < m) (hx : 0 ≤ 96 * x + m) :
    truncToInt (48 * (x : ℚ) / (m : ℚ) + 1 / 2) = (96 * x + m) / (2 * m) := by
  rw [truncToInt_of_nonneg ((scaled_nonneg_iff x m hm).2 hx), scaled_floor x m hm]

/-- The message that `informHealthChange` builds, for a positive maximum. -/
theorem informHealthChange_eq (fieldId : Int) (p : Pokemon) (raw : Int) (hm : 0 < p.statHp) :
    informHealthChange fieldId p raw =
      some { fieldId := fieldId, party := toUChar p.party, slot := toUChar p.slot, name := p.name,
             delta := toInt16 (truncToInt (48 * (raw : ℚ) / (p.statHp : ℚ) + 1 / 2)),
             total := toInt16 (truncToInt (48 * (p.hp : ℚ) / (p.statHp : ℚ) + 1 / 2)) } := by
  unfold informHealthChange
  simp [hm.ne']

theorem scaled_bounds (x m : Int) (hm : 0 < m) (h0 : 0 ≤ x) (h1 : x ≤ m) :
    0 ≤ (96 * x + m) / (2 * m) ∧ (96 * x + m) / (2 * m) ≤ 48 := by
  constructor
  · exact Int.ediv_nonneg (by omega) (by omega)
  · have : (96 * x + m) / (2 * m) < 49 := by
      apply Int.ediv_lt_of_lt_mul (by omega)
      omega
    omega

theorem scaled_sum (d h m : Int) (hm : 0 < m) (hs : h + d ≤ m) :
    (96 * d + m) / (2 * m) + (96 * h + m) / (2 * m) ≤ 49 := by
  have a := Int.ediv_mul_le (96 * d + m) (show (2 * m) ≠ 0 by omega)
  have b := Int.ediv_mul_le (96 * h + m) (show (2 * m) ≠ 0 by omega)
  by_contra hc
  have hc1 : 50 ≤ (96 * d + m) / (2 * m) + (96 * h + m) / (2 * m) := by omega
  have : 50 * (2 * m) ≤ ((96 * d + m) / (2 * m) + (96 * h + m) / (2 * m)) * (2 * m) :=
    Int.mul_le_mul_of_nonneg_right hc1 (by omega)
  rw [Int.add_mul] at this
  omega

/-- Claim C9, amended. For a creature with maximum `m > 0`, health `h` with
`0 ≤ h ≤ m`, and raw damage `d > 0` with `h + d ≤ m`, `informHealthChange`
builds a message whose delta plus total is at most 49; delta and total are each
at most 48. -/
theorem health_change_sum_le (fieldId : Int) (p : Pokemon) (raw : Int) (hm : 0 < p.statHp)
    (h0 : 0 ≤ p.hp) (h1 : p.hp ≤ p.statHp) (hraw : 0 < raw) (hs : p.hp + raw ≤ p.statHp) :
    ∃ msg, informHealthChange fieldId p raw = some msg ∧ msg.delta + msg.total ≤ 49 ∧
      msg.delta ≤ 48 ∧ msg.total ≤ 48 := by
  refine ⟨_, informHealthChange_eq fieldId p raw hm, ?_⟩
  simp only
  rw [scaled_trunc_of_nonneg raw p.statHp hm (by omega),
    scaled_trunc_of_nonneg p.hp p.statHp hm (by omega)]
  have bd := scaled_bounds raw p.statHp hm (by omega) (by omega)
  have bt := scaled_bounds p.hp p.statHp hm h0 h1
  rw [toInt16_of_range (by omega) (by omega), toInt16_of_range (by omega) (by omega)]
  exact ⟨scaled_sum raw p.hp p.statHp hm hs, bd.2, bt.2⟩

/-- Claim C9, amended, for a creature at 95 of 96 that has just lost 1. -/
theorem health_change_sum_le_witness :
    (0 < exampleHurt.statHp ∧ 0 ≤ exampleHurt.hp ∧ exampleHurt.hp ≤ exampleHurt.statHp ∧
      (0 : Int) < 1 ∧ exampleHurt.hp + 1 ≤ exampleHurt.statHp) ∧
    ∃ msg, informHealthChange 7 exampleHurt 1 = some msg ∧ msg.delta + msg.total ≤ 49 ∧
      msg.delta ≤ 48 ∧ msg.total ≤ 48 :=
  ⟨by decide, health_change_sum_le 7 exampleHurt 1 (by decide) (by decide) (by decide)
    (by decide) (by decide)⟩

/-- The message for a creature at 95 of 96 that has just lost 1: delta 1 and
total 48, since 0.5 + 0.5 and 47.5 + 0.5 are both whole. -/
theorem exampleHurt_message :
    informHealthChange 7 exampleHurt 1 =
      some { fieldId := 7, party := 0, slot := 0, name := "Pikachu", delta := 1, total := 48 } := by
  rw [informHealthChange_eq 7 exampleHurt 1 (by decide),
    scaled_trunc_of_nonneg 1 exampleHurt.statHp (by decide) (by decide),
    scaled_trunc_of_nonneg exampleHurt.hp exampleHurt.statHp (by decide) (by decide)]
  decide

/-- Claim C9 fails: for a creature at 95 of 96 that has just lost 1, the delta
and the total of the message add up to 49. -/
theorem health_change_sum_counterexample :
    0 < exampleHurt.statHp ∧ 0 ≤ exampleHurt.hp ∧ exampleHurt.hp ≤ exampleHurt.statHp ∧
      (0 : Int) < 1 ∧ exampleHurt.hp + 1 ≤ exampleHurt.statHp ∧
      ∃ msg, informHealthChange 7 exampleHurt 1 = some msg ∧ msg.delta + msg.total = 49 :=
  ⟨by decide, by decide, by decide, by decide, by decide, _, exampleHurt_message, by decide⟩


theorem truncToInt_range {q : ℚ} (h1 : -32768 ≤ q) (h2 : q < 32768) :
    truncToInt q = (if 0 ≤ q then ⌊q⌋ else ⌈q⌉) ∧
      -32768 ≤ truncToInt q ∧ truncToInt q < 32768 := by
  by_cases h : 0 ≤ q
  · rw [if_pos h, truncToInt_of_nonneg h]
    refine ⟨rfl, ?_, ?_⟩
    · exact Int.le_floor.2 (by exact_mod_cast h1)
    · exact Int.floor_lt.2 (by exact_mod_cast h2)
  · rw [if_neg h, truncToInt_of_nonpos (le_of_lt (not_le.1 h))]
    refine ⟨rfl, ?_, ?_⟩
    · have : ((-32768 : Int) : ℚ) ≤ ((⌈q⌉ : Int) : ℚ) :=
        le_trans (by exact_mod_cast h1) (Int.le_ceil q)
      exact_mod_cast this
    · have : ⌈q⌉ ≤ 0 := Int.ceil_le.2 (by exact_mod_cast (le_of_lt (not_le.1 h)))
      omega

/-- Claim C10, amended. For a maximum `m > 0`, and a raw delta and a health
whose scaled values `48·x/m + 0.5` are at least 0 and below 32768, the delta and
the total of the message are the floors of those values. -/
theorem health_change_rounding (fieldId : Int) (p : Pokemon) (raw : Int) (hm : 0 < p.statHp)
    (hd1 : 0 ≤ 48 * (raw : ℚ) / (p.statHp : ℚ) + 1 / 2)
    (hd2 : 48 * (raw : ℚ) / (p.statHp : ℚ) + 1 / 2 < 32768)
    (ht1 : 0 ≤ 48 * (p.hp : ℚ) / (p.statHp : ℚ) + 1 / 2)
    (ht2 : 48 * (p.hp : ℚ) / (p.statHp : ℚ) + 1 / 2 < 32768) :
    ∃ msg, informHealthChange fieldId p raw = some msg ∧
      msg.delta = ⌊48 * (raw : ℚ) / (p.statHp : ℚ) + 1 / 2⌋ ∧
      msg.total = ⌊48 * (p.hp : ℚ) / (p.statHp : ℚ) + 1 / 2⌋ := by
  refine ⟨_, informHealthChange_eq fieldId p raw hm, ?_⟩
  simp only
  obtain ⟨a1, a2, a3⟩ := truncToInt_range (le_trans (by norm_num) hd1) hd2
  obtain ⟨b1, b2, b3⟩ := truncToInt_range (le_trans (by norm_num) ht1) ht2
  rw [toInt16_of_range a2 a3, toInt16_of_range b2 b3, a1, b1, if_pos hd1, if_pos ht1]
  exact ⟨rfl, rfl⟩

/-- Claim C10, amended, for a creature at 95 of 96 that has just lost 1: the
scaled values are 1 and 48. -/
theorem health_change_rounding_witness :
    (0 < exampleHurt.statHp ∧
      0 ≤ 48 * ((1 : Int) : ℚ) / (exampleHurt.statHp : ℚ) + 1 / 2 ∧
      48 * ((1 : Int) : ℚ) / (exampleHurt.statHp : ℚ) + 1 / 2 < 32768 ∧
      0 ≤ 48 * (exampleHurt.hp : ℚ) / (exampleHurt.statHp : ℚ) + 1 / 2 ∧
      48 * (exampleHurt.hp : ℚ) / (exampleHurt.statHp : ℚ) + 1 / 2 < 32768) ∧
    ∃ msg, informHealthChange 7 exampleHurt 1 = some msg ∧
      msg.delta = ⌊48 * ((1 : Int) : ℚ) / (exampleHurt.statHp : ℚ) + 1 / 2⌋ ∧
      msg.total = ⌊48 * (exampleHurt.hp : ℚ) / (exampleHurt.statHp : ℚ) + 1 / 2⌋ :=
  ⟨⟨by decide, by norm_num [exampleHurt, examplePokemon],
      by norm_num [exampleHurt, examplePokemon], by norm_num [exampleHurt, examplePokemon],
      by norm_num [exampleHurt, examplePokemon]⟩,
    health_change_rounding 7 exampleHurt 1 (by decide)
      (by norm_num [exampleHurt, examplePokemon]) (by norm_num [exampleHurt, examplePokemon])
      (by norm_num [exampleHurt, examplePokemon]) (by norm_num [exampleHurt, examplePokemon])⟩

/-- The conversion of a scaled value that is at most 0, in integer arithmetic. -/
theorem scaled_trunc_of_nonpos (x m : Int) (hm : 0 < m) (hx : 96 * x + m ≤ 0) :
    truncToInt (48 * (x : ℚ) / (m : ℚ) + 1 / 2) = -((-(96 * x + m)) / (2 * m)) := by
  have hq : (48 * (x : ℚ) / (m : ℚ) + 1 / 2) ≤ 0 := by
    by_contra hc
    have h1 := (scaled_nonneg_iff x m hm).1 (le_of_lt (not_le.1 hc))
    have h2 : 96 * x + m = 0 := le_antisymm hx h1
    rw [scaled_eq x m hm, h2] at hc
    simp at hc
  have e : -(48 * (x : ℚ) / (m : ℚ) + 1 / 2) =
      ((-(96 * x + m) : Int) : ℚ) / ((2 * m).toNat : ℚ) := by
    rw [scaled_eq x m hm, ← neg_div]
    push_cast
    ring
  have e2 := truncToInt_of_nonneg (neg_nonneg.2 hq)
  rw [truncToInt_neg, e, Rat.floor_intCast_div_natCast, Int.toNat_of_nonneg (by omega)] at e2
  omega

/-- The message for a creature at 10 of 10 that has just been healed by 5:
`48·(-5)/10 + 0.5 = -23.5` is converted to -23. -/
theorem exampleHealed_message :
    informHealthChange 7 examplePokemon (-5) =
      some { fieldId := 7, party := 0, slot := 0, name := "Pikachu", delta := -23, total := 48 } := by
  rw [informHealthChange_eq 7 examplePokemon (-5) (by decide),
    scaled_trunc_of_nonpos (-5) examplePokemon.statHp (by decide) (by decide),
    scaled_trunc_of_nonneg examplePokemon.hp examplePokemon.statHp (by decide) (by decide)]
  decide

/-- The message for a creature at 1 of 1 and raw delta 700: the scaled value
33600 does not fit the 16-bit field and is written as -31936. -/
theorem exampleTiny_message :
    informHealthChange 7 exampleTiny 700 =
      some { fieldId := 7, party := 0, slot := 0, name := "Pikachu", delta := -31936,
             total := 48 } := by
  rw [informHealthChange_eq 7 exampleTiny 700 (by decide),
    scaled_trunc_of_nonneg 700 exampleTiny.statHp (by decide) (by decide),
    scaled_trunc_of_nonneg exampleTiny.hp exampleTiny.statHp (by decide) (by decide)]
  decide

/-- Claim C10 fails in two ways. For a creature at 10 of 10 and raw delta -5
the delta of the message is -23, while the floor of `48·(-5)/10 + 0.5` is -24:
the conversion to `int` discards the fraction. For a creature at 1 of 1 and raw
delta 700 the delta of the message is -31936, while the floor is 33600: the
field has 16 bits. -/
theorem health_change_floor_counterexample :
    (0 < examplePokemon.statHp ∧
      ∃ msg, informHealthChange 7 examplePokemon (-5) = some msg ∧ msg.delta = -23 ∧
        ⌊48 * ((-5 : Int) : ℚ) / (examplePokemon.statHp : ℚ) + 1 / 2⌋ = -24) ∧
    (0 < exampleTiny.statHp ∧
      ∃ msg, informHealthChange 7 exampleTiny 700 = some msg ∧ msg.delta = -31936 ∧
        ⌊48 * ((700 : Int) : ℚ) / (exampleTiny.statHp : ℚ) + 1 / 2⌋ = 33600) := by
  refine ⟨⟨by decide, _, exampleHealed_message, rfl, ?_⟩,
    ⟨by decide, _, exampleTiny_message, rfl, ?_⟩⟩
  · rw [scaled_floor (-5) examplePokemon.statHp (by decide)]
    decide
  · rw [scaled_floor 700 exampleTiny.statHp (by decide)]
    decide

/-- The scaled value of a full bar is 48 and that of an empty bar is 0. -/
theorem scaled_full_empty (m : Int) (hm : 0 < m) :
    (96 * m + m) / (2 * m) = 48 ∧ (96 * 0 + m) / (2 * m) = 0 := by
  constructor
  · apply le_antisymm
    · have : (96 * m + m) / (2 * m) < 49 := Int.ediv_lt_of_lt_mul (by omega) (by omega)
      omega
    · exact Int.le_ediv_of_mul_le (by omega) (by omega)
  · apply le_antisymm
    · have : (96 * 0 + m) / (2 * m) < 1 := Int.ediv_lt_of_lt_mul (by omega) (by omega)
      omega
    · exact Int.ediv_nonneg (by omega) (by omega)

/-- Claim C11. For a creature with maximum `m > 0` and health `h` with
`0 ≤ h ≤ m`, the total of the message built by `informHealthChange` lies between
0 and 48, is 48 when `h = m` and 0 when `h = 0`; and for a knock-out from full
health (`raw = m`, `h = 0`) the delta is 48 and the total is 0. -/
theorem health_change_total_range (fieldId : Int) (p : Pokemon) (raw : Int)
    (hm : 0 < p.statHp) (h0 : 0 ≤ p.hp) (h1 : p.hp ≤ p.statHp) :
    ∃ msg, informHealthChange fieldId p raw = some msg ∧
      0 ≤ msg.total ∧ msg.total ≤ 48 ∧
      (p.hp = p.statHp → msg.total = 48) ∧
      (p.hp = 0 → msg.total = 0) ∧
      (raw = p.statHp → p.hp = 0 → msg.delta = 48 ∧ msg.total = 0) := by
  refine ⟨_, informHealthChange_eq fieldId p raw hm, ?_⟩
  simp only
  have bt := scaled_bounds p.hp p.statHp hm h0 h1
  have fe := scaled_full_empty p.statHp hm
  rw [scaled_trunc_of_nonneg p.hp p.statHp hm (by omega), toInt16_of_range (by omega) (by omega)]
  refine ⟨bt.1, bt.2, ?_, ?_, ?_⟩
  · intro e; rw [e]; exact fe.1
  · intro e; rw [e]; exact fe.2
  · intro e1 e2
    rw [e1, e2, scaled_trunc_of_nonneg p.statHp p.statHp hm (by omega), fe.1, fe.2]
    exact ⟨by decide, rfl⟩

/-- Claim C11 on a creature at 10 of 10 that has lost nothing: total 48. -/
theorem health_change_total_range_witness :
    (0 < examplePokemon.statHp ∧ 0 ≤ examplePokemon.hp ∧
      examplePokemon.hp ≤ examplePokemon.statHp) ∧
    ∃ msg, informHealthChange 7 examplePokemon 0 = some msg ∧
      0 ≤ msg.total ∧ msg.total ≤ 48 ∧
      (examplePokemon.hp = examplePokemon.statHp → msg.total = 48) ∧
      (examplePokemon.hp = 0 → msg.total = 0) ∧
      ((0 : Int) = examplePokemon.statHp → examplePokemon.hp = 0 →
        msg.delta = 48 ∧ msg.total = 0) :=
  ⟨by decide, health_change_total_range 7 examplePokemon 0 (by decide) (by decide) (by decide)⟩

/-! ## The legal-switch mask -/

/-- The mask loop returns when every switch target is a position of the mask. -/
theorem maskSwitches_defined (turn : PARTY_TURN) (legal : List Bool)
    (h : ∀ t ∈ turn, t.type = TurnType.TT_SWITCH → 0 ≤ t.id ∧ t.id.toNat < legal.length) :
    ∃ switches, maskSwitches legal turn = some switches := by
  induction turn generalizing legal with
  | nil => exact ⟨legal, rfl⟩
  | cons t rest ih =>
    unfold maskSwitches
    by_cases hs : t.type = TurnType.TT_SWITCH
    · have ht := h t (List.mem_cons_self _ _) hs
      simp only [hs, if_true, ht, and_self]
      apply ih
      intro u hu hsu
      have := h u (List.mem_cons_of_mem _ hu) hsu
      simpa using this
    · simp only [hs, if_false]
      exact ih legal (fun u hu => h u (List.mem_cons_of_mem _ hu))

/-- What the mask loop computes: a mask as long as the one it started from,
false at every switch target, and elsewhere as it started. -/
theorem maskSwitches_spec (turn : PARTY_TURN) (legal switches : List Bool)
    (h : maskSwitches legal turn = some switches) :
    switches.length = legal.length ∧
    (∀ t ∈ turn, t.type = TurnType.TT_SWITCH →
      0 ≤ t.id ∧ t.id.toNat < legal.length ∧ switches[t.id.toNat]? = some false) ∧
    (∀ j, (∀ t ∈ turn, ¬ SwitchesTo t j) → switches[j]? = legal[j]?) := by
  induction turn generalizing legal with
  | nil =>
    simp only [maskSwitches, Option.some.injEq] at h
    subst h
    simp
  | cons t rest ih =>
    unfold maskSwitches at h
    by_cases hs : t.type = TurnType.TT_SWITCH
    · simp only [hs, if_true] at h
      split at h
      · rename_i hr
        obtain ⟨a, b, c⟩ := ih _ h
        rw [List.length_set] at a b
        refine ⟨a, ?_, ?_⟩
        · intro u hu hsu
          rcases List.mem_cons.1 hu with e | e
          · subst e
            refine ⟨hr.1, hr.2, ?_⟩
            by_cases hx : ∀ v ∈ rest, ¬ SwitchesTo v u.id.toNat
            · rw [c _ hx]
              simp [hr.2]
            · push_neg at hx
              obtain ⟨v, hv, hv1, hv2⟩ := hx
              have e2 : v.id.toNat = u.id.toNat := by rw [hv2]; exact Int.toNat_ofNat _
              rw [← e2]
              exact (b v hv hv1).2.2
          · exact b u e hsu
        · intro j hj
          rw [c j (fun u hu => hj u (List.mem_cons_of_mem _ hu))]
          have hne : t.id.toNat ≠ j := by
            intro e
            apply hj t (List.mem_cons_self _ _)
            refine ⟨hs, ?_⟩
            rw [← e, Int.toNat_of_nonneg hr.1]
          simp [List.getElem?_set, hne]
      · cases h
    · simp only [hs, if_false] at h
      obtain ⟨a, b, c⟩ := ih _ h
      refine ⟨a, ?_, ?_⟩
      · intro u hu hsu
        rcases List.mem_cons.1 hu with e | e
        · subst e; exact absurd hsu hs
        · exact b u e hsu
      · intro j hj
        exact c j (fun u hu => hj u (List.mem_cons_of_mem _ hu))

/-- A call of `requestAction` that returns leaves the flags, the turn counter,
the clients and the broadcasts as they were. -/
theorem requestAction_flags {f : BattleField} {s s1 : NetworkBattleImpl} {party : Nat}
    (h : requestAction f s party = some s1) :
    s1.replacement = s.replacement ∧ s1.victory = s.victory ∧ s1.turnCount = s.turnCount ∧
      s1.clients = s.clients ∧ s1.broadcasts = s.broadcasts := by
  unfold requestAction at h
  simp only [Option.bind_eq_bind, Option.bind_eq_some, Option.pure_def] at h
  obtain ⟨turn, _, req, _, slot, _, p, _, sw, _, h⟩ := h
  split at h <;> (cases h; simp)

/-- The same for `requestAction` over a list of parties. -/
theorem requestActions_flags {f : BattleField} {l : List Nat} {s s1 : NetworkBattleImpl}
    (h : requestActions f s l = some s1) :
    s1.replacement = s.replacement ∧ s1.victory = s.victory ∧ s1.turnCount = s.turnCount ∧
      s1.clients = s.clients ∧ s1.broadcasts = s.broadcasts := by
  induction l generalizing s with
  | nil => simp [requestActions] at h; subst h; simp
  | cons i rest ih =>
    simp only [requestActions, Option.bind_eq_bind, Option.bind_eq_some] at h
    obtain ⟨s2, h2, h3⟩ := h
    have a := requestAction_flags h2
    have b := ih h3
    simp [a, b]

/-- The same for the final loop of `requestReplacements`. -/
theorem requestNonEmpty_flags {f : BattleField} {l : List Nat} {s s1 : NetworkBattleImpl}
    (h : requestNonEmpty f s l = some s1) :
    s1.replacement = s.replacement ∧ s1.victory = s.victory ∧ s1.turnCount = s.turnCount ∧
      s1.clients = s.clients ∧ s1.broadcasts = s.broadcasts := by
  induction l generalizing s with
  | nil => simp [requestNonEmpty] at h; subst h; simp
  | cons i rest ih =>
    simp only [requestNonEmpty, Option.bind_eq_bind, Option.bind_eq_some] at h
    obtain ⟨r, _, h⟩ := h
    split at h
    · exact ih h
    · simp only [Option.bind_eq_some] at h
      obtain ⟨s2, h2, h3⟩ := h
      have a := requestAction_flags h2
      have b := ih h3
      simp [a, b]

/-- A `requestMoves` that returns clears the replacement flag and leaves the
victory flag, the turn counter and the broadcasts as they were. -/
theorem requestMoves_flags {f : BattleField} {s s1 : NetworkBattleImpl}
    (h : requestMoves f s = some s1) :
    s1.replacement = false ∧ s1.victory = s.victory ∧ s1.turnCount = s.turnCount ∧
      s1.broadcasts = s.broadcasts := by
  unfold requestMoves at h
  simp only [Option.bind_eq_bind, Option.bind_eq_some] at h
  obtain ⟨requests, _, h⟩ := h
  have a := requestActions_flags h
  exact ⟨a.1, a.2.1, a.2.2.1, a.2.2.2.2⟩

/-- A `requestReplacements` that returns leaves the victory flag, the turn
counter and the broadcasts as they were, and when it returns true the
replacement flag is set. -/
theorem requestReplacements_flags {f : BattleField} {s s1 : NetworkBattleImpl} {b : Bool}
    (h : requestReplacements f s = some (b, s1)) :
    s1.victory = s.victory ∧ s1.turnCount = s.turnCount ∧ s1.broadcasts = s.broadcasts ∧
      (b = true → s1.replacement = true) := by
  unfold requestReplacements at h
  split at h
  · cases h; simp
  · simp only [Option.bind_eq_bind, Option.bind_eq_some, Option.pure_def] at h
    obtain ⟨out, hout, h⟩ := h
    obtain ⟨alive, requests, replacement⟩ := out
    simp only at h
    split at h
    · cases h; simp
    · rename_i hrep
      simp only [Option.bind_eq_some] at h
      obtain ⟨s2, h2, h3⟩ := h
      cases h3
      have a := requestNonEmpty_flags h2
      simp only [Bool.not_eq_true, Bool.not_eq_false'] at hrep
      refine ⟨a.2.1, a.2.2.1, a.2.2.2.2, fun _ => ?_⟩
      rw [a.1]
      simpa using hrep

/-- What `beginTurn` does when it returns. -/
theorem beginTurn_flags {f : BattleField} {s s1 : NetworkBattleImpl}
    (h : beginTurn f s = some s1) :
    s1.replacement = false ∧ s1.victory = s.victory ∧ s1.turnCount = s.turnCount + 1 ∧
      s1.broadcasts = s.broadcasts ++
        [OutMessage.BATTLE_BEGIN_TURN f.getId (toInt16 (s.turnCount + 1))] := by
  unfold beginTurn at h
  have a := requestMoves_flags h
  simpa [informBeginTurn, broadcast] using a

theorem mem_slotsOf {party : Nat} {l : List (Nat × Int)} {slot : Int} :
    slot ∈ slotsOf party l ↔ (party, slot) ∈ l := by
  unfold slotsOf
  simp only [List.mem_map, List.mem_filter, decide_eq_true_eq]
  constructor
  · rintro ⟨x, ⟨hx, e1⟩, e2⟩
    obtain ⟨a, b⟩ := x
    simp only at e1 e2
    subst e1; subst e2
    exact hx
  · intro h
    exact ⟨(party, slot), ⟨h, rfl⟩, rfl⟩

/-- The loop of `requestMoves` in closed form, for parties of the battle. -/
theorem pushRequests_eq (l : List (Nat × Int)) (r0 r1 : PARTY_REQUEST)
    (h : ∀ x ∈ l, x.1 < TEAM_COUNT) :
    pushRequests [r0, r1] l = some [r0 ++ slotsOf 0 l, r1 ++ slotsOf 1 l] := by
  induction l generalizing r0 r1 with
  | nil => simp [pushRequests, slotsOf]
  | cons x rest ih =>
    obtain ⟨party, slot⟩ := x
    have hp := h (party, slot) (List.mem_cons_self _ _)
    have hr := fun y hy => h y (List.mem_cons_of_mem _ hy)
    simp only [TEAM_COUNT] at hp
    rcases party with _ | _ | n
    · simp [pushRequests, ih _ _ hr, slotsOf]
    · simp [pushRequests, ih _ _ hr, slotsOf]
    · omega

/-- The first request of a party that has submitted nothing is defined when the
requested slot holds a creature. -/
theorem requestAction_first {f : BattleField} {s : NetworkBattleImpl} {party : Nat}
    {slot : Int} {rest : PARTY_REQUEST} {p : ActivePokemon}
    (ht : s.turns[party]? = some []) (hr : s.requests[party]? = some (slot :: rest))
    (hp : f.getActivePokemon party slot = some p) :
    ∃ s1, requestAction f s party = some s1 := by
  unfold requestAction
  simp only [ht, hr, Option.bind_eq_bind, Option.some_bind, List.length_nil,
    List.getElem?_cons_zero, hp, maskSwitches, Option.pure_def]
  split <;> exact ⟨_, rfl⟩

/-- With empty turn lists, empty request lists and a ready field,
`requestMoves` returns. -/
theorem requestMoves_defined (f : BattleField) (s : NetworkBattleImpl)
    (ht : s.turns = [[], []]) (hr : s.requests = [[], []]) (hf : FieldReady f) :
    ∃ s1, requestMoves f s = some s1 := by
  obtain ⟨ha, _, hb⟩ := hf
  unfold requestMoves
  rw [hr, pushRequests_eq _ _ _ (fun x hx => (ha x hx).1)]
  simp only [List.nil_append, Option.bind_eq_bind, Option.some_bind]
  obtain ⟨slot0, h0⟩ := hb 0 (by decide)
  obtain ⟨slot1, h1⟩ := hb 1 (by decide)
  have e : List.range TEAM_COUNT = [0, 1] := rfl
  rw [e]
  have n0 : slotsOf 0 f.activePokemon ≠ [] := by
    intro hn
    have := mem_slotsOf.2 h0
    rw [hn] at this
    cases this
  have n1 : slotsOf 1 f.activePokemon ≠ [] := by
    intro hn
    have := mem_slotsOf.2 h1
    rw [hn] at this
    cases this
  obtain ⟨a, ra, ea⟩ := List.exists_cons_of_ne_nil n0
  obtain ⟨b, rb, eb⟩ := List.exists_cons_of_ne_nil n1
  obtain ⟨pa, hpa⟩ := (ha (0, a) (mem_slotsOf.1 (by rw [ea]; exact List.mem_cons_self _ _))).2
  obtain ⟨pb, hpb⟩ := (ha (1, b) (mem_slotsOf.1 (by rw [eb]; exact List.mem_cons_self _ _))).2
  simp only at hpa hpb
  rw [ea, eb]
  have ht0 : ({ s with replacement := false, requests := [a :: ra, b :: rb] } :
      NetworkBattleImpl).turns[0]? = some [] := by simp [ht]
  have hr0 : ({ s with replacement := false, requests := [a :: ra, b :: rb] } :
      NetworkBattleImpl).requests[0]? = some (a :: ra) := by simp
  obtain ⟨s1, e1⟩ := requestAction_first ht0 hr0 hpa
  have fr := requestAction_frame e1
  have ht1 : s1.turns[1]? = some [] := by rw [fr.1]; simp [ht]
  have hr1 : s1.requests[1]? = some (b :: rb) := by rw [fr.2.1]; simp
  obtain ⟨s2, e2⟩ := requestAction_first ht1 hr1 hpb
  exact ⟨s2, by simp [requestActions, e1, e2]⟩

/-- Once set, the flag of the loop of `requestReplacements` stays set. -/
theorem replacementLoop_flag {l : List (Nat × Int)} {alive : List Int}
    {requests : List PARTY_REQUEST} {out : List Int × List PARTY_REQUEST × Bool}
    (h : replacementLoop alive requests true l = some out) : out.2.2 = true := by
  induction l generalizing alive requests with
  | nil => simp [replacementLoop] at h; subst h; rfl
  | cons y rest ih =>
    obtain ⟨party, slot⟩ := y
    simp only [replacementLoop, Option.bind_eq_bind, Option.bind_eq_some] at h
    obtain ⟨a, _, h⟩ := h
    split at h
    · simp only [Option.bind_eq_some] at h
      obtain ⟨r, _, h⟩ := h
      exact ih h
    · exact ih h

/-- The loop of `requestReplacements` returns for parties of the battle; the
slots it adds are slots of fainted creatures, and when it ends with the flag
unset it has added none. -/
theorem replacementLoop_defined (l : List (Nat × Int)) (alive : List Int)
    (r0 r1 : PARTY_REQUEST) (b0 : Bool) (hal : alive.length = TEAM_COUNT)
    (h : ∀ x ∈ l, x.1 < TEAM_COUNT) :
    ∃ alive1 q0 q1 b, replacementLoop alive [r0, r1] b0 l = some (alive1, [q0, q1], b) ∧
      (∀ slot ∈ q0, slot ∈ r0 ∨ (0, slot) ∈ l) ∧ (∀ slot ∈ q1, slot ∈ r1 ∨ (1, slot) ∈ l) ∧
      (b = false → q0 = r0 ∧ q1 = r1) := by
  induction l generalizing alive r0 r1 b0 with
  | nil =>
    exact ⟨alive, r0, r1, b0, rfl, fun _ hs => Or.inl hs, fun _ hs => Or.inl hs,
      fun _ => ⟨rfl, rfl⟩⟩
  | cons x rest ih =>
    obtain ⟨party, slot⟩ := x
    have hp := h (party, slot) (List.mem_cons_self _ _)
    have hr := fun y hy => h y (List.mem_cons_of_mem _ hy)
    simp only [TEAM_COUNT] at hp hal
    obtain ⟨a, ha⟩ : ∃ a, alive[party]? = some a :=
      ⟨alive[party], List.getElem?_eq_getElem (by omega)⟩
    unfold replacementLoop
    simp only [ha, Option.bind_eq_bind, Option.some_bind]
    by_cases hgt : a > 1
    · simp only [hgt, if_true]
      rcases party with _ | _ | n
      · obtain ⟨alive1, q0, q1, b, e, c0, c1, _⟩ :=
          ih (alive.set 0 (a - 1)) (r0 ++ [slot]) r1 true (by simp [hal, TEAM_COUNT]) hr
        refine ⟨alive1, q0, q1, b, by simpa using e, ?_, ?_, ?_⟩
        · intro sl hsl
          rcases c0 sl hsl with c | c
          · rcases List.mem_append.1 c with d | d
            · exact Or.inl d
            · rw [List.mem_singleton] at d
              subst d
              exact Or.inr (List.mem_cons_self _ _)
          · exact Or.inr (List.mem_cons_of_mem _ c)
        · intro sl hsl
          rcases c1 sl hsl with c | c
          · exact Or.inl c
          · exact Or.inr (List.mem_cons_of_mem _ c)
        · intro hb
          exfalso
          have := replacementLoop_flag e
          simp only at this
          rw [hb] at this
          cases this
      · obtain ⟨alive1, q0, q1, b, e, c0, c1, _⟩ :=
          ih (alive.set 1 (a - 1)) r0 (r1 ++ [slot]) true (by simp [hal, TEAM_COUNT]) hr
        refine ⟨alive1, q0, q1, b, by simpa using e, ?_, ?_, ?_⟩
        · intro sl hsl
          rcases c0 sl hsl with c | c
          · exact Or.inl c
          · exact Or.inr (List.mem_cons_of_mem _ c)
        · intro sl hsl
          rcases c1 sl hsl with c | c
          · rcases List.mem_append.1 c with d | d
            · exact Or.inl d
            · rw [List.mem_singleton] at d
              subst d
              exact Or.inr (List.mem_cons_self _ _)
          · exact Or.inr (List.mem_cons_of_mem _ c)
        · intro hb
          exfalso
          have := replacementLoop_flag e
          simp only at this
          rw [hb] at this
          cases this
      · omega
    · simp only [hgt, if_false]
      obtain ⟨alive1, q0, q1, b, e, c0, c1, c2⟩ := ih alive r0 r1 b0 hal hr
      refine ⟨alive1, q0, q1, b, e, ?_, ?_, c2⟩
      · intro sl hsl
        rcases c0 sl hsl with c | c
        · exact Or.inl c
        · exact Or.inr (List.mem_cons_of_mem _ c)
      · intro sl hsl
        rcases c1 sl hsl with c | c
        · exact Or.inl c
        · exact Or.inr (List.mem_cons_of_mem _ c)

/-- The final loop of `requestReplacements` returns when the parties it visits
have submitted nothing and their requested slots hold creatures. -/
theorem requestNonEmpty_defined (f : BattleField) (l : List Nat) (s : NetworkBattleImpl)
    (h : ∀ i ∈ l, ∃ q, s.turns[i]? = some [] ∧ s.requests[i]? = some q ∧
      ∀ slot ∈ q, ∃ p, f.getActivePokemon i slot = some p) :
    ∃ s1, requestNonEmpty f s l = some s1 := by
  induction l generalizing s with
  | nil => exact ⟨s, rfl⟩
  | cons i rest ih =>
    obtain ⟨q, ht, hr, hq⟩ := h i (List.mem_cons_self _ _)
    unfold requestNonEmpty
    simp only [hr, Option.bind_eq_bind, Option.some_bind]
    cases q with
    | nil =>
      simp only [List.isEmpty_nil, if_true]
      exact ih s (fun j hj => h j (List.mem_cons_of_mem _ hj))
    | cons slot more =>
      obtain ⟨p, hp⟩ := hq slot (List.mem_cons_self _ _)
      obtain ⟨s1, e1⟩ := requestAction_first ht hr hp
      have fr := requestAction_frame e1
      simp only [List.isEmpty_cons, Bool.false_eq_true, if_false, e1, Option.some_bind]
      apply ih s1
      intro j hj
      rw [fr.1, fr.2.1]
      exact h j (List.mem_cons_of_mem _ hj)

/-- With empty turn lists, empty request lists and a ready field,
`requestReplacements` returns; when it returns false the lists are still
empty. -/
theorem requestReplacements_defined (f : BattleField) (s : NetworkBattleImpl)
    (ht : s.turns = [[], []]) (hr : s.requests = [[], []]) (hf : FieldReady f) :
    ∃ b s1, requestReplacements f s = some (b, s1) ∧
      (b = false → s1.turns = [[], []] ∧ s1.requests = [[], []]) := by
  obtain ⟨_, hfa, _⟩ := hf
  unfold requestReplacements
  by_cases he : f.faintedPokemon.isEmpty = true
  · simp only [he, if_true]
    exact ⟨false, s, rfl, fun _ => ⟨ht, hr⟩⟩
  · simp only [he, Bool.false_eq_true, if_false]
    obtain ⟨alive1, q0, q1, b, e, c0, c1, c2⟩ :=
      replacementLoop_defined f.faintedPokemon ((List.range TEAM_COUNT).map f.getAliveCount)
        [] [] false (by simp) (fun x hx => (hfa x hx).1)
    rw [hr, e]
    simp only [Option.bind_eq_bind, Option.some_bind, Option.pure_def]
    cases b with
    | false =>
      obtain ⟨e0, e1⟩ := c2 rfl
      subst e0; subst e1
      exact ⟨false, _, rfl, fun _ => ⟨ht, rfl⟩⟩
    | true =>
      simp only [Bool.not_true, Bool.false_eq_true, if_false]
      have e2 : List.range TEAM_COUNT = [0, 1] := rfl
      obtain ⟨s2, h2⟩ := requestNonEmpty_defined f (List.range TEAM_COUNT)
        { s with replacement := true, requests := [q0, q1] } (by
          intro i hi
          rw [e2] at hi
          simp only [List.mem_cons, List.mem_singleton, List.not_mem_nil, or_false] at hi
          rcases hi with hi | hi
          · subst hi
            refine ⟨q0, by simp [ht], by simp, ?_⟩
            intro slot hs
            rcases c0 slot hs with c | c
            · cases c
            · exact (hfa _ c).2
          · subst hi
            refine ⟨q1, by simp [ht], by simp, ?_⟩
            intro slot hs
            rcases c1 slot hs with c | c
            · cases c
            · exact (hfa _ c).2)
      exact ⟨true, s2, by simp [h2], fun hb => by cases hb⟩

/-- Claim C18. Let `s1` be the controller state when the resolution of the
round returns. If the victory flag is set, `executeTurn` returns `s1`: no
`REQUEST_ACTION` and no `BATTLE_BEGIN_TURN` is emitted and the turn counter is
unchanged. Otherwise whatever `executeTurn` returns is of exactly one of two
kinds: `requestReplacements` returned true, the replacement flag is set, and the
turn counter and the broadcasts are unchanged; or `requestReplacements` returned
false, the replacement flag is clear, the turn counter is one more and the one
new broadcast is a `BATTLE_BEGIN_TURN` with the new counter. And `executeTurn`
does return when the turn lists and request lists are empty after the
resolution and the field is ready. -/
theorem executeTurn_outcome (f : BattleField)
    (processTurn processReplacements : PARTY_TURN → NetworkBattleImpl → NetworkBattleImpl)
    (s s1 : NetworkBattleImpl) (ptr : PARTY_TURN)
    (hs1 : s1 = if s.replacement then processReplacements ptr s else processTurn ptr s) :
    (s1.victory = true →
      executeTurn f processTurn processReplacements s ptr = some s1) ∧
    (s1.victory = false →
      (∀ s3, executeTurn f processTurn processReplacements s ptr = some s3 →
        ((∃ s2, requestReplacements f s1 = some (true, s2)) ∧ s3.replacement = true ∧
            s3.turnCount = s1.turnCount ∧ s3.broadcasts = s1.broadcasts) ∨
        ((∃ s2, requestReplacements f s1 = some (false, s2)) ∧ s3.replacement = false ∧
            s3.turnCount = s1.turnCount + 1 ∧
            s3.broadcasts = s1.broadcasts ++
              [OutMessage.BATTLE_BEGIN_TURN f.getId (toInt16 (s1.turnCount + 1))])) ∧
      (s1.turns = [[], []] → s1.requests = [[], []] → FieldReady f →
        ∃ s3, executeTurn f processTurn processReplacements s ptr = some s3)) := by
  unfold executeTurn
  simp only [← hs1]
  refine ⟨fun hv => by simp [hv], fun hv => ⟨?_, ?_⟩⟩
  · intro s3 h
    simp only [hv, Bool.false_eq_true, if_false, Option.bind_eq_bind, Option.bind_eq_some,
      Option.pure_def] at h
    obtain ⟨out, hout, h⟩ := h
    obtain ⟨b, s2⟩ := out
    have fl := requestReplacements_flags hout
    cases b with
    | true =>
      simp only [if_true, Option.some.injEq] at h
      subst h
      exact Or.inl ⟨⟨_, hout⟩, fl.2.2.2 rfl, fl.2.1, fl.2.2.1⟩
    | false =>
      simp only [Bool.false_eq_true, if_false] at h
      have bt := beginTurn_flags h
      refine Or.inr ⟨⟨_, hout⟩, bt.1, ?_, ?_⟩
      · rw [bt.2.2.1, fl.2.1]
      · rw [bt.2.2.2, fl.2.1, fl.2.2.1]
  · intro ht hr hf
    simp only [hv, Bool.false_eq_true, if_false, Option.bind_eq_bind]
    obtain ⟨b, s2, e, hb⟩ := requestReplacements_defined f s1 ht hr hf
    rw [e]
    cases b with
    | true => exact ⟨s2, rfl⟩
    | false =>
      obtain ⟨e1, e2⟩ := hb rfl
      obtain ⟨s3, e3⟩ := requestMoves_defined f
        (informBeginTurn f { s2 with turnCount := s2.turnCount + 1 })
        (by simpa [informBeginTurn, broadcast] using e1)
        (by simpa [informBeginTurn, broadcast] using e2) hf
      exact ⟨s3, by simpa [beginTurn] using e3⟩

/-- The example field is ready. -/
theorem exampleField_ready : FieldReady exampleField := by
  refine ⟨?_, ?_, ?_⟩
  · intro x hx
    simp only [exampleField, List.mem_cons, List.mem_singleton, List.not_mem_nil, or_false] at hx
    rcases hx with e | e <;> (subst e; exact ⟨by decide, _, rfl⟩)
  · intro x hx
    simp [exampleField] at hx
  · intro party hp
    simp only [TEAM_COUNT] at hp
    rcases party with _ | _ | n
    · exact ⟨0, by simp [exampleField]⟩
    · exact ⟨0, by simp [exampleField]⟩
    · omega

/-- Claim C18 in the example battle: the round has been posted, the resolution
leaves the controller state as it is, nobody has fainted; `executeTurn` starts
turn 1. -/
theorem executeTurn_outcome_witness :
    (examplePosted = if examplePosted.replacement then resolveNothing [] examplePosted
      else resolveNothing [] examplePosted) ∧
    executeTurn exampleField resolveNothing resolveNothing examplePosted [] =
      some { exampleRequested with
        posted := examplePosted.posted
        turnCount := 1
        broadcasts := [OutMessage.BATTLE_BEGIN_TURN 7 1]
        sent := exampleRequested.sent ++ exampleRequested.sent } ∧
    ((examplePosted.victory = true →
      executeTurn exampleField resolveNothing resolveNothing examplePosted [] =
        some examplePosted) ∧
    (examplePosted.victory = false →
      (∀ s3, executeTurn exampleField resolveNothing resolveNothing examplePosted [] =
          some s3 →
        ((∃ s2, requestReplacements exampleField examplePosted = some (true, s2)) ∧
            s3.replacement = true ∧ s3.turnCount = examplePosted.turnCount ∧
            s3.broadcasts = examplePosted.broadcasts) ∨
        ((∃ s2, requestReplacements exampleField examplePosted = some (false, s2)) ∧
            s3.replacement = false ∧ s3.turnCount = examplePosted.turnCount + 1 ∧
            s3.broadcasts = examplePosted.broadcasts ++
              [OutMessage.BATTLE_BEGIN_TURN exampleField.getId
                (toInt16 (examplePosted.turnCount + 1))])) ∧
      (examplePosted.turns = [[], []] → examplePosted.requests = [[], []] →
        FieldReady exampleField →
        ∃ s3, executeTurn exampleField resolveNothing resolveNothing examplePosted [] =
          some s3))) :=
  ⟨by decide, by decide,
    executeTurn_outcome exampleField resolveNothing resolveNothing examplePosted
      examplePosted [] (by decide)⟩

/-- The party of a client in a battle with the clients `c0` and `c1`. -/
theorem getParty_two (s : NetworkBattleImpl) (c0 c1 client : Nat) (hc : s.clients = [c0, c1]) :
    getParty s client = if c0 = client then 0 else if c1 = client then 1 else -1 := by
  unfold getParty
  simp only [hc, List.length_cons, List.length_nil]
  simp [getPartyLoop]

/-- Claim C17. In a live battle with two clients: when `getParty` gives a
client the party `p`, not -1, then `p` is 0 or 1 and `handlePart` for that
client sets the victory flag and broadcasts one `BATTLE_VICTORY` whose party
field is `1 - p`; when `getParty` gives -1, `handlePart` changes nothing, so it
broadcasts nothing and the victory flag is as it was. -/
theorem handlePart_victory (fieldId : Int) (b : NetworkBattle) (client c0 c1 : Nat)
    (hlive : b.channelField = true) (hc : b.impl.clients = [c0, c1]) :
    (∀ p, getParty b.impl client = p → p ≠ -1 →
      (p = 0 ∨ p = 1) ∧
      ∃ b1, handlePart fieldId b client = some b1 ∧ b1.impl.victory = true ∧
        b1.impl.broadcasts = b.impl.broadcasts ++ [OutMessage.BATTLE_VICTORY fieldId (1 - p)]) ∧
    (getParty b.impl client = -1 → handlePart fieldId b client = some b) := by
  constructor
  · intro p hp hne
    have hp2 : p = 0 ∨ p = 1 := by
      rw [getParty_two b.impl c0 c1 client hc] at hp
      split at hp
      · exact Or.inl hp.symm
      · split at hp
        · exact Or.inr hp.symm
        · exact absurd hp.symm hne
    refine ⟨hp2, ?_⟩
    unfold handlePart
    rw [hp]
    simp only [hlive, hne, ne_eq, not_false_eq_true, and_self, if_true]
    unfold NetworkBattle.informVictory NetworkBattle.terminate
    simp only [broadcast, hc, List.getElem?_cons_zero, List.getElem?_cons_succ,
      Option.bind_eq_bind, Option.some_bind, Option.pure_def]
    refine ⟨_, rfl, rfl, ?_⟩
    rcases hp2 with e | e <;> (subst e; rfl)
  · intro hp
    unfold handlePart
    simp [hp]

/-- Claim C17 in the example battle: client 11 is party 1, and when it parts,
victory of party 0 is broadcast. -/
theorem handlePart_victory_witness :
    exampleBattle.channelField = true ∧ exampleBattle.impl.clients = [10, 11] ∧
    getParty exampleBattle.impl 11 = 1 ∧
    handlePart 7 exampleBattle 11 =
      some { impl := { exampleRequested with
                       victory := true
                       broadcasts := [OutMessage.BATTLE_VICTORY 7 0] }
             channelField := false } ∧
    ((∀ p, getParty exampleBattle.impl 11 = p → p ≠ -1 →
      (p = 0 ∨ p = 1) ∧
      ∃ b1, handlePart 7 exampleBattle 11 = some b1 ∧ b1.impl.victory = true ∧
        b1.impl.broadcasts =
          exampleBattle.impl.broadcasts ++ [OutMessage.BATTLE_VICTORY 7 (1 - p)]) ∧
    (getParty exampleBattle.impl 11 = -1 → handlePart 7 exampleBattle 11 = some exampleBattle)) :=
  ⟨rfl, rfl, by decide, by decide, handlePart_victory 7 exampleBattle 11 10 11 rfl rfl⟩

/-- Claim C16. When `requestAction` has its inputs (the creature in the
requested slot exists, the party has a client, and the targets of the switch
orders in the turn list of the party are positions of the mask returned by
`getLegalSwitches`), the `REQUEST_ACTION` it sends has a legal-switch mask with
one entry per entry returned by `getLegalSwitches`; the entry at the target of
every switch order in the turn list is false, and every entry that is not such a
target is the one returned by `getLegalSwitches`. -/
theorem requestAction_mask (f : BattleField) (s : NetworkBattleImpl) (party : Nat)
    (turn : PARTY_TURN) (req : PARTY_REQUEST) (slot : Int) (p : ActivePokemon) (client : Nat)
    (ht : s.turns[party]? = some turn) (hr : s.requests[party]? = some req)
    (hs : req[turn.length]? = some slot) (hp : f.getActivePokemon party slot = some p)
    (hc : getClient s party = some client)
    (hrange : ∀ t ∈ turn, t.type = TurnType.TT_SWITCH →
      0 ≤ t.id ∧ t.id.toNat < (f.getLegalSwitches p).length) :
    ∃ msg, requestAction f s party =
        some { s with sent := s.sent ++ [(client, OutMessage.REQUEST_ACTION msg)] } ∧
      msg.switches.length = (f.getLegalSwitches p).length ∧
      (∀ t ∈ turn, t.type = TurnType.TT_SWITCH → msg.switches[t.id.toNat]? = some false) ∧
      (∀ j, (∀ t ∈ turn, ¬ SwitchesTo t j) →
        msg.switches[j]? = (f.getLegalSwitches p)[j]?) := by
  obtain ⟨switches, hm⟩ := maskSwitches_defined turn (f.getLegalSwitches p) hrange
  obtain ⟨a, b, c⟩ := maskSwitches_spec turn (f.getLegalSwitches p) switches hm
  exact ⟨requestActionMessage f s.replacement p switches, requestAction_eq ht hr hs hp hm hc,
    a, fun t ht2 hsw => (b t ht2 hsw).2.2, c⟩

/-! ## Legal actions -/

/-- The loop of `determineLegalActions` returns when there is a PP entry for
every move. -/
theorem legalMoves_defined (cx : BattleContext) (moves : List (Option MoveObject))
    (pp : List Int) (h : moves.length ≤ pp.length) : ∃ out, legalMoves cx moves pp = some out := by
  induction moves generalizing pp with
  | nil => exact ⟨_, rfl⟩
  | cons m rest ih =>
    cases pp with
    | nil => simp at h
    | cons q qs =>
      have hl : rest.length ≤ qs.length := by simpa using h
      obtain ⟨⟨bits, struggle⟩, e⟩ := ih qs hl
      cases m with
      | none => exact ⟨(false :: bits, struggle), by simp [legalMoves, e]⟩
      | some mv =>
        by_cases hq : q > 0
        · exact ⟨((!cx.vetoSelection mv) :: bits,
            if (!cx.vetoSelection mv) = true then false else struggle),
            by simp [legalMoves, e, hq]⟩
        · exact ⟨(false :: bits, struggle), by simp [legalMoves, e, hq]⟩

/-- What the loop of `determineLegalActions` computes. -/
theorem legalMoves_spec (cx : BattleContext) (moves : List (Option MoveObject))
    (pp : List Int) (bits : List Bool) (struggle : Bool)
    (h : legalMoves cx moves pp = some (bits, struggle)) :
    bits.length = moves.length ∧
    (∀ i : Nat, bits[i]? = some true ↔
      ∃ (mv : MoveObject) (q : Int), moves[i]? = some (some mv) ∧ pp[i]? = some q ∧ 0 < q ∧
        cx.vetoSelection mv = false) ∧
    (struggle = true ↔ ∀ b ∈ bits, b = false) := by
  induction moves generalizing pp bits struggle with
  | nil =>
    simp only [legalMoves, Option.some.injEq, Prod.mk.injEq] at h
    obtain ⟨e1, e2⟩ := h
    subst e1; subst e2
    simp
  | cons m rest ih =>
    cases m with
    | none =>
      simp only [legalMoves, Option.bind_eq_bind, Option.bind_eq_some, Option.pure_def,
        Option.some.injEq, Prod.mk.injEq] at h
      obtain ⟨⟨bits1, st1⟩, e, e1, e2⟩ := h
      obtain ⟨a, b, c⟩ := ih _ _ _ e
      subst e1; subst e2
      refine ⟨by simp [a], ?_, ?_⟩
      · intro i
        cases i with
        | zero => simp
        | succ n =>
          have ht : pp.tail[n]? = pp[n + 1]? := by cases pp <;> simp
          simpa [ht] using b n
      · simpa using c
    | some mv =>
      cases pp with
      | nil => simp [legalMoves] at h
      | cons q qs =>
        simp only [legalMoves, Option.bind_eq_bind, Option.bind_eq_some, Option.pure_def] at h
        obtain ⟨⟨bits1, st1⟩, e, h⟩ := h
        obtain ⟨a, b, c⟩ := ih _ _ _ e
        by_cases hq : q > 0
        · simp only [hq, if_true, Option.some.injEq, Prod.mk.injEq] at h
          obtain ⟨e1, e2⟩ := h
          subst e1; subst e2
          refine ⟨by simp [a], ?_, ?_⟩
          · intro i
            cases i with
            | zero =>
              have hq2 : 0 < q := hq
              simp [hq2]
            | succ n => simpa using b n
          · cases hv : cx.vetoSelection mv <;> simp [c]
        · simp only [hq, if_false, Option.some.injEq, Prod.mk.injEq] at h
          obtain ⟨e1, e2⟩ := h
          subst e1; subst e2
          refine ⟨by simp [a], ?_, ?_⟩
          · intro i
            cases i with
            | zero =>
              have hq2 : ¬ 0 < q := hq
              simp [hq2]
            | succ n => simpa using b n
          · simpa using c

/-- Claim C12. With a PP entry for every move, `determineLegalActions` returns;
afterwards there is one legality bit per move, the bit of index `i` is true if
and only if move `i` exists, its PP is above 0 and `vetoSelection` does not veto
it; and when every bit is false the creature is given the forced turn
`(TT_MOVE, -1, -1)` with a Struggle move object, while when some bit is true the
forced turn and forced move are left as they were. -/
theorem determineLegalActions_spec (cx : BattleContext) (p : Pokemon)
    (hpp : p.moves.length ≤ p.pp.length) :
    ∃ p1, p.determineLegalActions cx = some p1 ∧
      p1.legalMove.length = p.moves.length ∧
      (∀ i : Nat, p1.legalMove[i]? = some true ↔
        ∃ (mv : MoveObject) (q : Int), p.moves[i]? = some (some mv) ∧ p.pp[i]? = some q ∧ 0 < q ∧
          cx.vetoSelection mv = false) ∧
      ((∀ b ∈ p1.legalMove, b = false) →
        p1.forcedTurn = some { type := TurnType.TT_MOVE, id := -1, target := -1 } ∧
          p1.forcedMove = some (newMoveObject cx.struggle)) ∧
      (¬ (∀ b ∈ p1.legalMove, b = false) →
        p1.forcedTurn = p.forcedTurn ∧ p1.forcedMove = p.forcedMove) := by
  obtain ⟨⟨bits, struggle⟩, e⟩ := legalMoves_defined cx p.moves p.pp hpp
  obtain ⟨a, b, c⟩ := legalMoves_spec cx p.moves p.pp bits struggle e
  unfold Pokemon.determineLegalActions
  simp only [e, Option.bind_eq_bind, Option.some_bind, Option.pure_def]
  cases struggle with
  | true =>
    simp only [if_true]
    refine ⟨_, rfl, a, b, fun _ => ⟨rfl, rfl⟩, fun hn => ?_⟩
    exact absurd (c.1 rfl) hn
  | false =>
    simp only [Bool.false_eq_true, if_false]
    refine ⟨_, rfl, a, b, fun hall => ?_, fun _ => ⟨rfl, rfl⟩⟩
    exact absurd (c.2 hall) (by simp)

/-! ## Installing effects -/

/-- The lookup by lock finds something exactly when some effect that is not
removable has the lock. -/
theorem getStatusByLock_isSome (lock : Int) (effects : List StatusObject) :
    (getStatusByLock lock effects).isSome = true ↔
      ∃ e ∈ effects, e.removable = false ∧ e.lock = lock := by
  induction effects with
  | nil => simp [getStatusByLock]
  | cons e rest ih =>
    unfold getStatusByLock
    cases hr : e.removable with
    | true => simp [ih, hr]
    | false =>
      by_cases hl : e.lock = lock
      · simp [hr, hl]
      · simp [ih, hr, hl]

/-- Claim C13 fails when the effect that holds the lock is marked removable: a
creature whose one effect has lock 1 and is removable accepts another effect
with lock 1, and its effect list grows to two. -/
theorem applyStatus_lock_counterexample :
    (∃ e ∈ exampleDisposed.effects, e.lock = 1) ∧ exampleLocked.lock = 1 ∧
      ((exampleDisposed.applyStatus exampleContext none (some exampleLocked)).2.isSome = true ∧
        exampleDisposed.effects.length = 1 ∧
        (exampleDisposed.applyStatus exampleContext none
          (some exampleLocked)).1.effects.length = 2) :=
  ⟨⟨_, List.mem_cons_self _ _, rfl⟩, rfl, by decide⟩

/-- Claim C13, amended. For every creature whose effect list contains an effect
with nonzero lock `L` that is not marked removable, `applyStatus` of any effect
whose lock is `L` returns the null pointer and leaves the creature, and so its
effect list, unchanged. -/
theorem applyStatus_locked (cx : BattleContext) (p : Pokemon) (inducer : Option Nat)
    (effect existing : StatusObject) (hmem : existing ∈ p.effects)
    (hrem : existing.removable = false) (hlock : existing.lock = effect.lock)
    (hne : effect.lock ≠ 0) :
    p.applyStatus cx inducer (some effect) = (p, none) := by
  have h := (getStatusByLock_isSome effect.lock p.effects).2 ⟨existing, hmem, hrem, hlock⟩
  unfold Pokemon.applyStatus
  simp [hne, h]

/-- Claim C13, amended, in the example: the effect with lock 1 is in the list
and not removable, and a second effect with lock 1 is refused. -/
theorem applyStatus_locked_witness :
    (exampleHolder.effects.length = 1 ∧
      (∃ e ∈ exampleHolder.effects, e.removable = false ∧ e.lock = exampleLocked.lock) ∧
      exampleLocked.lock ≠ 0) ∧
    (exampleHolder.applyStatus exampleContext none (some exampleLocked)).2.isSome = false ∧
    (exampleHolder.applyStatus exampleContext none (some exampleLocked)).1.effects.length = 1 :=
  ⟨⟨rfl, ⟨_, List.mem_cons_self _ _, rfl, rfl⟩, by decide⟩,
    by
      rw [applyStatus_locked exampleContext exampleHolder none exampleLocked
        { exampleLocked with handle := 0 } (List.mem_cons_self _ _) rfl rfl (by decide)]
      exact ⟨rfl, rfl⟩⟩

/-! ## Deducting PP -/

theorem applyStatus_body (cx : BattleContext) (p : Pokemon) (inducer : Option Nat)
    (effect : Option StatusObject) : SameBody p (p.applyStatus cx inducer effect).1 := by
  unfold Pokemon.applyStatus SameBody
  cases effect with
  | none => simp
  | some e =>
    simp only
    split
    · simp
    · split
      · simp
      · split
        · simp
        · split <;> simp

theorem setAbilityByName_body (cx : BattleContext) (p : Pokemon) (name : String) :
    SameBody p (p.setAbilityByName cx name) := by
  unfold Pokemon.setAbilityByName
  cases cx.getAbility name with
  | none => exact ⟨rfl, rfl, rfl, rfl, rfl⟩
  | some a =>
    simp only [Pokemon.setAbility]
    cases p.ability with
    | none => exact applyStatus_body cx p none (some a)
    | some h => exact applyStatus_body cx (p.removeStatus h) none (some a)

theorem setItemByName_body (cx : BattleContext) (p : Pokemon) (name : String) :
    SameBody p (p.setItemByName cx name) := by
  unfold Pokemon.setItemByName
  cases cx.getItem name with
  | none => exact ⟨rfl, rfl, rfl, rfl, rfl⟩
  | some a =>
    simp only [Pokemon.setItem]
    cases p.item with
    | none => exact applyStatus_body cx p none (some a)
    | some h => exact applyStatus_body cx (p.removeStatus h) none (some a)

/-- The stat-stage writes of `initialise` clear an array of `TOTAL_STAT_COUNT`
stages. -/
theorem zeroStatLevels_eq (levels : List Int) (h : levels.length = TOTAL_STAT_COUNT) :
    zeroStatLevels levels = List.replicate TOTAL_STAT_COUNT 0 := by
  match levels, h with
  | [_, _, _, _, _, _, _, _], _ => rfl

/-- What the move loop of `initialise` computes, started at index `j`. -/
theorem materialiseMoves_spec (ppUps : List Int) (protos : List MoveTemplate) (j : Nat)
    (moves : List (Option MoveObject)) (pp : List Int)
    (hup : j + protos.length ≤ ppUps.length) (hpp : j + protos.length ≤ pp.length) :
    ∃ pp1, materialiseMoves ppUps protos j moves pp =
        some (moves ++ protos.map (fun t => some (newMoveObject t)), pp1) ∧
      pp1.length = pp.length ∧
      (∀ i, i < j → pp1[i]? = pp[i]?) ∧
      (∀ (k : Nat) (t : MoveTemplate) (up : Int), protos[k]? = some t → ppUps[j + k]? = some up →
        pp1[j + k]? = some (Int.tdiv (t.pp * (5 + up)) 5)) := by
  induction protos generalizing j moves pp with
  | nil => exact ⟨pp, by simp [materialiseMoves], rfl, fun _ _ => rfl, by simp⟩
  | cons t rest ih =>
    simp only [List.length_cons] at hup hpp
    have hj : j < ppUps.length := by omega
    have hjp : j < pp.length := by omega
    obtain ⟨pp1, e, l, lo, hi⟩ := ih (j + 1) (moves ++ [some (newMoveObject t)])
      (pp.set j (Int.tdiv ((newMoveObject t).pp * (5 + ppUps[j])) 5))
      (by omega) (by simp; omega)
    refine ⟨pp1, ?_, ?_, ?_, ?_⟩
    · unfold materialiseMoves
      simp only [List.getElem?_eq_getElem hj, Option.bind_eq_bind, Option.some_bind, hjp,
        if_true, e]
      simp
    · simpa using l
    · intro i hi2
      rw [lo i (by omega)]
      simp [List.getElem?_set, show j ≠ i by omega]
    · intro k t2 up h1 h2
      cases k with
      | zero =>
        simp only [List.getElem?_cons_zero, Option.some.injEq] at h1
        subst h1
        simp only [Nat.add_zero] at h2 ⊢
        rw [List.getElem?_eq_getElem hj] at h2
        simp only [Option.some.injEq] at h2
        subst h2
        rw [lo j (by omega)]
        simp [hjp, newMoveObject]
      | succ n =>
        simp only [List.getElem?_cons_succ] at h1
        have := hi n t2 up h1 (by rw [← h2]; congr 1; omega)
        rw [← this]
        congr 1
        omega

/-- Claim C19. For a creature as its constructor leaves it (no move objects
yet, a PP entry for each of its move templates, at least as many PP-ups, and
`TOTAL_STAT_COUNT` stat stages), `initialise` returns; afterwards the health
equals the computed max-HP stat, every stat stage is 0, and for every
materialised move `j` the PP is `templatePp_j * (5 + ppUp_j) / 5` in the integer
arithmetic of C++, which is the floor of that quotient whenever the product is
not negative; `ppUp_j` is `m_ppUps[j]`. -/
theorem initialise_spec (cx : BattleContext) (p : Pokemon) (party idx : Int)
    (hm : p.moves = []) (hpp : p.pp.length = p.moveProto.length)
    (hup : p.moveProto.length ≤ p.ppUps.length)
    (hlev : p.statLevel.length = TOTAL_STAT_COUNT) :
    ∃ p1, p.initialise cx party idx = some p1 ∧
      p1.hp = p1.statHp ∧ p1.statHp = cx.calculateStat 0 ∧
      p1.statLevel = List.replicate TOTAL_STAT_COUNT 0 ∧
      p1.moves = p.moveProto.map (fun t => some (newMoveObject t)) ∧
      (∀ (j : Nat) (t : MoveTemplate) (up : Int), p.moveProto[j]? = some t → p.ppUps[j]? = some up →
        p1.pp[j]? = some (Int.tdiv (t.pp * (5 + up)) 5) ∧
        (0 ≤ t.pp * (5 + up) → p1.pp[j]? = some (t.pp * (5 + up) / 5))) := by
  obtain ⟨pp1, e, _, _, hi⟩ := materialiseMoves_spec p.ppUps p.moveProto 0 p.moves p.pp
    (by omega) (by omega)
  have key : ∀ q : Pokemon,
      q.hp = cx.calculateStat 0 → q.statHp = cx.calculateStat 0 →
      q.statLevel = zeroStatLevels p.statLevel →
      q.moves = p.moves ++ p.moveProto.map (fun t => some (newMoveObject t)) → q.pp = pp1 →
      q.hp = q.statHp ∧ q.statHp = cx.calculateStat 0 ∧
      q.statLevel = List.replicate TOTAL_STAT_COUNT 0 ∧
      q.moves = p.moveProto.map (fun t => some (newMoveObject t)) ∧
      (∀ (j : Nat) (t : MoveTemplate) (up : Int), p.moveProto[j]? = some t → p.ppUps[j]? = some up →
        q.pp[j]? = some (Int.tdiv (t.pp * (5 + up)) 5) ∧
        (0 ≤ t.pp * (5 + up) → q.pp[j]? = some (t.pp * (5 + up) / 5))) := by
    intro q h1 h2 h3 h4 h5
    refine ⟨by rw [h1, h2], h2, by rw [h3, zeroStatLevels_eq _ hlev], by rw [h4, hm]; rfl, ?_⟩
    intro j t up ht hu
    have := hi j t up ht (by simpa using hu)
    simp only [Nat.zero_add] at this
    rw [h5]
    refine ⟨this, fun hnn => ?_⟩
    rw [this, Int.tdiv_eq_ediv hnn (by decide)]
  unfold Pokemon.initialise
  simp only [e, Option.bind_eq_bind, Option.some_bind, Option.pure_def]
  have b1 := setAbilityByName_body cx
    { p with
      party := party, position := idx, statHp := cx.calculateStat 0,
      stats := (List.range' 1 (STAT_COUNT - 1)).map cx.calculateStat,
      statLevel := zeroStatLevels p.statLevel, hp := cx.calculateStat 0,
      moves := p.moves ++ p.moveProto.map (fun t => some (newMoveObject t)), pp := pp1 }
    p.abilityName
  split
  · refine ⟨_, rfl, key _ ?_ ?_ ?_ ?_ ?_⟩
    · rw [(setItemByName_body cx _ _).1, b1.1]
    · rw [(setItemByName_body cx _ _).2.1, b1.2.1]
    · rw [(setItemByName_body cx _ _).2.2.1, b1.2.2.1]
    · rw [(setItemByName_body cx _ _).2.2.2.1, b1.2.2.2.1]
    · rw [(setItemByName_body cx _ _).2.2.2.2, b1.2.2.2.2]
  · refine ⟨_, rfl, key _ ?_ ?_ ?_ ?_ ?_⟩
    · rw [b1.1]
    · rw [b1.2.1]
    · rw [b1.2.2.1]
    · rw [b1.2.2.2.1]
    · rw [b1.2.2.2.2]

/-- Claim C19 on a fresh creature with the moves Thunderbolt (15 PP, three
PP-ups) and Surf (15 PP, none), whose max-HP stat is computed as 100:
`initialise` leaves it at 100 of 100 with every stage 0 and the PP 24 and 15. -/
theorem initialise_spec_witness :
    (exampleFresh.moves = [] ∧ exampleFresh.pp.length = exampleFresh.moveProto.length ∧
      exampleFresh.moveProto.length ≤ exampleFresh.ppUps.length ∧
      exampleFresh.statLevel.length = TOTAL_STAT_COUNT) ∧
    (∃ p1, exampleFresh.initialise exampleContext 0 0 = some p1 ∧
      p1.hp = p1.statHp ∧ p1.statHp = exampleContext.calculateStat 0 ∧
      p1.statLevel = List.replicate TOTAL_STAT_COUNT 0 ∧
      p1.moves = exampleFresh.moveProto.map (fun t => some (newMoveObject t)) ∧
      (∀ (j : Nat) (t : MoveTemplate) (up : Int),
        exampleFresh.moveProto[j]? = some t → exampleFresh.ppUps[j]? = some up →
        p1.pp[j]? = some (Int.tdiv (t.pp * (5 + up)) 5) ∧
        (0 ≤ t.pp * (5 + up) → p1.pp[j]? = some (t.pp * (5 + up) / 5)))) ∧
    (exampleFresh.initialise exampleContext 0 0).map (fun p1 => (p1.hp, p1.statLevel, p1.pp)) =
      some (100, [0, 0, 0, 0, 0, 0, 0, 0], [24, 15]) :=
  ⟨⟨rfl, rfl, by decide, rfl⟩,
    initialise_spec exampleContext exampleFresh 0 0 rfl rfl (by decide) rfl, by decide⟩

/-! ## One ability, one item -/

theorem eraseFirst_sublist (predicate : StatusObject → Bool) (l r : List StatusObject)
    (h : eraseFirst predicate l = some r) : r.Sublist l ∧ r.length < l.length := by
  induction l generalizing r with
  | nil => simp [eraseFirst] at h
  | cons e rest ih =>
    unfold eraseFirst at h
    split at h
    · simp only [Option.some.injEq] at h
      subst h
      exact ⟨List.sublist_cons_self _ _, by simp⟩
    · simp only [Option.map_eq_some'] at h
      obtain ⟨l1, h1, h2⟩ := h
      subst h2
      obtain ⟨a, b⟩ := ih l1 h1
      exact ⟨a.cons₂ e, by simpa using b⟩

theorem removeStatusesLoop_sublist (predicate : StatusObject → Bool) (fuel : Nat)
    (l r : List StatusObject) (h : removeStatusesLoop predicate fuel l = some r) :
    r.Sublist l := by
  induction fuel generalizing l with
  | zero => simp [removeStatusesLoop] at h
  | succ n ih =>
    unfold removeStatusesLoop at h
    split at h
    · simp only [Option.some.injEq] at h
      subst h
      exact List.Sublist.refl _
    · next rest hr => exact (ih rest h).trans (eraseFirst_sublist predicate l rest hr).1

/-- The sweep returns: one pass more than there are effects is enough. -/
theorem removeStatusesLoop_defined (predicate : StatusObject → Bool) (fuel : Nat)
    (l : List StatusObject) (h : l.length < fuel) :
    ∃ r, removeStatusesLoop predicate fuel l = some r := by
  induction fuel generalizing l with
  | zero => omega
  | succ n ih =>
    unfold removeStatusesLoop
    split
    · exact ⟨l, rfl⟩
    · next rest hr =>
      have := (eraseFirst_sublist predicate l rest hr).2
      exact ih rest (by omega)

theorem EffectInvOf.sublist {l l1 : List StatusObject} {n : Nat} {a i : Option Nat}
    (hs : l1.Sublist l) (h : EffectInvOf l n a i) : EffectInvOf l1 n a i := by
  obtain ⟨h1, h2, h3, h4⟩ := h
  exact ⟨fun e he => h1 e (hs.subset he), (hs.map _).nodup h2,
    fun e he => h3 e (hs.subset he), fun e he => h4 e (hs.subset he)⟩

theorem EffectInvOf.mono {l : List StatusObject} {n n1 : Nat} {a i : Option Nat}
    (hn : n ≤ n1) (h : EffectInvOf l n a i) : EffectInvOf l n1 a i := by
  obtain ⟨h1, h2, h3, h4⟩ := h
  exact ⟨fun e he => lt_of_lt_of_le (h1 e he) hn, h2, h3, h4⟩

/-- Marking the object `status` removable, as `removeStatus` does. -/
theorem EffectInvOf.dispose {l : List StatusObject} {n : Nat} {a i : Option Nat}
    (status : Nat) (h : EffectInvOf l n a i) :
    EffectInvOf (l.map (fun e => if e.handle = status then e.dispose else e)) n a i := by
  obtain ⟨h1, h2, h3, h4⟩ := h
  have hh : (l.map (fun e => if e.handle = status then e.dispose else e)).map
      (fun e => e.handle) = l.map (fun e => e.handle) := by
    rw [List.map_map]
    apply List.map_congr_left
    intro e _
    simp only [Function.comp]
    split <;> rfl
  refine ⟨?_, by rw [hh]; exact h2, ?_, ?_⟩
  · intro e he
    obtain ⟨e0, he0, rfl⟩ := List.mem_map.1 he
    have := h1 e0 he0
    split <;> simpa [StatusObject.dispose] using this
  · intro e he
    obtain ⟨e0, he0, rfl⟩ := List.mem_map.1 he
    split
    · intro hr; simp [StatusObject.dispose] at hr
    · exact h3 e0 he0
  · intro e he
    obtain ⟨e0, he0, rfl⟩ := List.mem_map.1 he
    split
    · intro hr; simp [StatusObject.dispose] at hr
    · exact h4 e0 he0

/-- After the object that `m_ability` points to is marked, no ability is
left. -/
theorem noLive_ability_dispose {l : List StatusObject} {n status : Nat} {i : Option Nat}
    (h : EffectInvOf l n (some status) i) :
    NoLive EffectKind.ability (l.map (fun e => if e.handle = status then e.dispose else e)) := by
  intro e he hr hk
  obtain ⟨e0, he0, rfl⟩ := List.mem_map.1 he
  split at hr
  · simp [StatusObject.dispose] at hr
  · next hne =>
    rw [if_neg hne] at hk
    have := h.2.2.1 e0 he0 hr hk
    simp only [Option.some.injEq] at this
    exact hne this.symm

theorem noLive_item_dispose {l : List StatusObject} {n status : Nat} {a : Option Nat}
    (h : EffectInvOf l n a (some status)) :
    NoLive EffectKind.item (l.map (fun e => if e.handle = status then e.dispose else e)) := by
  intro e he hr hk
  obtain ⟨e0, he0, rfl⟩ := List.mem_map.1 he
  split at hr
  · simp [StatusObject.dispose] at hr
  · next hne =>
    rw [if_neg hne] at hk
    have := h.2.2.2 e0 he0 hr hk
    simp only [Option.some.injEq] at this
    exact hne this.symm

theorem noLive_ability_of_none {l : List StatusObject} {n : Nat} {i : Option Nat}
    (h : EffectInvOf l n none i) : NoLive EffectKind.ability l := by
  intro e he hr hk
  have := h.2.2.1 e he hr hk
  simp at this

theorem noLive_item_of_none {l : List StatusObject} {n : Nat} {a : Option Nat}
    (h : EffectInvOf l n a none) : NoLive EffectKind.item l := by
  intro e he hr hk
  have := h.2.2.2 e he hr hk
  simp at this

theorem EffectInvOf.set_ability {l : List StatusObject} {n : Nat} {a i : Option Nat}
    (a1 : Option Nat) (hn : NoLive EffectKind.ability l) (h : EffectInvOf l n a i) :
    EffectInvOf l n a1 i :=
  ⟨h.1, h.2.1, fun e he hr hk => absurd hk (hn e he hr), h.2.2.2⟩

theorem EffectInvOf.set_item {l : List StatusObject} {n : Nat} {a i : Option Nat}
    (i1 : Option Nat) (hn : NoLive EffectKind.item l) (h : EffectInvOf l n a i) :
    EffectInvOf l n a i1 :=
  ⟨h.1, h.2.1, h.2.2.1, fun e he hr hk => absurd hk (hn e he hr)⟩

/-- Appending a new effect whose identity is the next one. -/
theorem EffectInvOf.append {l : List StatusObject} {n : Nat} {a i : Option Nat}
    (e : StatusObject) (hh : e.handle = n)
    (ha : e.removable = false → e.kind = EffectKind.ability → a = some n)
    (hi : e.removable = false → e.kind = EffectKind.item → i = some n)
    (h : EffectInvOf l n a i) : EffectInvOf (l ++ [e]) (n + 1) a i := by
  obtain ⟨h1, h2, h3, h4⟩ := h
  refine ⟨?_, ?_, ?_, ?_⟩
  · intro x hx
    rcases List.mem_append.1 hx with hx | hx
    · exact Nat.lt_succ_of_lt (h1 x hx)
    · simp only [List.mem_singleton] at hx
      subst hx
      omega
  · rw [List.map_append, List.nodup_append]
    refine ⟨h2, by simp, ?_⟩
    intro x hx hx2
    simp only [List.map_cons, List.map_nil, List.mem_singleton] at hx2
    obtain ⟨y, hy, rfl⟩ := List.mem_map.1 hx
    have := h1 y hy
    omega
  · intro x hx
    rcases List.mem_append.1 hx with hx | hx
    · exact h3 x hx
    · simp only [List.mem_singleton] at hx
      subst hx
      rw [hh]
      exact ha
  · intro x hx
    rcases List.mem_append.1 hx with hx | hx
    · exact h4 x hx
    · simp only [List.mem_singleton] at hx
      subst hx
      rw [hh]
      exact hi

/-- What `applyStatus` does to the members the invariant speaks of: it is
refused, or it appends one new object of the kind of its argument. -/
theorem applyStatus_cases (cx : BattleContext) (hcx : KeepsKinds cx) (p : Pokemon)
    (inducer : Option Nat) (effect : StatusObject) :
    (p.applyStatus cx inducer (some effect)).1.ability = p.ability ∧
    (p.applyStatus cx inducer (some effect)).1.item = p.item ∧
    (((p.applyStatus cx inducer (some effect)).1.effects = p.effects ∧
        p.nextHandle ≤ (p.applyStatus cx inducer (some effect)).1.nextHandle ∧
        (p.applyStatus cx inducer (some effect)).2 = none) ∨
      ∃ a, (p.applyStatus cx inducer (some effect)).1.effects = p.effects ++ [a] ∧
        a.handle = p.nextHandle ∧ a.kind = effect.kind ∧
        (p.applyStatus cx inducer (some effect)).1.nextHandle = p.nextHandle + 1 ∧
        (p.applyStatus cx inducer (some effect)).2 = some a) := by
  unfold Pokemon.applyStatus
  simp only
  split
  · exact ⟨rfl, rfl, Or.inl ⟨rfl, le_refl _, rfl⟩⟩
  · split
    · exact ⟨rfl, rfl, Or.inl ⟨rfl, le_refl _, rfl⟩⟩
    · split
      · exact ⟨rfl, rfl, Or.inl ⟨rfl, Nat.le_succ _, rfl⟩⟩
      · next applied happ =>
        split
        · exact ⟨rfl, rfl, Or.inl ⟨rfl, Nat.le_succ _, rfl⟩⟩
        · obtain ⟨k1, k2⟩ := hcx.2.2 _ _ happ
          refine ⟨rfl, rfl, Or.inr ⟨applied, rfl, ?_, ?_, rfl, rfl⟩⟩
          · rw [k1]; cases inducer <;> rfl
          · rw [k2]; cases inducer <;> rfl

theorem removeStatus_inv (p : Pokemon) (status : Nat) (h : EffectInv p) :
    EffectInv (p.removeStatus status) :=
  EffectInvOf.dispose status h

theorem setAbility_core (cx : BattleContext) (hcx : KeepsKinds cx) (p1 p2 : Pokemon)
    (obj : StatusObject) (applied : Option StatusObject)
    (hk : obj.kind = EffectKind.ability) (hinv : EffectInv p1)
    (hno : NoLive EffectKind.ability p1.effects)
    (hr : p1.applyStatus cx none (some obj) = (p2, applied)) :
    EffectInvOf p2.effects p2.nextHandle (applied.map (fun e => e.handle)) p2.item := by
  obtain ⟨ha, hi, hc⟩ := applyStatus_cases cx hcx p1 none obj
  rw [hr] at ha hi hc
  simp only at ha hi hc
  rw [hi]
  rcases hc with ⟨e1, e2, e3⟩ | ⟨a, e1, e2, e3, e4, e5⟩
  · rw [e1, e3]
    exact (EffectInvOf.set_ability none hno hinv).mono e2
  · rw [e1, e4, e5]
    simp only [Option.map_some', e2]
    refine EffectInvOf.append a e2 (fun _ _ => rfl) ?_ (EffectInvOf.set_ability _ hno hinv)
    intro _ hk2
    rw [e3, hk] at hk2
    cases hk2

theorem setItem_core (cx : BattleContext) (hcx : KeepsKinds cx) (p1 p2 : Pokemon)
    (obj : StatusObject) (applied : Option StatusObject)
    (hk : obj.kind = EffectKind.item) (hinv : EffectInv p1)
    (hno : NoLive EffectKind.item p1.effects)
    (hr : p1.applyStatus cx none (some obj) = (p2, applied)) :
    EffectInvOf p2.effects p2.nextHandle p2.ability (applied.map (fun e => e.handle)) := by
  obtain ⟨ha, hi, hc⟩ := applyStatus_cases cx hcx p1 none obj
  rw [hr] at ha hi hc
  simp only at ha hi hc
  rw [ha]
  rcases hc with ⟨e1, e2, e3⟩ | ⟨a, e1, e2, e3, e4, e5⟩
  · rw [e1, e3]
    exact (EffectInvOf.set_item none hno hinv).mono e2
  · rw [e1, e4, e5]
    simp only [Option.map_some', e2]
    refine EffectInvOf.append a e2 ?_ (fun _ _ => rfl) (EffectInvOf.set_item _ hno hinv)
    intro _ hk2
    rw [e3, hk] at hk2
    cases hk2

theorem setAbility_inv (cx : BattleContext) (hcx : KeepsKinds cx) (p : Pokemon)
    (obj : StatusObject) (hk : obj.kind = EffectKind.ability) (h : EffectInv p) :
    EffectInv (p.setAbility cx obj) := by
  unfold Pokemon.setAbility
  cases hab : p.ability with
  | none =>
    simp only
    cases hr : p.applyStatus cx none (some obj) with
    | mk p2 applied =>
      have hno : NoLive EffectKind.ability p.effects := by
        have h2 := h
        unfold EffectInv at h2
        rw [hab] at h2
        exact noLive_ability_of_none h2
      exact setAbility_core cx hcx p p2 obj applied hk h hno hr
  | some status =>
    simp only
    cases hr : (p.removeStatus status).applyStatus cx none (some obj) with
    | mk p2 applied =>
      have hno : NoLive EffectKind.ability (p.removeStatus status).effects := by
        have h2 := h
        unfold EffectInv at h2
        rw [hab] at h2
        exact noLive_ability_dispose h2
      exact setAbility_core cx hcx _ p2 obj applied hk (removeStatus_inv p status h) hno hr

theorem setItem_inv (cx : BattleContext) (hcx : KeepsKinds cx) (p : Pokemon)
    (obj : StatusObject) (hk : obj.kind = EffectKind.item) (h : EffectInv p) :
    EffectInv (p.setItem cx obj) := by
  unfold Pokemon.setItem
  cases hab : p.item with
  | none =>
    simp only
    cases hr : p.applyStatus cx none (some obj) with
    | mk p2 applied =>
      have hno : NoLive EffectKind.item p.effects := by
        have h2 := h
        unfold EffectInv at h2
        rw [hab] at h2
        exact noLive_item_of_none h2
      exact setItem_core cx hcx p p2 obj applied hk h hno hr
  | some status =>
    simp only
    cases hr : (p.removeStatus status).applyStatus cx none (some obj) with
    | mk p2 applied =>
      have hno : NoLive EffectKind.item (p.removeStatus status).effects := by
        have h2 := h
        unfold EffectInv at h2
        rw [hab] at h2
        exact noLive_item_dispose h2
      exact setItem_core cx hcx _ p2 obj applied hk (removeStatus_inv p status h) hno hr

theorem setAbilityByName_inv (cx : BattleContext) (hcx : KeepsKinds cx) (p : Pokemon)
    (name : String) (h : EffectInv p) : EffectInv (p.setAbilityByName cx name) := by
  unfold Pokemon.setAbilityByName
  cases hg : cx.getAbility name with
  | none => exact h
  | some obj => exact setAbility_inv cx hcx p obj (hcx.1 name obj hg) h

theorem setItemByName_inv (cx : BattleContext) (hcx : KeepsKinds cx) (p : Pokemon)
    (name : String) (h : EffectInv p) : EffectInv (p.setItemByName cx name) := by
  unfold Pokemon.setItemByName
  cases hg : cx.getItem name with
  | none => exact h
  | some obj => exact setItem_inv cx hcx p obj (hcx.2.1 name obj hg) h

theorem applyStatus_inv (cx : BattleContext) (hcx : KeepsKinds cx) (p : Pokemon)
    (inducer : Option Nat) (effect : StatusObject) (ha : effect.kind ≠ EffectKind.ability)
    (hi : effect.kind ≠ EffectKind.item) (h : EffectInv p) :
    EffectInv (p.applyStatus cx inducer (some effect)).1 := by
  obtain ⟨ea, ei, hc⟩ := applyStatus_cases cx hcx p inducer effect
  unfold EffectInv
  rw [ea, ei]
  rcases hc with ⟨e1, e2, _⟩ | ⟨a, e1, e2, e3, e4, _⟩
  · rw [e1]
    exact EffectInvOf.mono e2 h
  · rw [e1, e4]
    exact EffectInvOf.append a e2 (fun _ hk => absurd (e3 ▸ hk) ha)
      (fun _ hk => absurd (e3 ▸ hk) hi) h

theorem removeStatuses_inv (p p1 : Pokemon) (hr : p.removeStatuses = some p1)
    (h : EffectInv p) : EffectInv p1 := by
  unfold Pokemon.removeStatuses at hr
  simp only [Option.map_eq_some'] at hr
  obtain ⟨l, hl, rfl⟩ := hr
  exact EffectInvOf.sublist (removeStatusesLoop_sublist _ _ _ _ hl) h

theorem switchOut_inv (cx : BattleContext) (hcx : KeepsKinds cx) (p p1 : Pokemon)
    (hr : p.switchOut cx = some p1) (h : EffectInv p) : EffectInv p1 := by
  unfold Pokemon.switchOut at hr
  simp only [Option.bind_eq_bind, Option.bind_eq_some, Option.pure_def, Option.some.injEq] at hr
  obtain ⟨l, hl, rfl⟩ := hr
  have h1 : EffectInv { p with effects := l } :=
    EffectInvOf.sublist (removeStatusesLoop_sublist _ _ _ _ hl) h
  exact setAbilityByName_inv cx hcx _ p.abilityName h1

theorem initialise_inv (cx : BattleContext) (hcx : KeepsKinds cx) (p0 p : Pokemon)
    (party idx : Int) (hc : Constructed p0) (hr : p0.initialise cx party idx = some p) :
    EffectInv p := by
  unfold Pokemon.initialise at hr
  simp only [Option.bind_eq_bind, Option.bind_eq_some, Option.pure_def] at hr
  obtain ⟨⟨moves, pp⟩, _, hr⟩ := hr
  simp only at hr
  obtain ⟨e1, e2, e3⟩ := hc
  have h0 : EffectInv { p0 with
      party := party, position := idx, statHp := cx.calculateStat 0,
      stats := (List.range' 1 (STAT_COUNT - 1)).map cx.calculateStat,
      statLevel := zeroStatLevels p0.statLevel, hp := cx.calculateStat 0,
      moves := moves, pp := pp } := by
    unfold EffectInv EffectInvOf
    simp only [e1, e2, e3]
    simp
  have h1 := setAbilityByName_inv cx hcx _ p0.abilityName h0
  split at hr
  · simp only [Option.some.injEq] at hr
    subst hr
    exact setItemByName_inv cx hcx _ _ h1
  · simp only [Option.some.injEq] at hr
    subst hr
    exact h1

theorem effectReachable_inv (cx : BattleContext) (hcx : KeepsKinds cx) (p : Pokemon)
    (hr : EffectReachable cx p) : EffectInv p := by
  induction hr with
  | initialise p0 p party idx hc hi => exact initialise_inv cx hcx p0 p party idx hc hi
  | step p p1 _ hs ih =>
    cases hs with
    | setAbility obj hk => exact setAbility_inv cx hcx p obj hk ih
    | setAbilityByName name => exact setAbilityByName_inv cx hcx p name ih
    | setItem obj hk => exact setItem_inv cx hcx p obj hk ih
    | setItemByName name => exact setItemByName_inv cx hcx p name ih
    | applyStatus inducer effect ha hi => exact applyStatus_inv cx hcx p inducer effect ha hi ih
    | removeStatus status => exact removeStatus_inv p status ih
    | removeStatuses _ h => exact removeStatuses_inv p p1 h ih
    | switchOut _ h => exact switchOut_inv cx hcx p p1 h ih

/-- A list whose members are distinct under `f` and all have the same value of
`f` has at most one member. -/
theorem length_le_one_of_nodup_const {α β : Type} (f : α → β) (b : β) (l : List α)
    (hn : (l.map f).Nodup) (hc : ∀ x ∈ l, f x = b) : l.length ≤ 1 := by
  match l, hn, hc with
  | [], _, _ => simp
  | [_], _, _ => simp
  | x :: y :: rest, hn, hc =>
    exfalso
    have hx := hc x (by simp)
    have hy := hc y (by simp)
    simp only [List.map_cons, List.nodup_cons, List.mem_cons] at hn
    exact hn.1 (Or.inl (hx.trans hy.symm))

theorem liveCount_le_one (k : EffectKind) (l : List StatusObject) (target : Option Nat)
    (hn : (l.map (fun e => e.handle)).Nodup)
    (h : ∀ e ∈ l, e.removable = false → e.kind = k → target = some e.handle) :
    liveCount k l ≤ 1 := by
  unfold liveCount
  rw [List.countP_eq_length_filter]
  cases target with
  | none =>
    have : l.filter (fun e => !e.removable && decide (e.kind = k)) = [] := by
      rw [List.filter_eq_nil_iff]
      intro e he hp
      simp only [Bool.and_eq_true, Bool.not_eq_true', decide_eq_true_eq] at hp
      have := h e he hp.1 hp.2
      simp at this
    rw [this]
    simp
  | some t =>
    apply length_le_one_of_nodup_const (fun e => e.handle) t
    · exact ((List.filter_sublist l).map _).nodup hn
    · intro e he
      rw [List.mem_filter] at he
      simp only [Bool.and_eq_true, Bool.not_eq_true', decide_eq_true_eq] at he
      have := h e he.1 he.2.1 he.2.2
      simp only [Option.some.injEq] at this
      exact this.symm

theorem removeStatuses_defined (p : Pokemon) : ∃ p1, p.removeStatuses = some p1 := by
  obtain ⟨l, hl⟩ := removeStatusesLoop_defined (fun e => e.removable) (p.effects.length + 1)
    p.effects (Nat.lt_succ_self _)
  exact ⟨{ p with effects := l }, by simp [Pokemon.removeStatuses, removeStatusesIf, hl]⟩

theorem switchOut_defined (cx : BattleContext) (p : Pokemon) : ∃ p1, p.switchOut cx = some p1 := by
  obtain ⟨l, hl⟩ := removeStatusesLoop_defined switchOutPredicate (p.effects.length + 1)
    p.effects (Nat.lt_succ_self _)
  unfold Pokemon.switchOut
  simp only [removeStatusesIf, hl, Option.bind_eq_bind, Option.some_bind, Option.pure_def]
  exact ⟨_, rfl⟩

theorem exampleContext_keepsKinds : KeepsKinds exampleContext := by
  refine ⟨?_, ?_, ?_⟩
  · intro n e h
    simp only [exampleContext] at h
    split at h
    · cases h; rfl
    · cases h
  · intro n e h
    simp only [exampleContext] at h
    split at h
    · cases h; rfl
    · cases h
  · intro e e1 h
    simp only [exampleContext, Option.some.injEq] at h
    subst h
    exact ⟨rfl, rfl⟩

theorem exampleFresh_constructed : Constructed exampleFresh := ⟨rfl, rfl, rfl⟩

theorem exampleInitialised_eq :
    exampleFresh.initialise exampleContext 0 0 = some exampleInitialised := rfl

theorem exampleSwapped_reachable : EffectReachable exampleContext exampleSwapped :=
  EffectReachable.step exampleInitialised exampleSwapped
    (EffectReachable.initialise exampleFresh exampleInitialised 0 0 exampleFresh_constructed
      exampleInitialised_eq)
    (EffectStep.setAbilityByName exampleInitialised "Intimidate")

/-- Claim C14 fails as stated, in three ways. The fresh example creature is
initialised with the ability Static and the item Leftovers. (1) After
`setAbility("Intimidate")` its effect list holds two ability effects: the old
one is only marked removable and stays in the list until the sweep. (2) After
`removeStatus` of its ability and the sweep `removeStatuses`, the list holds no
ability effect. (3) After `applyStatus` of an ability, the list holds two
ability effects, neither of them marked removable. -/
theorem one_ability_counterexample :
    Constructed exampleFresh ∧
    exampleFresh.initialise exampleContext 0 0 = some exampleInitialised ∧
    countKind EffectKind.ability exampleInitialised.effects = 1 ∧
    countKind EffectKind.ability
      (exampleInitialised.setAbilityByName exampleContext "Intimidate").effects = 2 ∧
    ((exampleInitialised.removeStatus 0).removeStatuses).map
      (fun p => countKind EffectKind.ability p.effects) = some 0 ∧
    exampleIntimidate.kind = EffectKind.ability ∧
    liveCount EffectKind.ability
      (exampleInitialised.applyStatus exampleContext none (some exampleIntimidate)).1.effects = 2 :=
  ⟨exampleFresh_constructed, exampleInitialised_eq, by decide, by decide, by decide, rfl,
    by decide⟩

/-- Claim C14, amended. Let the script context keep kinds (`getAbility` returns
abilities, `getItem` items, and `transformStatus` keeps the object and its kind).
In every state reachable from `initialise` of a newly constructed creature by
`setAbility` with an ability, `setItem` with an item, `applyStatus` of an effect
that is neither an ability nor an item, `removeStatus`, `removeStatuses` and
`switchOut`, the effect list holds at most one ability effect and at most one
item effect among the effects that are not marked removable; and in every such
state `removeStatuses` and `switchOut` return. -/
theorem live_ability_item_le_one (cx : BattleContext) (p : Pokemon) (hcx : KeepsKinds cx)
    (hr : EffectReachable cx p) :
    liveCount EffectKind.ability p.effects ≤ 1 ∧ liveCount EffectKind.item p.effects ≤ 1 ∧
      (∃ p1, p.removeStatuses = some p1) ∧ (∃ p1, p.switchOut cx = some p1) := by
  have h := effectReachable_inv cx hcx p hr
  exact ⟨liveCount_le_one EffectKind.ability p.effects p.ability h.2.1 h.2.2.1,
    liveCount_le_one EffectKind.item p.effects p.item h.2.1 h.2.2.2,
    removeStatuses_defined p, switchOut_defined cx p⟩

/-- Claim C14, amended, on the example creature after its ability was replaced:
of its three effects, one ability and one item are not marked removable. -/
theorem live_ability_item_le_one_witness :
    (KeepsKinds exampleContext ∧ EffectReachable exampleContext exampleSwapped) ∧
    (liveCount EffectKind.ability exampleSwapped.effects ≤ 1 ∧
      liveCount EffectKind.item exampleSwapped.effects ≤ 1 ∧
      (∃ p1, exampleSwapped.removeStatuses = some p1) ∧
      (∃ p1, exampleSwapped.switchOut exampleContext = some p1)) ∧
    exampleSwapped.effects.length = 3 ∧
    liveCount EffectKind.ability exampleSwapped.effects = 1 ∧
    liveCount EffectKind.item exampleSwapped.effects = 1 :=
  ⟨⟨exampleContext_keepsKinds, exampleSwapped_reachable⟩,
    live_ability_item_le_one exampleContext exampleSwapped exampleContext_keepsKinds
      exampleSwapped_reachable,
    by decide, by decide, by decide⟩

/-! ## The dispatch queue: invariant -/

theorem processStep_inv (s s1 : ThreadedQueue) (h : QueueInv s)
    (hs : processStep s = some s1) : QueueInv s1 := by
  obtain ⟨⟨w1, w2, w3⟩, hc⟩ := h
  unfold processStep at hs
  cases hp : s.process <;> rw [hp] at hs <;> simp only at hs
  · -- lock
    split at hs
    · next hm =>
      simp only [Option.some.injEq] at hs
      subst hs
      refine ⟨⟨fun _ => rfl, by simp, by simpa [hp] using w3⟩, fun i c hi => ?_⟩
      obtain ⟨c1, c2, c3, c4⟩ := hc i c hi
      refine ⟨fun hh => ?_, c2, c3, ?_⟩
      · have := c1 hh
        rw [hm] at this
        cases this
      · simpa [busy, hp] using c4
    · cases hs
  · -- test
    split at hs
    · next he =>
      simp only [Option.some.injEq] at hs
      subst hs
      refine ⟨⟨by simp [ProcessPc.holds], by simp, by simpa [hp] using w3⟩, fun i c hi => ?_⟩
      obtain ⟨c1, c2, c3, c4⟩ := hc i c hi
      refine ⟨fun hh => ?_, c2, c3, ?_⟩
      · have := c1 hh
        rw [w1 (by simp [hp, ProcessPc.holds])] at this
        cases this
      · simpa [busy, hp] using c4
    · next he =>
      simp only [Option.some.injEq] at hs
      subst hs
      refine ⟨⟨fun _ => w1 (by simp [hp, ProcessPc.holds]), fun _ => by simpa using he,
        by simp [hp] at w3 ⊢; omega⟩, fun i c hi => ?_⟩
      obtain ⟨c1, c2, c3, c4⟩ := hc i c hi
      exact ⟨c1, c2, c3, by simpa [busy, hp] using c4⟩
  · -- wait
    split at hs
    · next hm =>
      simp only [Option.some.injEq] at hs
      subst hs
      refine ⟨⟨fun _ => rfl, by simp, by simpa [hp] using w3⟩, fun i c hi => ?_⟩
      obtain ⟨c1, c2, c3, c4⟩ := hc i c hi
      refine ⟨fun hh => ?_, c2, c3, ?_⟩
      · have := c1 hh
        rw [hm] at this
        cases this
      · simpa [busy, hp] using c4
    · cases hs
  · -- delegate
    simp only [Option.some.injEq] at hs
    subst hs
    refine ⟨⟨fun _ => w1 (by simp [hp, ProcessPc.holds]), fun _ => w2 (Or.inl hp),
      by simp [hp] at w3 ⊢; omega⟩, fun i c hi => ?_⟩
    obtain ⟨c1, c2, c3, c4⟩ := hc i c hi
    refine ⟨c1, c2, Nat.le_succ_of_le c3, fun _ _ => Or.inl (Nat.lt_succ_of_le c3)⟩
  · -- finish
    simp only [Option.some.injEq] at hs
    subst hs
    refine ⟨⟨fun _ => w1 (by simp [hp, ProcessPc.holds]), by simp,
      by simpa [hp] using w3⟩, fun i c hi => ?_⟩
    obtain ⟨c1, c2, c3, c4⟩ := hc i c hi
    refine ⟨c1, fun _ => rfl, c3, fun hb hn => ?_⟩
    rcases c4 hb hn with h1 | h1
    · exact Or.inl h1
    · simp [busy, hp] at h1

theorem getElem?_set_cases {α : Type} (l : List α) (i j : Nat) (a b : α)
    (h : (l.set i a)[j]? = some b) : (j = i ∧ b = a) ∨ (j ≠ i ∧ l[j]? = some b) := by
  rw [List.getElem?_set] at h
  split at h
  · next hij =>
    split at h
    · simp only [Option.some.injEq] at h
      exact Or.inl ⟨hij.symm, h.symm⟩
    · cases h
  · next hij => exact Or.inr ⟨fun e => hij e.symm, h⟩

/-- A step of client `i` keeps the invariant when it keeps that of the dispatch
thread, establishes that of client `i`, and keeps that of every other client. -/
theorem queueInv_of_client (s s1 : ThreadedQueue) (i : Nat) (c1 : Client)
    (h : QueueInv s) (hcl : s1.clients = s.clients.set i c1)
    (hW : WorkerInv s1) (hI : ClientInv s1 i c1)
    (hO : ∀ j cj, j ≠ i → ClientInv s j cj → ClientInv s1 j cj) : QueueInv s1 := by
  refine ⟨hW, fun j cj hj => ?_⟩
  rw [hcl] at hj
  rcases getElem?_set_cases _ _ _ _ _ hj with ⟨rfl, rfl⟩ | ⟨hne, hj2⟩
  · exact hI
  · exact hO j cj hne (h.2 j cj hj2)

theorem not_holds_of_client (s : ThreadedQueue) (i : Nat) (h : WorkerInv s)
    (hm : s.m_mutex = some (Thread.client i)) : s.process.holds = false := by
  cases hh : s.process.holds with
  | false => rfl
  | true =>
    have := h.1 hh
    rw [hm] at this
    cases this

theorem not_holds_of_other (s : ThreadedQueue) (i j : Nat) (cj : Client) (hne : j ≠ i)
    (h : ClientInv s j cj) (hm : s.m_mutex = some (Thread.client i)) : cj.pc.holds = false := by
  cases hh : cj.pc.holds with
  | false => rfl
  | true =>
    have := h.1 hh
    rw [hm] at this
    simp only [Option.some.injEq, Thread.client.injEq] at this
    exact absurd this.symm hne

theorem not_holds_of_free (s : ThreadedQueue) (j : Nat) (cj : Client)
    (h : ClientInv s j cj) (hm : s.m_mutex = none) : cj.pc.holds = false := by
  cases hh : cj.pc.holds with
  | false => rfl
  | true =>
    have := h.1 hh
    rw [hm] at this
    cases this

theorem worker_not_holds_of_free (s : ThreadedQueue) (h : WorkerInv s)
    (hm : s.m_mutex = none) : s.process.holds = false := by
  cases hh : s.process.holds with
  | false => rfl
  | true =>
    have := h.1 hh
    rw [hm] at this
    cases this

/-- Taking the free mutex, by client `i` at `lock` or in `wait`. -/
theorem acquire_inv (s : ThreadedQueue) (i : Nat) (c : Client) (h : QueueInv s)
    (hc : s.clients[i]? = some c) (hpc : c.pc = PostPc.lock ∨ c.pc = PostPc.wait)
    (hm : s.m_mutex = none) :
    QueueInv { s with
      m_mutex := some (Thread.client i)
      clients := s.clients.set i { c with pc := PostPc.test } } := by
  have hw := worker_not_holds_of_free s h.1 hm
  obtain ⟨c1, c2, c3, c4⟩ := h.2 i c hc
  apply queueInv_of_client s _ i _ h rfl
  · obtain ⟨w1, w2, w3⟩ := h.1
    refine ⟨fun hh => ?_, w2, w3⟩
    simp only at hh
    rw [hw] at hh
    cases hh
  · refine ⟨fun _ => rfl, by simp, c3, fun hb _ => ?_⟩
    have hn : c.pc ≠ PostPc.idle := by rcases hpc with e | e <;> rw [e] <;> decide
    rcases c4 hb hn with h1 | h1
    · exact Or.inl h1
    · exact Or.inr ⟨rfl, h1.2⟩
  · intro j cj hne hj
    have := not_holds_of_free s j cj hj hm
    obtain ⟨d1, d2, d3, d4⟩ := hj
    refine ⟨fun hh => ?_, d2, d3, d4⟩
    rw [this] at hh
    cases hh

theorem postStep_inv (i : Nat) (s s1 : ThreadedQueue) (h : QueueInv s)
    (hs : postStep i s = some s1) : QueueInv s1 := by
  unfold postStep at hs
  simp only [Option.bind_eq_bind, Option.bind_eq_some] at hs
  obtain ⟨c, hc, hs⟩ := hs
  obtain ⟨c1, c2, c3, c4⟩ := h.2 i c hc
  obtain ⟨w1, w2, w3⟩ := h.1
  cases hp : c.pc <;> rw [hp] at hs <;> simp only at hs
  · cases hs
  · -- lock
    split at hs
    · next hm =>
      simp only [Option.some.injEq] at hs
      subst hs
      exact acquire_inv s i c h hc (Or.inl hp) hm
    · cases hs
  · -- test
    have hm := c1 (by rw [hp]; rfl)
    split at hs
    · next he =>
      simp only [Option.some.injEq] at hs
      subst hs
      apply queueInv_of_client s _ i _ h rfl
      · refine ⟨fun hh => ?_, w2, w3⟩
        simp only at hh
        rw [not_holds_of_client s i h.1 hm] at hh
        cases hh
      · refine ⟨by simp [PostPc.holds], by simp, c3, fun hb _ => ?_⟩
        rcases c4 hb (by rw [hp]; decide) with h1 | h1
        · exact Or.inl h1
        · exact Or.inr ⟨rfl, h1.2⟩
      · intro j cj hne hj
        have := not_holds_of_other s i j cj hne hj hm
        obtain ⟨d1, d2, d3, d4⟩ := hj
        refine ⟨fun hh => ?_, d2, d3, d4⟩
        rw [this] at hh
        cases hh
    · next he =>
      simp only [Option.some.injEq] at hs
      subst hs
      have he2 : s.m_empty = true := by simpa using he
      apply queueInv_of_client s _ i _ h rfl
      · exact ⟨w1, w2, w3⟩
      · refine ⟨fun _ => hm, fun _ => he2, c3, fun hb _ => ?_⟩
        rcases c4 hb (by rw [hp]; decide) with h1 | h1
        · exact Or.inl h1
        · simp [busy, he2] at h1
      · intro j cj _ hj
        exact hj
  · -- wait
    split at hs
    · next hm =>
      simp only [Option.some.injEq] at hs
      subst hs
      exact acquire_inv s i c h hc (Or.inr hp) hm
    · cases hs
  · -- store
    have hm := c1 (by rw [hp]; rfl)
    simp only [Option.some.injEq] at hs
    subst hs
    apply queueInv_of_client s _ i _ h rfl
    · exact ⟨w1, w2, w3⟩
    · refine ⟨fun _ => hm, by simp, c3, fun hb _ => ?_⟩
      rcases c4 hb (by rw [hp]; decide) with h1 | h1
      · exact Or.inl h1
      · simp [hp, PostPc.pastLoop] at h1
    · intro j cj _ hj
      exact hj
  · -- flag
    have hm := c1 (by rw [hp]; rfl)
    have hw := not_holds_of_client s i h.1 hm
    simp only [Option.some.injEq] at hs
    subst hs
    apply queueInv_of_client s _ i _ h rfl
    · refine ⟨w1, fun _ => rfl, w3⟩
    · refine ⟨fun _ => hm, by simp, c3, fun hb _ => ?_⟩
      rcases c4 hb (by rw [hp]; decide) with h1 | h1
      · exact Or.inl h1
      · simp [hp, PostPc.pastLoop] at h1
    · intro j cj hne hj
      have hnh := not_holds_of_other s i j cj hne hj hm
      obtain ⟨d1, d2, d3, d4⟩ := hj
      refine ⟨d1, fun hst => ?_, d3, fun hb hn => ?_⟩
      · rw [hst] at hnh
        cases hnh
      · rcases d4 hb hn with h1 | h1
        · exact Or.inl h1
        · refine Or.inr ⟨h1.1, ?_⟩
          have := h1.2
          simp only [busy, Bool.and_eq_true, Bool.not_eq_true', decide_eq_true_eq] at this ⊢
          exact ⟨trivial, this.2⟩
  · -- unlock
    have hm := c1 (by rw [hp]; rfl)
    simp only [Option.some.injEq] at hs
    subst hs
    apply queueInv_of_client s _ i _ h rfl
    · refine ⟨fun hh => ?_, w2, w3⟩
      simp only at hh
      rw [not_holds_of_client s i h.1 hm] at hh
      cases hh
    · refine ⟨by simp [PostPc.holds], by simp, c3, fun hb _ => ?_⟩
      rcases c4 hb (by rw [hp]; decide) with h1 | h1
      · exact Or.inl h1
      · simp [hp, PostPc.pastLoop] at h1
    · intro j cj hne hj
      have := not_holds_of_other s i j cj hne hj hm
      obtain ⟨d1, d2, d3, d4⟩ := hj
      refine ⟨fun hh => ?_, d2, d3, d4⟩
      rw [this] at hh
      cases hh
  · -- notify
    simp only [Option.some.injEq] at hs
    subst hs
    apply queueInv_of_client s _ i _ h rfl
    · exact ⟨w1, w2, w3⟩
    · refine ⟨by simp [PostPc.holds], by simp, c3, fun _ hn => ?_⟩
      simp at hn
    · intro j cj _ hj
      exact hj

theorem callPost_inv (i elem : Nat) (s s1 : ThreadedQueue) (h : QueueInv s)
    (hs : callPost i elem s = some s1) : QueueInv s1 := by
  unfold callPost at hs
  simp only [Option.bind_eq_bind, Option.bind_eq_some] at hs
  obtain ⟨c, hc, hs⟩ := hs
  split at hs
  · simp only [Option.some.injEq] at hs
    subst hs
    apply queueInv_of_client s _ i _ h rfl
    · exact h.1
    · refine ⟨by simp [PostPc.holds], by simp, le_refl _, fun hb _ => Or.inr ⟨rfl, hb⟩⟩
    · intro j cj _ hj
      exact hj
  · cases hs

theorem newQueue_inv (n : Nat) : QueueInv (newQueue n) := by
  refine ⟨⟨by simp [newQueue, ProcessPc.holds], by simp [newQueue], by simp [newQueue]⟩,
    fun i c hi => ?_⟩
  have hc : c = {} := by
    simp only [newQueue] at hi
    have := List.getElem?_mem hi
    exact List.eq_of_mem_replicate this
  subst hc
  exact ⟨by simp [PostPc.holds], by simp, Nat.zero_le _, by simp⟩

theorem queueReachable_inv (s : ThreadedQueue) (h : QueueReachable s) : QueueInv s := by
  induction h with
  | init n => exact newQueue_inv n
  | step a s s1 _ hs ih =>
    cases a with
    | process => exact processStep_inv s s1 ih hs
    | post i => exact postStep_inv i s s1 ih hs
    | call i elem => exact callPost_inv i elem s s1 ih hs

theorem runQueue_reachable (as : List Action) (s s1 : ThreadedQueue) (h : QueueReachable s)
    (hr : runQueue as s = some s1) : QueueReachable s1 := by
  induction as generalizing s with
  | nil =>
    simp only [runQueue, Option.some.injEq] at hr
    exact hr ▸ h
  | cons a rest ih =>
    simp only [runQueue, Option.bind_eq_some] at hr
    obtain ⟨s2, h2, h3⟩ := hr
    exact ih s2 (QueueReachable.step a s s2 h h2) h3

theorem exampleStoring_reachable : QueueReachable exampleStoring :=
  runQueue_reachable exampleInterleaving (newQueue 2) exampleStoring (QueueReachable.init 2)
    (by decide)

/-- Claim C20. In every state that an interleaving of the dispatch thread and
the client threads of one queue reaches: the calls of the delegate that have
started and not returned number at most one, and exactly one when the dispatch
thread is inside the delegate; a client that is about to execute `m_item = elem`
finds the slot empty and no delegate call in progress; and a client that has
passed the loop of a `post` issued while an item was pending or being processed
has seen a delegate call return since it issued the call. -/
theorem threadedQueue_exclusive (s : ThreadedQueue) (hr : QueueReachable s) :
    (s.started = s.completed ∨ s.started = s.completed + 1) ∧
    (s.started = s.completed + 1 ↔ s.process = ProcessPc.delegate) ∧
    ∀ (i : Nat) (c : Client), s.clients[i]? = some c →
      (c.pc = PostPc.store → s.m_empty = true ∧ s.started = s.completed) ∧
      (c.pc.pastLoop = true → c.busyAtIssue = true → c.mark < s.completed) := by
  obtain ⟨⟨w1, w2, w3⟩, hc⟩ := queueReachable_inv s hr
  refine ⟨?_, ?_, fun i c hi => ?_⟩
  · split at w3 <;> omega
  · split at w3
    · next hp => exact ⟨fun _ => hp, fun _ => w3⟩
    · next hp => exact ⟨fun e => by omega, fun e => absurd e hp⟩
  · obtain ⟨c1, c2, _, c4⟩ := hc i c hi
    refine ⟨fun hst => ⟨c2 hst, ?_⟩, fun hpast hb => ?_⟩
    · have hm := c1 (by rw [hst]; rfl)
      have hh := not_holds_of_client s i ⟨w1, w2, w3⟩ hm
      have hp : s.process ≠ ProcessPc.delegate := by
        intro e
        rw [e] at hh
        cases hh
      rw [if_neg hp] at w3
      exact w3
    · have hn : c.pc ≠ PostPc.idle := by
        intro e
        rw [e] at hpast
        cases hpast
      rcases c4 hb hn with h1 | h1
      · exact h1
      · rw [hpast] at h1
        cases h1.1

/-- Claim C20 on the example interleaving: client 1 issued `post(9)` while the
item 7 was pending, and when it is about to store, the slot is empty, the one
delegate call has returned, and that return came after the call was issued. -/
theorem threadedQueue_exclusive_witness :
    QueueReachable exampleStoring ∧
    runQueue exampleInterleaving (newQueue 2) = some exampleStoring ∧
    ((exampleStoring.started = exampleStoring.completed ∨
        exampleStoring.started = exampleStoring.completed + 1) ∧
      (exampleStoring.started = exampleStoring.completed + 1 ↔
        exampleStoring.process = ProcessPc.delegate) ∧
      ∀ (i : Nat) (c : Client), exampleStoring.clients[i]? = some c →
        (c.pc = PostPc.store →
          exampleStoring.m_empty = true ∧ exampleStoring.started = exampleStoring.completed) ∧
        (c.pc.pastLoop = true → c.busyAtIssue = true → c.mark < exampleStoring.completed)) :=
  ⟨exampleStoring_reachable, by decide,
    threadedQueue_exclusive exampleStoring exampleStoring_reachable⟩

/-- Claim C12 on the initialised example creature, whose second move is vetoed:
the bits are true and false and no turn is forced; and on the same creature
without PP for the first move: both bits are false and the forced turn is
Struggle with index -1 and target -1. -/
theorem determineLegalActions_spec_witness :
    (exampleSpent.moves.length ≤ exampleSpent.pp.length) ∧
    (∃ p1, exampleSpent.determineLegalActions exampleContext = some p1 ∧
      p1.legalMove.length = exampleSpent.moves.length ∧
      (∀ i : Nat, p1.legalMove[i]? = some true ↔
        ∃ (mv : MoveObject) (q : Int), exampleSpent.moves[i]? = some (some mv) ∧
          exampleSpent.pp[i]? = some q ∧ 0 < q ∧ exampleContext.vetoSelection mv = false) ∧
      ((∀ b ∈ p1.legalMove, b = false) →
        p1.forcedTurn = some { type := TurnType.TT_MOVE, id := -1, target := -1 } ∧
          p1.forcedMove = some (newMoveObject exampleContext.struggle)) ∧
      (¬ (∀ b ∈ p1.legalMove, b = false) →
        p1.forcedTurn = exampleSpent.forcedTurn ∧ p1.forcedMove = exampleSpent.forcedMove)) ∧
    (exampleSpent.determineLegalActions exampleContext).map
        (fun p => (p.legalMove, p.forcedTurn, p.forcedMove.map (fun m => m.name))) =
      some ([false, false], some { type := TurnType.TT_MOVE, id := -1, target := -1 },
        some "Struggle") ∧
    (exampleInitialised.determineLegalActions exampleContext).map
        (fun p => (p.legalMove, p.forcedTurn, p.forcedMove.map (fun m => m.name))) =
      some ([true, false], none, none) :=
  ⟨by decide, determineLegalActions_spec exampleContext exampleSpent (by decide), by decide,
    by decide⟩

/-- Claim C16 in a doubles battle: party 0 has ordered a switch to team position
2 for its first creature; the request for its second creature has a mask of four
entries, as `getLegalSwitches` returns, with entry 2 cleared. -/
theorem requestAction_mask_witness :
    (doublesOneSwitch.turns[0]? =
        some [{ type := TurnType.TT_SWITCH, id := 2, target := 0 }] ∧
      doublesOneSwitch.requests[0]? = some [0, 1] ∧
      getClient doublesOneSwitch 0 = some 10) ∧
    (∃ msg, requestAction doublesField doublesOneSwitch 0 =
        some { doublesOneSwitch with
          sent := doublesOneSwitch.sent ++ [(10, OutMessage.REQUEST_ACTION msg)] } ∧
      msg.switches.length = (doublesField.getLegalSwitches
        { slot := 1, position := 1, switchLegal := true, forced := false,
          moveLegal := [true, true] }).length ∧
      (∀ t ∈ [({ type := TurnType.TT_SWITCH, id := 2, target := 0 } : PokemonTurn)],
        t.type = TurnType.TT_SWITCH → msg.switches[t.id.toNat]? = some false) ∧
      (∀ j, (∀ t ∈ [({ type := TurnType.TT_SWITCH, id := 2, target := 0 } : PokemonTurn)],
          ¬ SwitchesTo t j) →
        msg.switches[j]? = (doublesField.getLegalSwitches
          { slot := 1, position := 1, switchLegal := true, forced := false,
            moveLegal := [true, true] })[j]?)) ∧
    (requestAction doublesField doublesOneSwitch 0).map (fun r => r.sent) =
      some [(10, OutMessage.REQUEST_ACTION
        { fieldId := 7, slot := 1, position := 1, replacement := false,
          switches := [false, false, false, true],
          detail := some (true, false, some [true, true]) })] :=
  ⟨⟨by decide, by decide, by decide⟩,
    requestAction_mask doublesField doublesOneSwitch 0
      [{ type := TurnType.TT_SWITCH, id := 2, target := 0 }] [0, 1] 1
      { slot := 1, position := 1, switchLegal := true, forced := false,
        moveLegal := [true, true] } 10 (by decide) (by decide) (by decide) (by decide)
      (by decide) (by decide),
    by decide⟩

/-! ## The script function isImmune -/

/-- Whatever the loop finds, `isImmune` leaves false in `*ret`. -/
theorem isImmune_object (getMultiplier : Nat → Nat → ℚ) (p : Pokemon) (ret : Bool)
    (moveType : Nat) : isImmune getMultiplier p ret (some moveType) = some false := rfl

/-- Claim C30 fails on the code. A move of type 0 has multiplier 0 against type
7, the one type of the example creature, and the loop of `isImmune` ends with
true; yet `isImmune` returns false, because `*ret = JSVAL_FALSE` is executed
after the loop. -/
theorem isImmune_ghost :
    (∃ t ∈ exampleGhost.types, exampleChart 0 t = 0) ∧
    isImmuneLoop (exampleChart 0) exampleGhost.types false = true ∧
    isImmune exampleChart exampleGhost false (some 0) = some false ∧
    isImmune exampleChart exampleGhost true (some 0) = some false := by
  refine ⟨⟨7, by simp [exampleGhost], by simp [exampleChart]⟩, ?_, rfl, rfl⟩
  simp [isImmuneLoop, exampleGhost, exampleChart]

/-! ## The total of the health message -/

/-- Claim C28 fails. A creature at 1 of 200 has not fainted, and the total of
its health message is 0. -/
theorem health_total_zero_counterexample :
    0 < exampleScratched.statHp ∧ 0 ≤ exampleScratched.hp ∧
    exampleScratched.hp ≤ exampleScratched.statHp ∧ exampleScratched.hp ≠ 0 ∧
    exampleScratched.fainted = false ∧
    (informHealthChange 7 exampleScratched 0).map (fun msg => msg.total) = some 0 := by
  refine ⟨by decide, by decide, by decide, by decide, rfl, ?_⟩
  rw [informHealthChange_eq 7 exampleScratched 0 (by decide)]
  simp only [Option.map_some']
  rw [scaled_trunc_of_nonneg exampleScratched.hp exampleScratched.statHp (by decide) (by decide)]
  decide

/-- Claim C28, amended. For a creature with maximum `m > 0` and health `h` with
`0 ≤ h ≤ m`, the total of the message built by `informHealthChange` is 0 if and
only if `96 * h < m`; so it is 0 only if `h = 0` whenever `m ≤ 96`. -/
theorem health_total_zero_iff (fieldId : Int) (p : Pokemon) (raw : Int)
    (hm : 0 < p.statHp) (h0 : 0 ≤ p.hp) (h1 : p.hp ≤ p.statHp) :
    ∃ msg, informHealthChange fieldId p raw = some msg ∧
      (msg.total = 0 ↔ 96 * p.hp < p.statHp) ∧
      (p.statHp ≤ 96 → msg.total = 0 → p.hp = 0) := by
  refine ⟨_, informHealthChange_eq fieldId p raw hm, ?_⟩
  simp only
  have bt := scaled_bounds p.hp p.statHp hm h0 h1
  rw [scaled_trunc_of_nonneg p.hp p.statHp hm (by omega), toInt16_of_range (by omega) (by omega)]
  have key : (96 * p.hp + p.statHp) / (2 * p.statHp) = 0 ↔ 96 * p.hp < p.statHp := by
    constructor
    · intro e
      have := Int.lt_mul_ediv_self_add (x := 96 * p.hp + p.statHp) (show (0 : Int) < 2 * p.statHp by omega)
      rw [e] at this
      omega
    · intro e
      exact Int.ediv_eq_zero_of_lt (by omega) (by omega)
  refine ⟨key, fun hle hz => ?_⟩
  have := key.1 hz
  omega

/-- Claim C28, amended, on a creature at 1 of 200: `96 * 1 < 200`, and the total
is 0. -/
theorem health_total_zero_iff_witness :
    (0 < exampleScratched.statHp ∧ 0 ≤ exampleScratched.hp ∧
      exampleScratched.hp ≤ exampleScratched.statHp) ∧
    ∃ msg, informHealthChange 7 exampleScratched 0 = some msg ∧
      (msg.total = 0 ↔ 96 * exampleScratched.hp < exampleScratched.statHp) ∧
      (exampleScratched.statHp ≤ 96 → msg.total = 0 → exampleScratched.hp = 0) :=
  ⟨⟨by decide, by decide, by decide⟩,
    health_total_zero_iff 7 exampleScratched 0 (by decide) (by decide) (by decide)⟩

/-! ## The sweep -/

theorem eraseFirst_none (predicate : StatusObject → Bool) (l : List StatusObject)
    (h : eraseFirst predicate l = none) : l.filter (fun e => !predicate e) = l := by
  induction l with
  | nil => rfl
  | cons e rest ih =>
    unfold eraseFirst at h
    split at h
    · cases h
    · next hp =>
      simp only [Option.map_eq_none'] at h
      simp only [Bool.not_eq_true] at hp
      rw [List.filter_cons_of_pos (by simp [hp]), ih h]

theorem eraseFirst_filter (predicate : StatusObject → Bool) (l r : List StatusObject)
    (h : eraseFirst predicate l = some r) :
    r.filter (fun e => !predicate e) = l.filter (fun e => !predicate e) := by
  induction l generalizing r with
  | nil => simp [eraseFirst] at h
  | cons e rest ih =>
    unfold eraseFirst at h
    split at h
    · next hp =>
      simp only [Option.some.injEq] at h
      subst h
      rw [List.filter_cons_of_neg (by simp [hp])]
    · next hp =>
      simp only [Option.map_eq_some'] at h
      obtain ⟨l1, h1, h2⟩ := h
      subst h2
      simp only [Bool.not_eq_true] at hp
      rw [List.filter_cons_of_pos (by simp [hp]), List.filter_cons_of_pos (by simp [hp]),
        ih l1 h1]

/-- With more passes than effects, the loop of the sweep returns the effects
that do not satisfy the predicate. -/
theorem removeStatusesLoop_filter (predicate : StatusObject → Bool) (fuel : Nat)
    (l : List StatusObject) (h : l.length < fuel) :
    removeStatusesLoop predicate fuel l = some (l.filter (fun e => !predicate e)) := by
  induction fuel generalizing l with
  | zero => omega
  | succ n ih =>
    unfold removeStatusesLoop
    split
    · next hn => rw [eraseFirst_none predicate l hn]
    · next rest hr =>
      have hl := (eraseFirst_sublist predicate l rest hr).2
      rw [ih rest (by omega), eraseFirst_filter predicate l rest hr]

/-- Claim C25. For every effect list and every predicate, which is a pure
function here, `removeStatuses` returns, and it leaves the effects that do not
satisfy the predicate, in their order; the loop returns the same with any number
of passes above the number of effects. -/
theorem removeStatuses_filter (predicate : StatusObject → Bool) (l : List StatusObject) :
    removeStatusesIf predicate l = some (l.filter (fun e => !predicate e)) ∧
    (l.filter (fun e => !predicate e)).Sublist l ∧
    (∀ e, e ∈ l.filter (fun e => !predicate e) ↔ e ∈ l ∧ predicate e = false) ∧
    ∀ fuel, l.length < fuel →
      removeStatusesLoop predicate fuel l = some (l.filter (fun e => !predicate e)) := by
  refine ⟨removeStatusesLoop_filter predicate _ l (Nat.lt_succ_self _), List.filter_sublist l,
    fun e => ?_, fun fuel h => removeStatusesLoop_filter predicate fuel l h⟩
  simp [List.mem_filter]

/-- Claim C25 on the effects of the example creature after its ability was
replaced: the sweep of the removable effects erases the old ability and keeps
the item and the new ability, in this order. -/
theorem removeStatuses_filter_witness :
    (removeStatusesIf isRemovable exampleSwapped.effects =
        some (exampleSwapped.effects.filter (fun e => !isRemovable e)) ∧
      (exampleSwapped.effects.filter (fun e => !isRemovable e)).Sublist exampleSwapped.effects ∧
      (∀ e, e ∈ exampleSwapped.effects.filter (fun e => !isRemovable e) ↔
        e ∈ exampleSwapped.effects ∧ isRemovable e = false) ∧
      ∀ fuel, exampleSwapped.effects.length < fuel →
        removeStatusesLoop isRemovable fuel exampleSwapped.effects =
          some (exampleSwapped.effects.filter (fun e => !isRemovable e))) ∧
    exampleSwapped.effects.map (fun e => e.id) = ["Static", "Leftovers", "Intimidate"] ∧
    (removeStatusesIf isRemovable exampleSwapped.effects).map
      (fun l => l.map (fun e => e.id)) = some ["Leftovers", "Intimidate"] :=
  ⟨removeStatuses_filter isRemovable exampleSwapped.effects, by decide, by decide⟩

/-! ## Inherent priority -/

/-- What the loop of `getInherentPriority` returns from a running value. -/
theorem getInherentPriorityLoop_spec (l : List StatusObject) (ret : Int) :
    |ret| ≤ |getInherentPriorityLoop l ret| ∧
    (∀ e ∈ l, e.isActive = true → |e.inherentPriority| ≤ |getInherentPriorityLoop l ret|) ∧
    (getInherentPriorityLoop l ret = ret ∨
      ∃ l1 e l2, l = l1 ++ e :: l2 ∧ e.isActive = true ∧
        e.inherentPriority = getInherentPriorityLoop l ret ∧
        |ret| < |getInherentPriorityLoop l ret| ∧
        ∀ e1 ∈ l1, e1.isActive = true →
          |e1.inherentPriority| < |getInherentPriorityLoop l ret|) := by
  induction l generalizing ret with
  | nil => exact ⟨le_refl _, by simp, Or.inl rfl⟩
  | cons e rest ih =>
    unfold getInherentPriorityLoop
    cases ha : e.isActive with
    | false =>
      simp only [Bool.not_false, if_true]
      obtain ⟨a, b, c⟩ := ih ret
      refine ⟨a, ?_, ?_⟩
      · intro x hx hxa
        rcases List.mem_cons.1 hx with rfl | hx
        · rw [ha] at hxa; cases hxa
        · exact b x hx hxa
      · rcases c with c | ⟨l1, x, l2, e1, e2, e3, e4, e5⟩
        · exact Or.inl c
        · refine Or.inr ⟨e :: l1, x, l2, by rw [e1]; rfl, e2, e3, e4, ?_⟩
          intro y hy hya
          rcases List.mem_cons.1 hy with rfl | hy
          · rw [ha] at hya; cases hya
          · exact e5 y hy hya
    | true =>
      simp only [Bool.not_true, Bool.false_eq_true, if_false]
      split
      · next hgt =>
        obtain ⟨a, b, c⟩ := ih e.inherentPriority
        refine ⟨le_trans (le_of_lt hgt) a, ?_, ?_⟩
        · intro x hx hxa
          rcases List.mem_cons.1 hx with rfl | hx
          · exact a
          · exact b x hx hxa
        · rcases c with c | ⟨l1, x, l2, e1, e2, e3, e4, e5⟩
          · refine Or.inr ⟨[], e, rest, rfl, ha, c.symm, ?_, by simp⟩
            rw [c]
            exact hgt
          · refine Or.inr ⟨e :: l1, x, l2, by rw [e1]; rfl, e2, e3, lt_trans hgt e4, ?_⟩
            intro y hy hya
            rcases List.mem_cons.1 hy with rfl | hy
            · exact e4
            · exact e5 y hy hya
      · next hle =>
        have hle2 : |e.inherentPriority| ≤ |ret| := not_lt.1 hle
        obtain ⟨a, b, c⟩ := ih ret
        refine ⟨a, ?_, ?_⟩
        · intro x hx hxa
          rcases List.mem_cons.1 hx with rfl | hx
          · exact le_trans hle2 a
          · exact b x hx hxa
        · rcases c with c | ⟨l1, x, l2, e1, e2, e3, e4, e5⟩
          · exact Or.inl c
          · refine Or.inr ⟨e :: l1, x, l2, by rw [e1]; rfl, e2, e3, e4, ?_⟩
            intro y hy hya
            rcases List.mem_cons.1 hy with rfl | hy
            · exact lt_of_le_of_lt hle2 e4
            · exact e5 y hy hya

/-- Claim C23. For every creature, `getInherentPriority` returns a value `r`
whose magnitude is at least that of the inherent priority of every active
effect; `r` is 0, or it is the value of an active effect before which, in list
order, every active effect has a smaller magnitude; and without active effects
`r` is 0. The values are integers without bound. -/
theorem getInherentPriority_spec (p : Pokemon) :
    (∀ e ∈ p.effects, e.isActive = true → |e.inherentPriority| ≤ |p.getInherentPriority|) ∧
    (p.getInherentPriority = 0 ∨
      ∃ l1 e l2, p.effects = l1 ++ e :: l2 ∧ e.isActive = true ∧
        e.inherentPriority = p.getInherentPriority ∧
        ∀ e1 ∈ l1, e1.isActive = true → |e1.inherentPriority| < |p.getInherentPriority|) ∧
    ((∀ e ∈ p.effects, e.isActive = false) → p.getInherentPriority = 0) := by
  obtain ⟨_, b, c⟩ := getInherentPriorityLoop_spec p.effects 0
  refine ⟨b, ?_, ?_⟩
  · rcases c with c | ⟨l1, e, l2, e1, e2, e3, _, e5⟩
    · exact Or.inl c
    · exact Or.inr ⟨l1, e, l2, e1, e2, e3, e5⟩
  · intro hall
    rcases c with c | ⟨l1, e, l2, e1, e2, _, _, _⟩
    · exact c
    · have := hall e (by rw [e1]; simp)
      rw [e2] at this
      cases this

/-- Claim C23 on a creature whose effects have the inherent priorities 1, 5 (not
active), -3 and 3: the result is -3, the first of the two active values of
magnitude 3. -/
theorem getInherentPriority_spec_witness :
    ((∀ e ∈ examplePriorities.effects, e.isActive = true →
        |e.inherentPriority| ≤ |examplePriorities.getInherentPriority|) ∧
      (examplePriorities.getInherentPriority = 0 ∨
        ∃ l1 e l2, examplePriorities.effects = l1 ++ e :: l2 ∧ e.isActive = true ∧
          e.inherentPriority = examplePriorities.getInherentPriority ∧
          ∀ e1 ∈ l1, e1.isActive = true →
            |e1.inherentPriority| < |examplePriorities.getInherentPriority|) ∧
      ((∀ e ∈ examplePriorities.effects, e.isActive = false) →
        examplePriorities.getInherentPriority = 0)) ∧
    examplePriorities.getInherentPriority = -3 :=
  ⟨getInherentPriority_spec examplePriorities, by decide⟩

/-! ## Immunities and vulnerabilities -/

/-- The loop of `getImmunities` keeps the two sets disjoint when no immunity to
come is in the vulnerability set or follows its own vulnerability. -/
theorem getImmunitiesLoop_disjoint (l : List StatusObject) (immunities vulnerabilities : Finset Nat)
    (hd : ∀ t, t ∈ immunities → t ∉ vulnerabilities)
    (hp : ImmunityNotAfterVulnerability l)
    (hv : ∀ e ∈ l, e.isActive = true → ∀ t, e.immunity = some t → t ∉ vulnerabilities) :
    ∀ t, t ∈ (getImmunitiesLoop l (immunities, vulnerabilities)).1 →
      t ∉ (getImmunitiesLoop l (immunities, vulnerabilities)).2 := by
  induction l generalizing immunities vulnerabilities with
  | nil => exact hd
  | cons e rest ih =>
    unfold ImmunityNotAfterVulnerability at hp
    rw [List.pairwise_cons] at hp
    obtain ⟨hp1, hp2⟩ := hp
    have hvr : ∀ x ∈ rest, x.isActive = true → ∀ t, x.immunity = some t → t ∉ vulnerabilities :=
      fun x hx => hv x (List.mem_cons_of_mem _ hx)
    unfold getImmunitiesLoop
    cases ha : e.isActive with
    | false =>
      simp only [Bool.not_false, if_true]
      exact ih immunities vulnerabilities hd hp2 hvr
    | true =>
      simp only [Bool.not_true, Bool.false_eq_true, if_false]
      have hd1 : ∀ t, t ∈ (match e.immunity with
          | some type => insert type immunities
          | none => immunities) → t ∉ vulnerabilities := by
        intro t ht
        cases hi : e.immunity with
        | none =>
          rw [hi] at ht
          exact hd t ht
        | some t0 =>
          rw [hi] at ht
          simp only [Finset.mem_insert] at ht
          rcases ht with rfl | ht
          · exact hv e (List.mem_cons_self _ _) ha t hi
          · exact hd t ht
      cases hvu : e.vulnerability with
      | none =>
        simp only
        exact ih _ vulnerabilities hd1 hp2 hvr
      | some t2 =>
        simp only
        split
        · apply ih _ vulnerabilities _ hp2 hvr
          intro t ht
          exact hd1 t (Finset.mem_of_mem_erase ht)
        · next hni =>
          apply ih _ _ _ hp2
          · intro x hx hxa t hxi
            simp only [Finset.mem_insert, not_or]
            refine ⟨?_, hvr x hx hxa t hxi⟩
            intro e2
            subst e2
            exact hp1 x hx ha hxa t hvu hxi
          · intro t ht
            simp only [Finset.mem_insert, not_or]
            refine ⟨?_, hd1 t ht⟩
            intro e2
            subst e2
            exact hni ht

/-- Claim C29 fails. An effect that makes the creature vulnerable to type 3
followed by an effect that makes it immune to type 3 leaves type 3 in both
sets. -/
theorem getImmunities_counterexample :
    exampleVulnerableThenImmune.getImmunities ∅ ∅ = ({3}, {3}) ∧
    ¬ Disjoint (exampleVulnerableThenImmune.getImmunities ∅ ∅).1
      (exampleVulnerableThenImmune.getImmunities ∅ ∅).2 := by
  have e : exampleVulnerableThenImmune.getImmunities ∅ ∅ = ({3}, {3}) := by decide
  refine ⟨e, ?_⟩
  rw [e]
  decide

/-- Claim C29, amended. For every creature in whose effect list no active effect
reports as its immunity a type that an active effect earlier in the list reports
as its vulnerability, `getImmunities` with both sets empty at the start leaves
an immunity set and a vulnerability set that are disjoint. -/
theorem getImmunities_disjoint (p : Pokemon) (h : ImmunityNotAfterVulnerability p.effects) :
    Disjoint (p.getImmunities ∅ ∅).1 (p.getImmunities ∅ ∅).2 := by
  rw [Finset.disjoint_left]
  exact getImmunitiesLoop_disjoint p.effects ∅ ∅ (by simp) h (by simp)

theorem exampleImmuneThenVulnerable_order :
    ImmunityNotAfterVulnerability exampleImmuneThenVulnerable.effects := by
  unfold ImmunityNotAfterVulnerability exampleImmuneThenVulnerable
  simp

/-- Claim C29, amended, on a creature with an immunity to type 3, then a
vulnerability to type 3, then an effect with immunity 5 and vulnerability 4: the
immunity to 3 is cancelled, and the sets are 5 and 4. -/
theorem getImmunities_disjoint_witness :
    ImmunityNotAfterVulnerability exampleImmuneThenVulnerable.effects ∧
    Disjoint (exampleImmuneThenVulnerable.getImmunities ∅ ∅).1
      (exampleImmuneThenVulnerable.getImmunities ∅ ∅).2 ∧
    exampleImmuneThenVulnerable.getImmunities ∅ ∅ = ({5}, {4}) :=
  ⟨exampleImmuneThenVulnerable_order,
    getImmunities_disjoint exampleImmuneThenVulnerable exampleImmuneThenVulnerable_order,
    by decide⟩

/-! ## Departures after the end of the battle -/

theorem handlePart_terminated (fieldId : Int) (b : NetworkBattle) (client : Nat)
    (h : b.channelField = false) : handlePart fieldId b client = some b := by
  unfold handlePart
  simp [h]

theorem handleParts_terminated (fieldId : Int) (b : NetworkBattle) (clients : List Nat)
    (h : b.channelField = false) : handleParts fieldId b clients = some b := by
  induction clients with
  | nil => rfl
  | cons c rest ih =>
    unfold handleParts
    rw [handlePart_terminated fieldId b c h]
    exact ih

theorem informVictory_broadcasts (fieldId : Int) (b b1 : NetworkBattle) (party : Int)
    (h : NetworkBattle.informVictory fieldId b party = some b1) :
    b1.impl.broadcasts = b.impl.broadcasts ++ [OutMessage.BATTLE_VICTORY fieldId (toInt16 party)] ∧
    b1.channelField = false := by
  unfold NetworkBattle.informVictory NetworkBattle.terminate at h
  simp only [Option.bind_eq_bind, Option.bind_eq_some, Option.pure_def, Option.some.injEq] at h
  obtain ⟨_, _, _, _, h⟩ := h
  subst h
  exact ⟨rfl, rfl⟩

/-- Claim C27. Once `terminate` has returned for a battle, the back pointer of
the channel is cleared; from then on `handlePart` for any client, a former
participant or not, and any sequence of such calls, returns the battle as it is
without calling `informVictory` (a call of which would have added a broadcast),
so the broadcasts and the victory flag stay as they are. -/
theorem handlePart_after_terminate (fieldId : Int) (b b1 : NetworkBattle)
    (h : b.terminate = some b1) :
    b1.channelField = false ∧
    (∀ client, handlePart fieldId b1 client = some b1) ∧
    (∀ clients b2, handleParts fieldId b1 clients = some b2 →
      b2 = b1 ∧ b2.impl.broadcasts = b.impl.broadcasts ∧ b2.impl.victory = b.impl.victory) ∧
    (∀ clients, ∃ b2, handleParts fieldId b1 clients = some b2) ∧
    (∀ party b2, NetworkBattle.informVictory fieldId b1 party = some b2 →
      b2.impl.broadcasts ≠ b1.impl.broadcasts) := by
  have hb : b1 = { b with channelField := false } := by
    unfold NetworkBattle.terminate at h
    simp only [Option.bind_eq_bind, Option.bind_eq_some, Option.pure_def, Option.some.injEq] at h
    obtain ⟨_, _, _, _, h⟩ := h
    exact h.symm
  have hc : b1.channelField = false := by rw [hb]
  refine ⟨hc, fun client => handlePart_terminated fieldId b1 client hc, ?_, ?_, ?_⟩
  · intro clients b2 h2
    rw [handleParts_terminated fieldId b1 clients hc] at h2
    simp only [Option.some.injEq] at h2
    subst h2
    rw [hb]
    exact ⟨rfl, rfl, rfl⟩
  · intro clients
    exact ⟨b1, handleParts_terminated fieldId b1 clients hc⟩
  · intro party b2 h2 e
    have := (informVictory_broadcasts fieldId b1 b2 party h2).1
    rw [e] at this
    have := congrArg List.length this
    simp at this

/-- Claim C27 in the example battle: after `terminate`, the departure of client
11, who is party 1, and then of client 10 changes nothing, while before
`terminate` the departure of client 11 broadcasts a victory. -/
theorem handlePart_after_terminate_witness :
    exampleBattle.terminate = some exampleTerminated ∧
    (exampleTerminated.channelField = false ∧
      (∀ client, handlePart 7 exampleTerminated client = some exampleTerminated) ∧
      (∀ clients b2, handleParts 7 exampleTerminated clients = some b2 →
        b2 = exampleTerminated ∧ b2.impl.broadcasts = exampleBattle.impl.broadcasts ∧
          b2.impl.victory = exampleBattle.impl.victory) ∧
      (∀ clients, ∃ b2, handleParts 7 exampleTerminated clients = some b2) ∧
      (∀ party b2, NetworkBattle.informVictory 7 exampleTerminated party = some b2 →
        b2.impl.broadcasts ≠ exampleTerminated.impl.broadcasts)) ∧
    getParty exampleTerminated.impl 11 = 1 ∧
    handleParts 7 exampleTerminated [11, 10] = some exampleTerminated ∧
    (handlePart 7 exampleBattle 11).map (fun b => b.impl.broadcasts) =
      some [OutMessage.BATTLE_VICTORY 7 0] :=
  ⟨by decide, handlePart_after_terminate 7 exampleBattle exampleTerminated (by decide),
    by decide, by decide, by decide⟩

/-! ## Rounds posted by an order -/

/-- Claim C24. On a two-party state, whenever `handleTurn` returns with the list
of posted rounds changed, exactly one round was added; that round is not empty
and its length is the sum of the lengths of the two request lists as they were
before the call, which are the lists `maybeExecuteTurn` then cleared. This holds
also when one of the request lists is empty. -/
theorem handleTurn_posts_nonempty (f : BattleField) (s s1 : NetworkBattleImpl) (party : Nat)
    (turn : PokemonTurn) (t0 t1 : PARTY_TURN) (r0 r1 : PARTY_REQUEST)
    (ht : s.turns = [t0, t1]) (hr : s.requests = [r0, r1])
    (h : handleTurn f s party turn = some s1) (hp : s1.posted ≠ s.posted) :
    ∃ round, s1.posted = s.posted ++ [round] ∧ round ≠ [] ∧
      round.length = r0.length + r1.length ∧ s1.requests = [[], []] := by
  rcases handleTurn_cases h with ⟨_, _, e⟩ | ⟨pturn, req, hpt, _, _, _, hc⟩
  · exact absurd e hp
  · rcases hc with ⟨_, _, _, e⟩ | ⟨_, hm⟩
    · exact absurd e hp
    · rw [ht] at hpt
      have hparty : party = 0 ∨ party = 1 := by
        match party, hpt with
        | 0, _ => exact Or.inl rfl
        | 1, _ => exact Or.inr rfl
        | n + 2, hpt => simp at hpt
      rcases hparty with rfl | rfl
      · simp only [List.getElem?_cons_zero, Option.some.injEq] at hpt
        subst hpt
        have ht2 : ({ s with turns := s.turns.set 0 (t0 ++ [turn]) } : NetworkBattleImpl).turns =
            [t0 ++ [turn], t1] := by simp [ht]
        rw [maybeExecuteTurn_two ht2 hr] at hm
        split at hm
        · next hc =>
          simp only [Option.some.injEq] at hm
          subst hm
          refine ⟨(t0 ++ [turn]) ++ t1, rfl, by simp, ?_, rfl⟩
          rw [List.length_append, ← hc.1, ← hc.2]
        · simp only [Option.some.injEq] at hm
          subst hm
          exact absurd rfl hp
      · simp only [List.getElem?_cons_succ, List.getElem?_cons_zero, Option.some.injEq] at hpt
        subst hpt
        have ht2 : ({ s with turns := s.turns.set 1 (t1 ++ [turn]) } : NetworkBattleImpl).turns =
            [t0, t1 ++ [turn]] := by simp [ht]
        rw [maybeExecuteTurn_two ht2 hr] at hm
        split at hm
        · next hc =>
          simp only [Option.some.injEq] at hm
          subst hm
          refine ⟨t0 ++ (t1 ++ [turn]), rfl, by simp, ?_, rfl⟩
          rw [List.length_append, ← hc.1, ← hc.2]
        · simp only [Option.some.injEq] at hm
          subst hm
          exact absurd rfl hp

/-- Claim C24 in the example battle: party 0 has submitted its one order, and
the order of party 1 posts a round of two orders; and in a battle in which
party 1 owes nothing, the one order of party 0 posts a round of one order. -/
theorem handleTurn_posts_nonempty_witness :
    (exampleOneOrder.turns = [[{ type := TurnType.TT_SWITCH, id := 1, target := 0 }], []] ∧
      exampleOneOrder.requests = [[0], [0]] ∧
      handleTurn exampleField exampleOneOrder 1 { type := TurnType.TT_MOVE, id := 0, target := 0 } =
        some examplePosted ∧
      examplePosted.posted ≠ exampleOneOrder.posted) ∧
    (∃ round, examplePosted.posted = exampleOneOrder.posted ++ [round] ∧ round ≠ [] ∧
      round.length = ([0] : PARTY_REQUEST).length + ([0] : PARTY_REQUEST).length ∧
      examplePosted.requests = [[], []]) ∧
    (handleTurn exampleField exampleOneSided 0
        { type := TurnType.TT_MOVE, id := 0, target := 0 }).map (fun st => st.posted) =
      some [[{ type := TurnType.TT_MOVE, id := 0, target := 0 }]] :=
  ⟨⟨rfl, rfl, by decide, by decide⟩,
    handleTurn_posts_nonempty exampleField exampleOneOrder examplePosted 1
      { type := TurnType.TT_MOVE, id := 0, target := 0 }
      [{ type := TurnType.TT_SWITCH, id := 1, target := 0 }] [] [0] [0] rfl rfl (by decide)
      (by decide),
    by decide⟩

/-! ## Switching out -/

/-- What `applyStatus` does to the identities in the effect list when
`transformStatus` keeps the object: it adds nothing or one object with the next
identity; the rest of the creature is as it was. -/
theorem applyStatus_handles (cx : BattleContext)
    (hts : ∀ e e1, cx.transformStatus e = some e1 → e1.handle = e.handle) (p : Pokemon)
    (inducer : Option Nat) (effect : StatusObject) :
    (p.applyStatus cx inducer (some effect)).1.fainted = p.fainted ∧
    ∀ e1 ∈ (p.applyStatus cx inducer (some effect)).1.effects,
      e1 ∈ p.effects ∨ e1.handle = p.nextHandle := by
  unfold Pokemon.applyStatus
  simp only
  split
  · exact ⟨rfl, fun e1 h => Or.inl h⟩
  · split
    · exact ⟨rfl, fun e1 h => Or.inl h⟩
    · split
      · exact ⟨rfl, fun e1 h => Or.inl h⟩
      · next applied happ =>
        split
        · exact ⟨rfl, fun e1 h => Or.inl h⟩
        · refine ⟨rfl, fun e1 h => ?_⟩
          simp only [List.mem_append, List.mem_singleton] at h
          rcases h with h | h
          · exact Or.inl h
          · right
            rw [h, hts _ _ happ]
            cases inducer <;> rfl

theorem removeStatus_handles (p : Pokemon) (status : Nat) :
    (p.removeStatus status).fainted = p.fainted ∧
    (p.removeStatus status).nextHandle = p.nextHandle ∧
    ∀ e1 ∈ (p.removeStatus status).effects, ∃ e0 ∈ p.effects, e0.handle = e1.handle := by
  refine ⟨rfl, rfl, fun e1 h => ?_⟩
  unfold Pokemon.removeStatus at h
  simp only [List.mem_map] at h
  obtain ⟨e0, h0, rfl⟩ := h
  refine ⟨e0, h0, ?_⟩
  split <;> rfl

theorem setAbilityByName_handles (cx : BattleContext)
    (hts : ∀ e e1, cx.transformStatus e = some e1 → e1.handle = e.handle) (p : Pokemon)
    (name : String) :
    (p.setAbilityByName cx name).fainted = p.fainted ∧
    ∀ e1 ∈ (p.setAbilityByName cx name).effects,
      (∃ e0 ∈ p.effects, e0.handle = e1.handle) ∨ e1.handle = p.nextHandle := by
  unfold Pokemon.setAbilityByName
  cases cx.getAbility name with
  | none => exact ⟨rfl, fun e1 h => Or.inl ⟨e1, h, rfl⟩⟩
  | some obj =>
    simp only [Pokemon.setAbility]
    cases p.ability with
    | none =>
      obtain ⟨a, b⟩ := applyStatus_handles cx hts p none obj
      refine ⟨a, fun e1 h => ?_⟩
      rcases b e1 h with h1 | h1
      · exact Or.inl ⟨e1, h1, rfl⟩
      · exact Or.inr h1
    | some status =>
      obtain ⟨a, b⟩ := applyStatus_handles cx hts (p.removeStatus status) none obj
      obtain ⟨c, d, e⟩ := removeStatus_handles p status
      refine ⟨a.trans c, fun e1 h => ?_⟩
      rcases b e1 h with h1 | h1
      · exact Or.inl (e e1 h1)
      · exact Or.inr (h1.trans d)

/-- Claim C22. For a creature whose effects have distinct identities, all older
than the next one, and a field whose `transformStatus` keeps the object it is
given: `switchOut` returns; afterwards the slot is -1, the memory is empty, the
last move is cleared, the acted flag is false, and there is one move-used flag
per move, all false; the health, the PP and the fainted flag are as before; and
no effect that was active and whose `switchOut` hook answered true is in the
effect list. -/
theorem switchOut_spec (cx : BattleContext) (p : Pokemon)
    (hts : ∀ e e1, cx.transformStatus e = some e1 → e1.handle = e.handle)
    (hfresh : ∀ e ∈ p.effects, e.handle < p.nextHandle)
    (hnodup : (p.effects.map (fun e => e.handle)).Nodup) :
    ∃ p1, p.switchOut cx = some p1 ∧
      p1.slot = -1 ∧ p1.memory = [] ∧ p1.lastMove = none ∧ p1.acted = false ∧
      p1.moves = p.moves ∧ p1.moveUsed = List.replicate p1.moves.length false ∧
      p1.hp = p.hp ∧ p1.pp = p.pp ∧ p1.fainted = p.fainted ∧
      ∀ e ∈ p.effects, e.isActive = true → e.switchOut = true →
        ∀ e1 ∈ p1.effects, e1.handle ≠ e.handle := by
  have hl := removeStatusesLoop_filter switchOutPredicate (p.effects.length + 1) p.effects
    (Nat.lt_succ_self _)
  have hb := setAbilityByName_body cx
    { p with effects := p.effects.filter (fun e => !switchOutPredicate e) } p.abilityName
  obtain ⟨hf, hh⟩ := setAbilityByName_handles cx hts
    { p with effects := p.effects.filter (fun e => !switchOutPredicate e) } p.abilityName
  refine ⟨{ Pokemon.setAbilityByName cx
        { p with effects := p.effects.filter (fun e => !switchOutPredicate e) } p.abilityName with
      slot := -1
      memory := []
      moveUsed := List.replicate (Pokemon.setAbilityByName cx
        { p with effects := p.effects.filter (fun e => !switchOutPredicate e) }
          p.abilityName).moves.length false
      lastMove := none
      acted := false }, ?_, rfl, rfl, rfl, rfl, hb.2.2.2.1, rfl, hb.1, hb.2.2.2.2, hf, ?_⟩
  · unfold Pokemon.switchOut
    simp only [removeStatusesIf, hl, Option.bind_eq_bind, Option.some_bind, Option.pure_def]
  intro e he hact hsw e1 he1 heq
  have hpred : switchOutPredicate e = true := by simp [switchOutPredicate, hact, hsw]
  rcases hh e1 he1 with ⟨e0, he0, h0⟩ | h1
  · simp only [List.mem_filter, Bool.not_eq_true'] at he0
    have hinj := List.inj_on_of_nodup_map hnodup he0.1 he (h0.trans heq)
    rw [hinj, hpred] at he0
    cases he0.2
  · have := hfresh e he
    simp only at h1
    omega

/-- Claim C22 on the example creature in slot 0 that has acted and carries a
condition dropped on switching out: afterwards it is in no slot, its flags and
memory are cleared, it is still at 60 with the PP 23 and 15, and the condition
is gone while the item stays and the ability is installed anew. -/
theorem switchOut_spec_witness :
    ((∀ e e1, exampleContext.transformStatus e = some e1 → e1.handle = e.handle) ∧
      (∀ e ∈ exampleActive.effects, e.handle < exampleActive.nextHandle) ∧
      (exampleActive.effects.map (fun e => e.handle)).Nodup) ∧
    (∃ p1, exampleActive.switchOut exampleContext = some p1 ∧
      p1.slot = -1 ∧ p1.memory = [] ∧ p1.lastMove = none ∧ p1.acted = false ∧
      p1.moves = exampleActive.moves ∧ p1.moveUsed = List.replicate p1.moves.length false ∧
      p1.hp = exampleActive.hp ∧ p1.pp = exampleActive.pp ∧
      p1.fainted = exampleActive.fainted ∧
      ∀ e ∈ exampleActive.effects, e.isActive = true → e.switchOut = true →
        ∀ e1 ∈ p1.effects, e1.handle ≠ e.handle) ∧
    exampleActive.effects.map (fun e => (e.handle, e.id, e.removable)) =
      [(0, "Static", false), (1, "Leftovers", false), (2, "Confusion", false)] ∧
    (exampleActive.switchOut exampleContext).map
        (fun p1 => p1.effects.map (fun e => (e.handle, e.id, e.removable))) =
      some [(0, "Static", true), (1, "Leftovers", false), (3, "Static", false)] ∧
    (exampleActive.switchOut exampleContext).map (fun p1 => (p1.slot, p1.hp, p1.pp)) =
      some (-1, 60, [23, 15]) ∧
    (exampleActive.switchOut exampleContext).map (fun p1 => (p1.moveUsed, p1.acted)) =
      some ([false, false], false) :=
  ⟨⟨fun e e1 he => (exampleContext_keepsKinds.2.2 e e1 he).1, by decide, by decide⟩,
    switchOut_spec exampleContext exampleActive
      (fun e e1 he => (exampleContext_keepsKinds.2.2 e e1 he).1) (by decide) (by decide),
    by decide, by decide, by decide, by decide⟩

/-! ## Stats -/

/-- When the species has every named move, the constructor keeps one template
per name, in order. -/
theorem newPokemon_aligned (getMove : String → Option MoveTemplate)
    (speciesName nickname ability item : String) (moves : List String) (ppUps : List Int)
    (h : ∀ n ∈ moves, (getMove n).isSome = true) :
    (newPokemon getMove speciesName nickname ability item moves ppUps).moveProto.map some =
      moves.map getMove := by
  simp only [newPokemon]
  induction moves with
  | nil => rfl
  | cons n rest ih =>
    have hn := h n (List.mem_cons_self _ _)
    obtain ⟨t, ht⟩ := Option.isSome_iff_exists.1 hn
    rw [List.filterMap_cons_some ht, List.map_cons, List.map_cons, ht,
      ih (fun m hm => h m (List.mem_cons_of_mem _ hm))]

/-- Claim C26 fails on the code. A creature is constructed with the moves Fly
and Surf and the PP-ups 3 and 0; its species has no Fly, so Surf is its one move
template while `m_ppUps` keeps both counts. `initialise` gives Surf, whose base
PP is 15 and whose PP-up count is 0, the PP 24, computed with the count 3 that
was supplied for Fly. -/
theorem ppUps_misaligned :
    exampleMoves "Fly" = none ∧
    exampleDropped.moveProto.map (fun t => (t.name, t.pp)) = [("Surf", 15)] ∧
    exampleDropped.ppUps = [3, 0] ∧
    (["Fly", "Surf"].zip [(3 : Int), 0]).lookup "Surf" = some 0 ∧
    (exampleDropped.initialise exampleContext 0 0).map (fun p => p.pp) = some [24] ∧
    Int.tdiv (15 * (5 + 0)) 5 = 15 ∧ Int.tdiv (15 * (5 + 3)) 5 = 24 := by
  refine ⟨by decide, by decide, by decide, by decide, by decide, by decide, by decide⟩

end shoddybattle
